import Mathlib

/-
Verification of the denormalized multi-index data-access layer implemented
over Redis in this repository (e_commerce, iot, movies, social_media).

The Redis store is shallowly embedded as four finite association maps, one
per key type used by the code: field-maps (HASH), ordered sequences (LIST),
membership sets (SET) and score-ordered collections (SORTED SET).  Scores
are modelled as rationals.  Hash field values are byte strings in Redis; a
field that only ever holds the canonical decimal rendering of an integer
counter is modelled by the constructor `HVal.i`, all other values by
`HVal.s` (the rendering of integers is injective, so this is a faithful
renaming of a subset of the strings).  Pipelined writes are modelled as
immediate writes: a pipeline only defers the very same commands, so the
state after `pipe.execute()` is identical.
-/

/-- A value stored in a hash field. -/
inductive HVal where
  | s (v : String)
  | i (n : Int)
deriving DecidableEq, Repr

/-- The decoded string a Python caller sees for a stored hash value. -/
def HVal.render : HVal → String
  | .s v => v
  | .i n => toString n

abbrev Hash := List (String × HVal)

/-- The whole key space of the Redis instance, split by value type.
A Redis key holds at most one type at a time; `DEL` is typeless and is
modelled by removal from all four maps. -/
structure St where
  hashes : List (String × Hash)
  lists  : List (String × List String)
  sets   : List (String × List String)
  zsets  : List (String × List (String × Rat))
deriving DecidableEq, Repr

def St.empty : St := ⟨[], [], [], []⟩

/-- Association-list lookup. -/
def alook {κ β : Type} [DecidableEq κ] (m : List (κ × β)) (k : κ) : Option β :=
  match m with
  | [] => none
  | (k', v) :: t => if k' = k then some v else alook t k

/-- Upsert: rewrite the value at `k` in place, or append `(k, f d)` if absent.
Keeping the first position of a key mirrors Python dict insertion order. -/
def aupd {κ β : Type} [DecidableEq κ] (m : List (κ × β)) (k : κ) (d : β) (f : β → β) :
    List (κ × β) :=
  match m with
  | [] => [(k, f d)]
  | (k', v) :: t => if k' = k then (k', f v) :: t else (k', v) :: aupd t k d f

/-- Modify the value at `k` if present; never creates the key. -/
def amod {κ β : Type} [DecidableEq κ] (m : List (κ × β)) (k : κ) (f : β → β) :
    List (κ × β) :=
  match m with
  | [] => []
  | (k', v) :: t => if k' = k then (k', f v) :: t else (k', v) :: amod t k f

/-- Remove the key `k` entirely. -/
def adel {κ β : Type} [DecidableEq κ] (m : List (κ × β)) (k : κ) : List (κ × β) :=
  m.filter (fun p => p.1 != k)

/-! Hash (field-map) commands -/

def St.hfind (st : St) (k : String) : Option Hash := alook st.hashes k

/-- `HGETALL`: absent keys read as the empty field-map. -/
def St.hgetall (st : St) (k : String) : Hash := (st.hfind k).getD []

def St.hget (st : St) (k f : String) : Option HVal := alook (st.hgetall k) f

/-- The decoded string value of a field, as `hgetall(...)[f]` in Python. -/
def St.hgetS (st : St) (k f : String) : Option String := (st.hget k f).map HVal.render

def hashSet (h : Hash) (f : String) (v : HVal) : Hash := aupd h f v (fun _ => v)

/-- `HSET key f v`. -/
def St.hset1 (st : St) (k f : String) (v : HVal) : St :=
  { st with hashes := aupd st.hashes k [] (fun h => hashSet h f v) }

/-- `HSET key mapping={...}`: merge the given fields into the record. -/
def St.hsetM (st : St) (k : String) (pairs : List (String × HVal)) : St :=
  { st with hashes := aupd st.hashes k [] (fun h => pairs.foldl (fun h2 p => hashSet h2 p.1 p.2) h) }

/-- `HINCRBY`.  A missing field counts as 0.  Redis raises on a field that is
not a canonical integer; the claims only exercise this command on fields
hypothesised to be integer counters (`HVal.i`), where the model agrees with
Redis, so the non-integer branch is left as an inert no-op. -/
def St.hincrby (st : St) (k f : String) (d : Int) : St :=
  match st.hget k f with
  | none => st.hset1 k f (.i d)
  | some (.i n) => st.hset1 k f (.i (n + d))
  | some (.s _) => st

/-- `DEL key` (typeless). -/
def St.del (st : St) (k : String) : St :=
  ⟨adel st.hashes k, adel st.lists k, adel st.sets k, adel st.zsets k⟩

/-! List commands -/

def St.llist (st : St) (k : String) : List String := (alook st.lists k).getD []

/-- `LPUSH`: prepend. -/
def St.lpush (st : St) (k v : String) : St :=
  { st with lists := aupd st.lists k [] (fun l => v :: l) }

/-- `LREM key 0 v`: remove all occurrences of `v`. -/
def St.lremAll (st : St) (k v : String) : St :=
  { st with lists := amod st.lists k (fun l => l.filter (fun x => x != v)) }

/-- Normalise a possibly negative Redis index against the length. -/
def normIdx (len : Nat) (i : Int) : Int := if i < 0 then (len : Int) + i else i

/-- The inclusive `[start, stop]` slice with Redis index conventions. -/
def sliceII {α : Type} (l : List α) (start stop : Int) : List α :=
  let a := normIdx l.length start
  let b := normIdx l.length stop
  if a ≤ b then (l.take (b.toNat + 1)).drop a.toNat else []

/-- `LRANGE`. -/
def St.lrange (st : St) (k : String) (start stop : Int) : List String :=
  sliceII (st.llist k) start stop

/-! Set commands -/

def St.smembers (st : St) (k : String) : List String := (alook st.sets k).getD []

def St.sismember (st : St) (k v : String) : Bool := (st.smembers k).contains v

/-- `SADD`: membership is idempotent. -/
def St.sadd (st : St) (k v : String) : St :=
  { st with sets := aupd st.sets k [] (fun l => if l.contains v then l else l ++ [v]) }

/-- `SREM`. -/
def St.srem (st : St) (k v : String) : St :=
  { st with sets := amod st.sets k (fun l => l.filter (fun x => x != v)) }

/-- `SCARD`. -/
def St.scard (st : St) (k : String) : Nat := (st.smembers k).length

/-! Sorted-set commands -/

def St.zentries (st : St) (k : String) : List (String × Rat) := (alook st.zsets k).getD []

def St.zscore (st : St) (k m : String) : Option Rat := alook (st.zentries k) m

def zUpsert (l : List (String × Rat)) (m : String) (sc : Rat) : List (String × Rat) :=
  aupd l m sc (fun _ => sc)

/-- `ZADD`: upsert the member's score. -/
def St.zadd (st : St) (k m : String) (sc : Rat) : St :=
  { st with zsets := aupd st.zsets k [] (fun l => zUpsert l m sc) }

/-- `ZINCRBY`: a missing member counts as score 0. -/
def St.zincrby (st : St) (k : String) (d : Rat) (m : String) : St :=
  { st with zsets := aupd st.zsets k [] (fun l => zUpsert l m ((alook l m).getD 0 + d)) }

/-- `ZREM`. -/
def St.zrem (st : St) (k m : String) : St :=
  { st with zsets := amod st.zsets k (fun l => l.filter (fun e => e.1 != m)) }

def St.zmember (st : St) (k m : String) : Bool := (st.zentries k).any (fun e => e.1 == m)

/-- The canonical ascending order of a sorted set: by score, ties by member
(Redis orders tied members lexicographically). -/
def zleA (a b : String × Rat) : Prop := a.2 < b.2 ∨ (a.2 = b.2 ∧ a.1 ≤ b.1)

/-- The canonical descending order (exact reverse of `zleA`). -/
def zleD (a b : String × Rat) : Prop := b.2 < a.2 ∨ (a.2 = b.2 ∧ b.1 ≤ a.1)

instance : DecidableRel zleA := fun a b => by unfold zleA; infer_instance

instance : DecidableRel zleD := fun a b => by unfold zleD; infer_instance

instance : IsTotal (String × Rat) zleA :=
  ⟨by
    intro a b
    rcases lt_trichotomy a.2 b.2 with h | h | h
    · exact Or.inl (Or.inl h)
    · rcases le_total a.1 b.1 with h2 | h2
      · exact Or.inl (Or.inr ⟨h, h2⟩)
      · exact Or.inr (Or.inr ⟨h.symm, h2⟩)
    · exact Or.inr (Or.inl h)⟩

instance : IsTrans (String × Rat) zleA :=
  ⟨by
    intro a b c hab hbc
    rcases hab with h1 | ⟨e1, m1⟩
    · rcases hbc with h2 | ⟨e2, m2⟩
      · exact Or.inl (h1.trans h2)
      · exact Or.inl (e2 ▸ h1)
    · rcases hbc with h2 | ⟨e2, m2⟩
      · exact Or.inl (e1 ▸ h2)
      · exact Or.inr ⟨e1.trans e2, m1.trans m2⟩⟩

instance : IsTotal (String × Rat) zleD :=
  ⟨by
    intro a b
    rcases lt_trichotomy a.2 b.2 with h | h | h
    · exact Or.inr (Or.inl h)
    · rcases le_total a.1 b.1 with h2 | h2
      · exact Or.inr (Or.inr ⟨h.symm, h2⟩)
      · exact Or.inl (Or.inr ⟨h, h2⟩)
    · exact Or.inl (Or.inl h)⟩

instance : IsTrans (String × Rat) zleD :=
  ⟨by
    intro a b c hab hbc
    rcases hab with h1 | ⟨e1, m1⟩
    · rcases hbc with h2 | ⟨e2, m2⟩
      · exact Or.inl (h2.trans h1)
      · exact Or.inl (e2 ▸ h1)
    · rcases hbc with h2 | ⟨e2, m2⟩
      · exact Or.inl (e1 ▸ h2)
      · exact Or.inr ⟨e1.trans e2, m2.trans m1⟩⟩

/-- `ZRANGEBYSCORE key lo hi WITHSCORES` (both bounds inclusive, ascending). -/
def St.zrangebyscoreP (st : St) (k : String) (lo hi : Rat) : List (String × Rat) :=
  List.insertionSort zleA
    ((st.zentries k).filter (fun e => decide (lo ≤ e.2) && decide (e.2 ≤ hi)))

/-- `ZREVRANGE key start stop WITHSCORES` (rank slice of the descending order). -/
def St.zrevrangeP (st : St) (k : String) (start stop : Int) : List (String × Rat) :=
  sliceII (List.insertionSort zleD (st.zentries k)) start stop

/-! ## e_commerce/queries.py -/

/-- Python `str.lower()` (character-wise; the data here is ASCII). -/
def lowerStr (s : String) : String := ⟨s.data.map Char.toLower⟩

/-- Python `s[:n]` (slicing by code points). -/
def strTake (s : String) (n : Nat) : String := ⟨s.data.take n⟩

/-- Python truthiness of an optional decoded value (`if x:`): `None` and the
empty string are falsy. -/
def truthy (o : Option String) : Bool :=
  match o with
  | none => false
  | some v => v != ""

/-- `create_order(order_id, customer_id, status)` from e_commerce/queries.py. -/
def create_order (order_id customer_id status : String) (st : St) : St :=
  ((((st.hsetM ("order:" ++ order_id)
      [("customer_id", .s customer_id), ("status", .s status)]).lpush
      ("customer:" ++ customer_id ++ ":orders") order_id).sadd
      ("order:status:" ++ status) order_id).sadd "order:all" order_id)

/-- `add_review(order_id, score, comment)` from e_commerce/queries.py. -/
def add_review (order_id : String) (score : Rat) (comment : String) (st : St) : St :=
  (st.hsetM ("order:" ++ order_id ++ ":review")
    [("score", .s (toString score)), ("comment", .s (strTake comment 500))]).zadd
    "review:scores" order_id score

/-- `get_order(order_id)`: the decoded field-map. -/
def get_order (order_id : String) (st : St) : Hash := st.hgetall ("order:" ++ order_id)

/-- `get_customer_orders(customer_id, limit)`. -/
def get_customer_orders (customer_id : String) (limit : Int) (st : St) : List String :=
  st.lrange ("customer:" ++ customer_id ++ ":orders") 0 (limit - 1)

/-- `update_order_status(order_id, new_status)`: remove from the old status
partition (when the old status is truthy), set the field, add to the new one. -/
def update_order_status (order_id new_status : String) (st : St) : St :=
  let s1 :=
    match st.hgetS ("order:" ++ order_id) "status" with
    | some old => if old = "" then st else st.srem ("order:status:" ++ old) order_id
    | none => st
  (s1.hset1 ("order:" ++ order_id) "status" (.s new_status)).sadd
    ("order:status:" ++ new_status) order_id

/-- A primitive store command, used to expose the intermediate states of the
multi-step delete operations. -/
inductive PrimOp where
  | lrem (k v : String)
  | srem (k v : String)
  | zrem (k m : String)
  | del (k : String)
deriving DecidableEq, Repr

def PrimOp.apply (op : PrimOp) (st : St) : St :=
  match op with
  | .lrem k v => st.lremAll k v
  | .srem k v => st.srem k v
  | .zrem k m => st.zrem k m
  | .del k => st.del k

def runPrims (ops : List PrimOp) (st : St) : St := ops.foldl (fun t op => op.apply t) st

/-- The command sequence issued by `delete_order(order_id)`, in program order:
the reads (`get_order`, `.get(...)`) all happen before the first write. -/
def deleteOrderSteps (st : St) (order_id : String) : List PrimOp :=
  let order := get_order order_id st
  let customer_id := (alook order "customer_id").map HVal.render
  let status := (alook order "status").map HVal.render
  (if truthy customer_id then
    [.lrem ("customer:" ++ customer_id.getD "" ++ ":orders") order_id] else []) ++
  (if truthy status then
    [.srem ("order:status:" ++ status.getD "") order_id] else []) ++
  [.srem "order:all" order_id, .zrem "review:scores" order_id,
   .del ("order:" ++ order_id), .del ("order:" ++ order_id ++ ":items"),
   .del ("order:" ++ order_id ++ ":payments"), .del ("order:" ++ order_id ++ ":review")]

/-- `delete_order(order_id)` from e_commerce/queries.py. -/
def delete_order (order_id : String) (st : St) : St :=
  runPrims (deleteOrderSteps st order_id) st

/-- `top_selling_products(n)`: `ZREVRANGE product:sales 0 n-1 WITHSCORES`. -/
def top_selling_products (n : Int) (st : St) : List (String × Rat) :=
  st.zrevrangeP "product:sales" 0 (n - 1)

/-! ## iot/queries.py -/

/-- `get_readings_in_range(mote_id, start_epoch, end_epoch, limit)`:
`ZRANGEBYSCORE` on the reading time series with `start=0, num=limit`; the
members (JSON-encoded readings) are returned, scores stripped. -/
def get_readings_in_range (mote_id : String) (start_epoch end_epoch : Rat)
    (limit : Nat) (st : St) : List String :=
  ((st.zrangebyscoreP ("sensor:" ++ mote_id ++ ":readings") start_epoch end_epoch).take
    limit).map (fun e => e.1)

/-- `sensors_in_temperature_range(min_temp, max_temp)`. -/
def sensors_in_temperature_range (min_temp max_temp : Rat) (st : St) :
    List (String × Rat) :=
  st.zrangebyscoreP "sensor:avg:temperature" min_temp max_temp

/-- `top_hottest_sensors(n)`. -/
def top_hottest_sensors (n : Int) (st : St) : List (String × Rat) :=
  st.zrevrangeP "sensor:avg:temperature" 0 (n - 1)

/-- The command sequence issued by `delete_sensor(mote_id)`, in program order. -/
def deleteSensorSteps (mote_id : String) : List PrimOp :=
  [.srem "sensor:all" mote_id, .zrem "sensor:avg:temperature" mote_id,
   .del ("sensor:" ++ mote_id), .del ("sensor:" ++ mote_id ++ ":readings"),
   .del ("sensor:" ++ mote_id ++ ":latest"), .del ("sensor:" ++ mote_id ++ ":connectivity")]

/-- `delete_sensor(mote_id)` from iot/queries.py. -/
def delete_sensor (mote_id : String) (st : St) : St :=
  runPrims (deleteSensorSteps mote_id) st

/-! ## social_media/queries.py -/

/-- A character matched by `\w` in the hashtag regex (ASCII word character). -/
def isWordChar (c : Char) : Bool := c.isAlphanum || c = '_'

/-- Left-to-right scan equivalent to `re.findall(r'#(\w+)', text)`: after a
`#`, the longest nonempty run of word characters is one hashtag.  The second
argument is `some acc` while inside a candidate tag (characters reversed). -/
def hashtagScan : List Char → Option (List Char) → List String
  | [], none => []
  | [], some acc => if acc.isEmpty then [] else [String.mk acc.reverse]
  | c :: rest, none =>
    if c = '#' then hashtagScan rest (some []) else hashtagScan rest none
  | c :: rest, some acc =>
    if isWordChar c then hashtagScan rest (some (c :: acc))
    else
      (if acc.isEmpty then [] else [String.mk acc.reverse]) ++
        hashtagScan rest (if c = '#' then some [] else none)

/-- `extract_hashtags(text)`: hashtags of the lower-cased text, in order,
duplicates kept (as `re.findall` does). -/
def extract_hashtags (text : String) : List String :=
  hashtagScan (lowerStr text).data none

/-- `create_post(post_id, user_id, text, platform, country, sentiment)`.
`now` stands for the wall-clock timestamp string. -/
def create_post (post_id user_id text platform country sentiment now : String)
    (st : St) : St :=
  let s1 := st.hsetM ("post:" ++ post_id)
    [("text", .s (strTake text 500)), ("timestamp", .s now),
     ("platform", .s (lowerStr platform)), ("country", .s (lowerStr country)),
     ("likes", .i 0), ("retweets", .i 0), ("sentiment", .s (lowerStr sentiment)),
     ("user_id", .s user_id), ("engagement", .i 0)]
  let s2 := (extract_hashtags text).foldl (fun t tag =>
    ((t.sadd ("post:" ++ post_id ++ ":hashtags") tag).sadd
      ("hashtag:" ++ tag ++ ":posts") post_id).zincrby "hashtag:trending" 1 tag) s1
  let s3 := (s2.lpush ("social:user:" ++ user_id ++ ":posts") post_id).hincrby
    ("social:user:" ++ user_id) "post_count" 1
  (((s3.sadd ("platform:" ++ lowerStr platform ++ ":posts") post_id).sadd
    ("country:" ++ lowerStr country ++ ":posts") post_id).sadd
    ("sentiment:" ++ lowerStr sentiment ++ ":posts") post_id).sadd "post:all" post_id

/-- `get_post(post_id)`. -/
def get_post (post_id : String) (st : St) : Hash := st.hgetall ("post:" ++ post_id)

/-- `get_post_hashtags(post_id)`. -/
def get_post_hashtags (post_id : String) (st : St) : List String :=
  st.smembers ("post:" ++ post_id ++ ":hashtags")

/-- `update_post_sentiment(post_id, new_sentiment)`. -/
def update_post_sentiment (post_id new_sentiment : String) (st : St) : St :=
  let s1 :=
    match st.hgetS ("post:" ++ post_id) "sentiment" with
    | some old => if old = "" then st else st.srem ("sentiment:" ++ old ++ ":posts") post_id
    | none => st
  (s1.hset1 ("post:" ++ post_id) "sentiment" (.s (lowerStr new_sentiment))).sadd
    ("sentiment:" ++ lowerStr new_sentiment ++ ":posts") post_id

/-- `delete_post(post_id)`: early return when the post hash is empty, else
remove from the user's list and counter, the platform/country/sentiment and
hashtag indexes, the trending sets, and finally delete the owned keys. -/
def delete_post (post_id : String) (st : St) : St :=
  let post := get_post post_id st
  if post.isEmpty then st
  else
    let user_id := (alook post "user_id").map HVal.render
    let platform := (alook post "platform").map HVal.render
    let country := (alook post "country").map HVal.render
    let sentiment := (alook post "sentiment").map HVal.render
    let s1 := if truthy user_id then
        (st.lremAll ("social:user:" ++ user_id.getD "" ++ ":posts") post_id).hincrby
          ("social:user:" ++ user_id.getD "") "post_count" (-1)
      else st
    let s2 := if truthy platform then
        s1.srem ("platform:" ++ platform.getD "" ++ ":posts") post_id else s1
    let s3 := if truthy country then
        s2.srem ("country:" ++ country.getD "" ++ ":posts") post_id else s2
    let s4 := if truthy sentiment then
        s3.srem ("sentiment:" ++ sentiment.getD "" ++ ":posts") post_id else s3
    let s5 := (get_post_hashtags post_id s4).foldl (fun t tag =>
        (t.srem ("hashtag:" ++ tag ++ ":posts") post_id).zincrby
          "hashtag:trending" (-1) tag) s4
    let s6 := (s5.zrem "post:trending" post_id).srem "post:all" post_id
    (s6.del ("post:" ++ post_id)).del ("post:" ++ post_id ++ ":hashtags")

/-! ## movies/queries.py -/

/-- `get_movie_genres(movie_id)`. -/
def get_movie_genres (movie_id : String) (st : St) : List String :=
  st.smembers ("movie:" ++ movie_id ++ ":genres")

/-- `delete_movie(movie_id)`. -/
def delete_movie (movie_id : String) (st : St) : St :=
  let s1 := (get_movie_genres movie_id st).foldl
    (fun t g => t.srem ("genre:" ++ lowerStr g ++ ":movies") movie_id) st
  let s2 := ((s1.srem "movie:all" movie_id).zrem "movie:top_rated" movie_id).zrem
    "movie:popular" movie_id
  (((((s2.del ("movie:" ++ movie_id)).del ("movie:" ++ movie_id ++ ":genres")).del
    ("movie:" ++ movie_id ++ ":cast")).del ("movie:" ++ movie_id ++ ":crew")).del
    ("movie:" ++ movie_id ++ ":ratings")).del ("movie:" ++ movie_id ++ ":keywords")

/-! ## e_commerce/import.py

Batched pipeline writes are modelled as immediate writes (a pipeline defers
the identical commands, so the committed state is unchanged); the
`BATCH_SIZE` flushing is therefore invisible in the final state. -/

/-- A row of olist_customers_dataset.csv (the fields the importer reads;
a well-formed row, as `csv.DictReader` yields for a complete file). -/
structure CustomerRow where
  customer_id : String
  customer_zip_code_prefix : String
  customer_city : String
  customer_state : String
deriving DecidableEq, Repr

/-- The loop body of `import_customers` for one row. -/
def importCustomerRow (st : St) (row : CustomerRow) : St :=
  ((st.hsetM ("customer:" ++ row.customer_id)
    [("zip", .s row.customer_zip_code_prefix), ("city", .s row.customer_city),
     ("state", .s row.customer_state)]).sadd
    ("state:" ++ row.customer_state ++ ":customers") row.customer_id).sadd
    "customer:all" row.customer_id

/-- `import_customers()` from e_commerce/import.py, over its parsed rows. -/
def importCustomers (rows : List CustomerRow) (st : St) : St :=
  rows.foldl importCustomerRow st

/-- A row of olist_orders_dataset.csv. -/
structure OrderRow where
  order_id : String
  customer_id : String
  order_status : String
  order_purchase_timestamp : String
  order_approved_at : String
  order_delivered_carrier_date : String
  order_delivered_customer_date : String
  order_estimated_delivery_date : String
deriving DecidableEq, Repr

/-- The loop body of `import_orders` for one row. -/
def importOrderRow (st : St) (row : OrderRow) : St :=
  (((st.hsetM ("order:" ++ row.order_id)
    [("customer_id", .s row.customer_id), ("status", .s row.order_status),
     ("purchase_ts", .s row.order_purchase_timestamp),
     ("approved_ts", .s row.order_approved_at),
     ("delivered_carrier_ts", .s row.order_delivered_carrier_date),
     ("delivered_customer_ts", .s row.order_delivered_customer_date),
     ("estimated_delivery_ts", .s row.order_estimated_delivery_date)]).lpush
    ("customer:" ++ row.customer_id ++ ":orders") row.order_id).sadd
    ("order:status:" ++ row.order_status) row.order_id).sadd
    "order:all" row.order_id

/-- `import_orders()` from e_commerce/import.py, over its parsed rows. -/
def importOrders (rows : List OrderRow) (st : St) : St :=
  rows.foldl importOrderRow st

/-- A raw CSV cell, classified by which Python conversions accept it:
`i` is accepted by both `int()` and `float()`, `f` only by `float()`,
`d` only by `strptime` (its payload stands for the parsed epoch
contribution), `raw` by none of them. -/
inductive Tok where
  | i (n : Int)
  | f (q : Rat)
  | d (q : Rat)
  | raw (v : String)
deriving DecidableEq, Repr

/-- The cell as the plain string Python reads before any conversion. -/
def Tok.render : Tok → String
  | .i n => toString n
  | .f q => toString q
  | .d q => toString q
  | .raw v => v

/-- `float(cell)`: `none` models a raised `ValueError`. -/
def Tok.asFloat : Tok → Option Rat
  | .i n => some (n : Rat)
  | .f q => some q
  | _ => none

/-- `int(cell)`: `none` models a raised `ValueError`. -/
def Tok.asInt : Tok → Option Int
  | .i n => some n
  | _ => none

/-- A `csv.DictReader` row as a field-name/cell map. -/
abbrev CsvRow := List (String × Tok)

/-- `row["k"]` used as a string: raises `KeyError` when the column is absent. -/
def rowStr (row : CsvRow) (k : String) : Except String String :=
  match alook row k with
  | some t => .ok t.render
  | none => .error ("KeyError: " ++ k)

/-- `float(row["k"])`: raises on a missing column or an unparsable number. -/
def rowFloat (row : CsvRow) (k : String) : Except String Rat :=
  match alook row k with
  | none => .error ("KeyError: " ++ k)
  | some t =>
    match t.asFloat with
    | some q => .ok q
    | none => .error ("ValueError: " ++ k)

/-- `row.get(k, d)` used as a string. -/
def rowGetD (row : CsvRow) (k d : String) : String :=
  ((alook row k).map Tok.render).getD d

/-- The in-memory aggregate dictionaries of `import_order_items`. -/
structure ItemAgg where
  product_sales : List (String × Nat)
  product_revenue : List (String × Rat)
  category_revenue : List (String × Rat)
deriving Repr

/-- The streaming pass of `import_order_items`: an `Except.error` result
models an uncaught exception aborting the batch (the loop body has no
try/except). `cats` is the `product_categories` dict built in the first
pass over the products file. -/
def orderItemsLoop (cats : List (String × String)) :
    List CsvRow → Nat → ItemAgg → St → Except String (Nat × ItemAgg × St)
  | [], count, agg, st => .ok (count, agg, st)
  | row :: rest, count, agg, st => do
    let order_id ← rowStr row "order_id"
    let product_id ← rowStr row "product_id"
    let seller_id ← rowStr row "seller_id"
    let price ← rowFloat row "price"
    let freight ← rowFloat row "freight_value"
    let st1 := ((st.lpush ("order:" ++ order_id ++ ":items") product_id).hset1
      ("product:" ++ product_id) "price" (.s (toString price))).hsetM
      ("order:" ++ order_id)
      [("freight_value", .s (toString freight)), ("seller_id", .s seller_id)]
    let agg1 : ItemAgg :=
      { product_sales := aupd agg.product_sales product_id 0 (fun v => v + 1),
        product_revenue := aupd agg.product_revenue product_id 0 (fun v => v + price),
        category_revenue := aupd agg.category_revenue
          ((alook cats product_id).getD "unknown") 0 (fun v => v + price) }
    orderItemsLoop cats rest (count + 1) agg1 st1

/-- `import_order_items()` from e_commerce/import.py: the streaming pass,
then the ranking flush from the in-memory aggregates. -/
def importOrderItems (cats : List (String × String)) (rows : List CsvRow)
    (st : St) : Except String (Nat × St) :=
  match orderItemsLoop cats rows 0 ⟨[], [], []⟩ st with
  | .error e => .error e
  | .ok (count, agg, st1) =>
    let st2 := agg.product_sales.foldl
      (fun t p => t.zadd "product:sales" p.1 (p.2 : Rat)) st1
    let st3 := agg.product_revenue.foldl
      (fun t p => t.zadd "product:revenue" p.1 p.2) st2
    let st4 := agg.category_revenue.foldl
      (fun t p => t.zadd "category:revenue" p.1 p.2) st3
    .ok (count, st4)

/-- The streaming pass of `import_reviews`: `order_id = row["order_id"]` is
read outside any try/except (a missing column aborts), while
`int(row["review_score"])` sits in a bare try/except whose handler is
`continue` — an unparsable or missing score skips the row without counting
it anywhere. -/
def reviewsLoop :
    List CsvRow → Nat → List (Int × Nat) → St → Except String (Nat × List (Int × Nat) × St)
  | [], count, dist, st => .ok (count, dist, st)
  | row :: rest, count, dist, st => do
    let order_id ← rowStr row "order_id"
    match (alook row "review_score").bind Tok.asInt with
    | none => reviewsLoop rest count dist st
    | some score =>
      let st1 := (st.hsetM ("order:" ++ order_id ++ ":review")
        [("score", .i score),
         ("comment_title", .s (rowGetD row "review_comment_title" "")),
         ("comment", .s (strTake (rowGetD row "review_comment_message" "") 500)),
         ("creation_date", .s (rowGetD row "review_creation_date" ""))]).zadd
        "review:scores" order_id (score : Rat)
      reviewsLoop rest (count + 1) (aupd dist score 0 (fun v => v + 1)) st1

/-- `import_reviews()` from e_commerce/import.py. -/
def importReviews (rows : List CsvRow) (st : St) : Except String (Nat × St) :=
  match reviewsLoop rows 0 [] st with
  | .error e => .error e
  | .ok (count, dist, st1) =>
    .ok (count, dist.foldl
      (fun t p => t.zadd "review:score:distribution" (toString p.1) (p.2 : Rat)) st1)

/-! ## iot/import.py -/

/-- The parsed fields of one valid reading line. -/
structure Reading where
  mote : Int
  temp : Rat
  humidity : Rat
  light : Rat
  voltage : Rat
  epoch : Rat
  dateS : String
  timeS : String
deriving DecidableEq, Repr

/-- `strptime(f"(date) (time-without-fraction)")` on the two leading cells:
it succeeds exactly on date/time-shaped cells (`Tok.d`), and the payloads
stand for the parsed epoch. -/
def parseStamp : Tok → Tok → Option Rat
  | .d x, .d y => some (x + y)
  | _, _ => none

/-- The try-block of the `import_readings` loop body: `int(parts[3])`,
`float(parts[4..7])` and the `strptime`; any failure is the caught
`(ValueError, IndexError)`. Called only when `len(parts) >= 8`. -/
def parseReadingLine (parts : List Tok) : Option Reading := do
  let t0 ← parts.get? 0
  let t1 ← parts.get? 1
  let mote ← (← parts.get? 3).asInt
  let temp ← (← parts.get? 4).asFloat
  let hum ← (← parts.get? 5).asFloat
  let light ← (← parts.get? 6).asFloat
  let volt ← (← parts.get? 7).asFloat
  let epoch ← parseStamp t0 t1
  pure ⟨mote, temp, hum, light, volt, epoch, t0.render, t1.render⟩

/-- The range filters of `import_readings` (a reading is kept when none of
the three `if ... : skipped += 1; continue` guards fires). -/
def domainOk (rd : Reading) : Bool :=
  !(decide (rd.temp < -40) || decide (rd.temp > 60)) &&
  !(decide (rd.humidity < 0) || decide (rd.humidity > 100)) &&
  !(decide (rd.voltage < 0) || decide (rd.voltage > (7 : Rat) / 2))

/-- The `json.dumps` of a reading, modelled as an injective serialization
(rounding for display is a presentation detail inside the opaque member). -/
def encodeReading (rd : Reading) : String :=
  String.intercalate "|" [toString rd.temp, toString rd.humidity,
    toString rd.light, toString rd.voltage, rd.dateS, rd.timeS]

/-- The field-map written to `sensor:(mote):latest`. -/
def latestHash (rd : Reading) : List (String × HVal) :=
  [("temperature", .s (toString rd.temp)), ("humidity", .s (toString rd.humidity)),
   ("light", .s (toString rd.light)), ("voltage", .s (toString rd.voltage)),
   ("timestamp", .s (toString rd.epoch)), ("date", .s rd.dateS), ("time", .s rd.timeS)]

/-- The low-battery alert message. -/
def alertMsg (rd : Reading) : String :=
  "Low battery on sensor " ++ toString rd.mote ++ ": " ++ toString rd.voltage ++
    "V at " ++ rd.dateS ++ " " ++ rd.timeS

/-- The loop-carried state of `import_readings`. -/
structure RAcc where
  count : Nat
  skipped : Nat
  temp_sums : List (Int × Rat)
  temp_counts : List (Int × Nat)
  alerts : List String
  latest : List (Int × List (String × HVal))
  store : St
deriving Repr

/-- `if limit and count >= limit: break` — `None` and `0` are falsy. -/
def limitHit (limit : Option Nat) (count : Nat) : Bool :=
  match limit with
  | none => false
  | some n => decide (n ≠ 0) && decide (count ≥ n)

/-- The streaming loop of `import_readings` over the lines of data.txt
(each line already split into whitespace-separated cells).  Lines shorter
than 8 cells are skipped by `continue` WITHOUT touching the `skipped`
counter; parse failures and out-of-range readings increment `skipped`. -/
def readingsLoop (limit : Option Nat) : List (List Tok) → RAcc → RAcc
  | [], acc => acc
  | line :: rest, acc =>
    if limitHit limit acc.count then acc
    else if line.length < 8 then readingsLoop limit rest acc
    else
      match parseReadingLine line with
      | none => readingsLoop limit rest { acc with skipped := acc.skipped + 1 }
      | some rd =>
        if !domainOk rd then readingsLoop limit rest { acc with skipped := acc.skipped + 1 }
        else
          readingsLoop limit rest
            { count := acc.count + 1,
              skipped := acc.skipped,
              temp_sums := aupd acc.temp_sums rd.mote 0 (fun v => v + rd.temp),
              temp_counts := aupd acc.temp_counts rd.mote 0 (fun v => v + 1),
              alerts := if rd.voltage < 2 then acc.alerts ++ [alertMsg rd] else acc.alerts,
              latest := aupd acc.latest rd.mote [] (fun _ => latestHash rd),
              store := acc.store.zadd ("sensor:" ++ toString rd.mote ++ ":readings")
                (encodeReading rd) rd.epoch }

/-- `import_readings(limit)` from iot/import.py: the streaming pass, then
the latest/average/alert flush.  Returns `(count, skipped, state)`. -/
def importReadings (limit : Option Nat) (lines : List (List Tok)) (st : St) :
    Nat × Nat × St :=
  let acc := readingsLoop limit lines ⟨0, 0, [], [], [], [], st⟩
  let st1 := acc.latest.foldl
    (fun t p => t.hsetM ("sensor:" ++ toString p.1 ++ ":latest") p.2) acc.store
  let st2 := acc.temp_sums.foldl
    (fun t p => t.zadd "sensor:avg:temperature" (toString p.1)
      (p.2 / (((alook acc.temp_counts p.1).getD 1 : Nat) : Rat))) st1
  let st3 := (acc.alerts.take 1000).foldl (fun t a => t.lpush "sensor:alerts" a) st2
  (acc.count, acc.skipped, st3)

/-- Classification of a line as the well-formed case of the loop. -/
def lineGood (line : List Tok) : Bool :=
  decide (line.length ≥ 8) &&
    (match parseReadingLine line with
     | none => false
     | some rd => domainOk rd)

/-- Classification of a line as a skip that the code counts: at least 8
cells but a parse failure or an out-of-range value. -/
def lineCountedSkip (line : List Tok) : Bool :=
  decide (line.length ≥ 8) &&
    (match parseReadingLine line with
     | none => true
     | some rd => !domainOk rd)

/-! ## Operation histories over the e-commerce store (for the deletion claim) -/

/-- No colon in the string: such ids/status values cannot make the
`type:id`/`category:value:type` key scheme collide. -/
def colonFree (s : String) : Bool := decide (':' ∉ s.data)

/-- The key is absent from the store under every type. -/
def keyAbsent (st : St) (k : String) : Prop :=
  alook st.hashes k = none ∧ alook st.lists k = none ∧
    alook st.sets k = none ∧ alook st.zsets k = none

instance (st : St) (k : String) : Decidable (keyAbsent st k) := by
  unfold keyAbsent; infer_instance

/-- The CRUD operations of e_commerce/queries.py that touch an order's
Record and indexes. -/
inductive ECOp where
  | create (order_id customer_id status : String)
  | setStatus (order_id new_status : String)
  | review (order_id : String) (score : Rat) (comment : String)
  | remove (order_id : String)
deriving DecidableEq, Repr

def ECOp.apply : ECOp → St → St
  | .create o c s => create_order o c s
  | .setStatus o n => update_order_status o n
  | .review o sc cm => add_review o sc cm
  | .remove o => delete_order o

def runEC (ops : List ECOp) (st : St) : St := ops.foldl (fun t op => op.apply t) st

/-- Discipline under which the categorical-partition bookkeeping is sound:
ids and statuses are colon-free, statuses are nonempty, and `create` is
only used for an id that does not currently have a status field (a fresh
id, or one whose record was fully deleted). -/
def okOp (st : St) : ECOp → Prop
  | .create o _ s => colonFree o = true ∧ colonFree s = true ∧ s ≠ "" ∧
      st.hget ("order:" ++ o) "status" = none
  | .setStatus o n => colonFree o = true ∧ colonFree n = true ∧ n ≠ ""
  | .review _ _ _ => True
  | .remove _ => True

def ValidFrom : St → List ECOp → Prop
  | _, [] => True
  | st, op :: t => okOp st op ∧ ValidFrom (op.apply st) t

/-- The status-partition consistency invariant: any member of a status
partition is a colon-free id whose record's status field is exactly that
(nonempty, colon-free) status. -/
def StatusInv (st : St) : Prop :=
  ∀ o s, st.sismember ("order:status:" ++ s) o = true →
    colonFree o = true ∧ colonFree s = true ∧ s ≠ "" ∧
      st.hgetS ("order:" ++ o) "status" = some s

/-! ## Basic lemmas about the association maps -/

theorem alook_aupd_self {κ β : Type} [DecidableEq κ] (m : List (κ × β)) (k : κ)
    (d : β) (f : β → β) : alook (aupd m k d f) k = some (f ((alook m k).getD d)) := by
  induction m with
  | nil => simp [alook, aupd]
  | cons p t ih =>
    obtain ⟨k', v⟩ := p
    by_cases h : k' = k
    · subst h; simp [alook, aupd]
    · simp [alook, aupd, h, ih]

theorem alook_aupd_ne {κ β : Type} [DecidableEq κ] (m : List (κ × β)) {k k' : κ}
    (d : β) (f : β → β) (h : k' ≠ k) : alook (aupd m k d f) k' = alook m k' := by
  induction m with
  | nil => simp [alook, aupd, Ne.symm h]
  | cons p t ih =>
    obtain ⟨k2, v⟩ := p
    by_cases h2 : k2 = k
    · subst h2; simp [alook, aupd, Ne.symm h]
    · simp [alook, aupd, h2, ih]

theorem alook_amod_self {κ β : Type} [DecidableEq κ] (m : List (κ × β)) (k : κ)
    (f : β → β) : alook (amod m k f) k = (alook m k).map f := by
  induction m with
  | nil => simp [alook, amod]
  | cons p t ih =>
    obtain ⟨k', v⟩ := p
    by_cases h : k' = k
    · subst h; simp [alook, amod]
    · simp [alook, amod, h, ih]

theorem alook_amod_ne {κ β : Type} [DecidableEq κ] (m : List (κ × β)) {k k' : κ}
    (f : β → β) (h : k' ≠ k) : alook (amod m k f) k' = alook m k' := by
  induction m with
  | nil => simp [alook, amod]
  | cons p t ih =>
    obtain ⟨k2, v⟩ := p
    by_cases h2 : k2 = k
    · subst h2; simp [alook, amod, Ne.symm h]
    · simp [alook, amod, h2, ih]

theorem alook_none_not_mem {κ β : Type} [DecidableEq κ] {m : List (κ × β)} {k : κ}
    (h : alook m k = none) : ∀ p ∈ m, p.1 ≠ k := by
  induction m with
  | nil => simp
  | cons p t ih =>
    obtain ⟨k', v⟩ := p
    by_cases h2 : k' = k
    · subst h2; simp [alook] at h
    · simp only [alook, if_neg h2] at h
      intro q hq
      rcases List.mem_cons.mp hq with rfl | hq2
      · exact h2
      · exact ih h q hq2

theorem amod_of_none {κ β : Type} [DecidableEq κ] {m : List (κ × β)} {k : κ}
    (f : β → β) (h : alook m k = none) : amod m k f = m := by
  induction m with
  | nil => rfl
  | cons p t ih =>
    obtain ⟨k', v⟩ := p
    by_cases h2 : k' = k
    · subst h2; simp [alook] at h
    · simp only [alook, if_neg h2] at h
      simp [amod, h2, ih h]

theorem amod_of_fix {κ β : Type} [DecidableEq κ] {m : List (κ × β)} {k : κ}
    {f : β → β} (h : ∀ v, alook m k = some v → f v = v) : amod m k f = m := by
  induction m with
  | nil => rfl
  | cons p t ih =>
    obtain ⟨k', v⟩ := p
    by_cases h2 : k' = k
    · subst h2
      simp only [alook, if_pos rfl] at h
      simp [amod, h v rfl]
    · simp only [alook, if_neg h2] at h
      simp [amod, h2, ih h]

theorem adel_of_none {κ β : Type} [DecidableEq κ] {m : List (κ × β)} {k : κ}
    (h : alook m k = none) : adel m k = m := by
  apply List.filter_eq_self.mpr
  intro p hp
  simpa using alook_none_not_mem h p hp

theorem adel_cons {κ β : Type} [DecidableEq κ] (k' : κ) (v : β) (t : List (κ × β))
    (k : κ) : adel ((k', v) :: t) k =
      if k' = k then adel t k else (k', v) :: adel t k := by
  by_cases h : k' = k
  · simp [adel, List.filter_cons, h]
  · simp [adel, List.filter_cons, h]

theorem alook_adel_self {κ β : Type} [DecidableEq κ] (m : List (κ × β)) (k : κ) :
    alook (adel m k) k = none := by
  induction m with
  | nil => rfl
  | cons p t ih =>
    obtain ⟨k', v⟩ := p
    rw [adel_cons]
    by_cases h : k' = k
    · simpa [h] using ih
    · simpa [h, alook] using ih

theorem alook_adel_ne {κ β : Type} [DecidableEq κ] (m : List (κ × β)) {k k' : κ}
    (h : k' ≠ k) : alook (adel m k) k' = alook m k' := by
  induction m with
  | nil => rfl
  | cons p t ih =>
    obtain ⟨k2, v⟩ := p
    rw [adel_cons]
    by_cases h2 : k2 = k
    · subst h2; simpa [alook, Ne.symm h] using ih
    · simp [h2, alook, ih]

theorem alook_amod_none {κ β : Type} [DecidableEq κ] {m : List (κ × β)} {k : κ}
    (k' : κ) (f : β → β) (h : alook m k = none) : alook (amod m k' f) k = none := by
  by_cases h2 : k = k'
  · subst h2; simp [alook_amod_self, h]
  · rwa [alook_amod_ne m f h2]

theorem alook_adel_none {κ β : Type} [DecidableEq κ] {m : List (κ × β)} {k : κ}
    (k' : κ) (h : alook m k = none) : alook (adel m k') k = none := by
  by_cases h2 : k = k'
  · subst h2; simp [alook_adel_self]
  · rwa [alook_adel_ne m h2]

/-! ## Which store components each command touches -/

@[simp] theorem lists_hset1 (st : St) (k f : String) (v : HVal) :
    (st.hset1 k f v).lists = st.lists := rfl

@[simp] theorem sets_hset1 (st : St) (k f : String) (v : HVal) :
    (st.hset1 k f v).sets = st.sets := rfl

@[simp] theorem zsets_hset1 (st : St) (k f : String) (v : HVal) :
    (st.hset1 k f v).zsets = st.zsets := rfl

@[simp] theorem lists_hsetM (st : St) (k : String) (ps : List (String × HVal)) :
    (st.hsetM k ps).lists = st.lists := rfl

@[simp] theorem sets_hsetM (st : St) (k : String) (ps : List (String × HVal)) :
    (st.hsetM k ps).sets = st.sets := rfl

@[simp] theorem zsets_hsetM (st : St) (k : String) (ps : List (String × HVal)) :
    (st.hsetM k ps).zsets = st.zsets := rfl

@[simp] theorem lists_hincrby (st : St) (k f : String) (d : Int) :
    (st.hincrby k f d).lists = st.lists := by
  unfold St.hincrby; split <;> rfl

@[simp] theorem sets_hincrby (st : St) (k f : String) (d : Int) :
    (st.hincrby k f d).sets = st.sets := by
  unfold St.hincrby; split <;> rfl

@[simp] theorem zsets_hincrby (st : St) (k f : String) (d : Int) :
    (st.hincrby k f d).zsets = st.zsets := by
  unfold St.hincrby; split <;> rfl

@[simp] theorem hashes_lpush (st : St) (k v : String) :
    (st.lpush k v).hashes = st.hashes := rfl

@[simp] theorem sets_lpush (st : St) (k v : String) :
    (st.lpush k v).sets = st.sets := rfl

@[simp] theorem zsets_lpush (st : St) (k v : String) :
    (st.lpush k v).zsets = st.zsets := rfl

@[simp] theorem hashes_lremAll (st : St) (k v : String) :
    (st.lremAll k v).hashes = st.hashes := rfl

@[simp] theorem sets_lremAll (st : St) (k v : String) :
    (st.lremAll k v).sets = st.sets := rfl

@[simp] theorem zsets_lremAll (st : St) (k v : String) :
    (st.lremAll k v).zsets = st.zsets := rfl

@[simp] theorem hashes_sadd (st : St) (k v : String) :
    (st.sadd k v).hashes = st.hashes := rfl

@[simp] theorem lists_sadd (st : St) (k v : String) :
    (st.sadd k v).lists = st.lists := rfl

@[simp] theorem zsets_sadd (st : St) (k v : String) :
    (st.sadd k v).zsets = st.zsets := rfl

@[simp] theorem hashes_srem (st : St) (k v : String) :
    (st.srem k v).hashes = st.hashes := rfl

@[simp] theorem lists_srem (st : St) (k v : String) :
    (st.srem k v).lists = st.lists := rfl

@[simp] theorem zsets_srem (st : St) (k v : String) :
    (st.srem k v).zsets = st.zsets := rfl

@[simp] theorem hashes_zadd (st : St) (k m : String) (sc : Rat) :
    (st.zadd k m sc).hashes = st.hashes := rfl

@[simp] theorem lists_zadd (st : St) (k m : String) (sc : Rat) :
    (st.zadd k m sc).lists = st.lists := rfl

@[simp] theorem sets_zadd (st : St) (k m : String) (sc : Rat) :
    (st.zadd k m sc).sets = st.sets := rfl

@[simp] theorem hashes_zincrby (st : St) (k : String) (d : Rat) (m : String) :
    (st.zincrby k d m).hashes = st.hashes := rfl

@[simp] theorem lists_zincrby (st : St) (k : String) (d : Rat) (m : String) :
    (st.zincrby k d m).lists = st.lists := rfl

@[simp] theorem sets_zincrby (st : St) (k : String) (d : Rat) (m : String) :
    (st.zincrby k d m).sets = st.sets := rfl

@[simp] theorem hashes_zrem (st : St) (k m : String) :
    (st.zrem k m).hashes = st.hashes := rfl

@[simp] theorem lists_zrem (st : St) (k m : String) :
    (st.zrem k m).lists = st.lists := rfl

@[simp] theorem sets_zrem (st : St) (k m : String) :
    (st.zrem k m).sets = st.sets := rfl

/-! ## Reads after writes -/

theorem hgetall_eq_of_hashes {st st' : St} (h : st'.hashes = st.hashes) (k : String) :
    st'.hgetall k = st.hgetall k := by
  unfold St.hgetall St.hfind; rw [h]

theorem smembers_eq_of_sets {st st' : St} (h : st'.sets = st.sets) (k : String) :
    st'.smembers k = st.smembers k := by
  unfold St.smembers; rw [h]

theorem sismember_eq_of_sets {st st' : St} (h : st'.sets = st.sets) (k v : String) :
    st'.sismember k v = st.sismember k v := by
  unfold St.sismember; rw [smembers_eq_of_sets h]

theorem llist_eq_of_lists {st st' : St} (h : st'.lists = st.lists) (k : String) :
    st'.llist k = st.llist k := by
  unfold St.llist; rw [h]

theorem zentries_eq_of_zsets {st st' : St} (h : st'.zsets = st.zsets) (k : String) :
    st'.zentries k = st.zentries k := by
  unfold St.zentries; rw [h]

theorem hget_hset1_self (st : St) (k f : String) (v : HVal) :
    (st.hset1 k f v).hget k f = some v := by
  unfold St.hget St.hgetall St.hfind St.hset1
  simp only [alook_aupd_self]
  unfold hashSet
  simp [alook_aupd_self]

theorem hget_hset1_ne_key (st : St) {k k' : String} (f f' : String) (v : HVal)
    (h : k' ≠ k) : (st.hset1 k f v).hget k' f' = st.hget k' f' := by
  unfold St.hget St.hgetall St.hfind St.hset1
  simp only [alook_aupd_ne _ _ _ h]

theorem hget_hset1_ne_field (st : St) (k : String) {f f' : String} (v : HVal)
    (h : f' ≠ f) : (st.hset1 k f v).hget k f' = st.hget k f' := by
  unfold St.hget St.hgetall St.hfind St.hset1
  simp only [alook_aupd_self]
  unfold hashSet
  rcases h2 : alook st.hashes k with _ | hsh
  · simp only [h2, Option.getD_none, Option.getD_some, alook_aupd_ne _ _ _ h]
  · simp only [h2, Option.getD_none, Option.getD_some, alook_aupd_ne _ _ _ h]

theorem hget_eq_of_hashes {st st' : St} (h : st'.hashes = st.hashes) (k f : String) :
    st'.hget k f = st.hget k f := by
  unfold St.hget; rw [hgetall_eq_of_hashes h]

theorem hgetS_eq_of_hashes {st st' : St} (h : st'.hashes = st.hashes) (k f : String) :
    st'.hgetS k f = st.hgetS k f := by
  unfold St.hgetS; rw [hget_eq_of_hashes h]

theorem hashes_del (st : St) (k : String) : (st.del k).hashes = adel st.hashes k := rfl

theorem lists_del (st : St) (k : String) : (st.del k).lists = adel st.lists k := rfl

theorem sets_del (st : St) (k : String) : (st.del k).sets = adel st.sets k := rfl

theorem zsets_del (st : St) (k : String) : (st.del k).zsets = adel st.zsets k := rfl

theorem smembers_sadd_ne (st : St) {k k' : String} (v : String) (h : k' ≠ k) :
    (st.sadd k v).smembers k' = st.smembers k' := by
  unfold St.smembers St.sadd
  simp only [alook_aupd_ne _ _ _ h]

theorem sismember_sadd_self (st : St) (k v : String) :
    (st.sadd k v).sismember k v = true := by
  unfold St.sismember St.smembers St.sadd
  simp only [alook_aupd_self]
  by_cases h : v ∈ (alook st.sets k).getD []
  · simp [h]
  · simp [h]

theorem sismember_sadd_same_key (st : St) (k v v' : String) :
    (st.sadd k v).sismember k v' = (st.sismember k v' || v' == v) := by
  unfold St.sismember St.smembers St.sadd
  simp only [alook_aupd_self]
  by_cases h : v ∈ (alook st.sets k).getD []
  · by_cases h2 : v' = v
    · subst h2; simp [h]
    · simp [h, h2]
  · by_cases h2 : v' = v
    · subst h2; simp [h]
    · simp [h, h2]

theorem sismember_sadd_of (st : St) {k k' v v' : String}
    (h : st.sismember k' v' = true) : (st.sadd k v).sismember k' v' = true := by
  by_cases h2 : k' = k
  · subst h2
    rw [sismember_sadd_same_key, h]
    rfl
  · unfold St.sismember St.smembers at h
    unfold St.sismember St.smembers St.sadd
    simpa only [alook_aupd_ne _ _ _ h2] using h

theorem smembers_srem_ne (st : St) {k k' : String} (v : String) (h : k' ≠ k) :
    (st.srem k v).smembers k' = st.smembers k' := by
  unfold St.smembers St.srem
  simp only [alook_amod_ne _ _ h]

theorem sismember_srem_self (st : St) (k v : String) :
    (st.srem k v).sismember k v = false := by
  unfold St.sismember St.smembers St.srem
  simp only [alook_amod_self]
  rcases alook st.sets k with _ | l
  · simp
  · simp [List.mem_filter]

theorem sismember_srem_le (st : St) {k k' v v' : String}
    (h : (st.srem k v).sismember k' v' = true) : st.sismember k' v' = true := by
  by_cases h2 : k' = k
  · unfold St.sismember St.smembers St.srem at h
    unfold St.sismember St.smembers
    rw [h2] at h ⊢
    simp only [alook_amod_self] at h
    rcases h3 : alook st.sets k with _ | l
    · simp [h3] at h
    · simp only [h3, Option.map_some', Option.getD_some] at h
      simp only [h3, Option.getD_some]
      rw [List.elem_iff] at h ⊢
      exact (List.mem_filter.mp h).1
  · unfold St.sismember St.smembers St.srem at h
    simpa only [alook_amod_ne _ _ h2] using h

theorem sismember_del_le (st : St) {k k' v : String}
    (h : (st.del k).sismember k' v = true) : st.sismember k' v = true := by
  unfold St.sismember St.smembers at h ⊢
  rw [sets_del] at h
  by_cases h2 : k' = k
  · subst h2; simp [alook_adel_self] at h
  · rwa [alook_adel_ne _ h2] at h

theorem sismember_del_false (st : St) {k k' v : String}
    (h : st.sismember k' v = false) : (st.del k).sismember k' v = false := by
  by_cases h2 : (st.del k).sismember k' v = true
  · rw [sismember_del_le st h2] at h; cases h
  · simpa using h2

theorem llist_lpush_self (st : St) (k v : String) :
    (st.lpush k v).llist k = v :: st.llist k := by
  unfold St.llist St.lpush
  simp only [alook_aupd_self]
  rcases alook st.lists k with _ | l <;> simp

theorem llist_lpush_ne (st : St) {k k' : String} (v : String) (h : k' ≠ k) :
    (st.lpush k v).llist k' = st.llist k' := by
  unfold St.llist St.lpush
  simp only [alook_aupd_ne _ _ _ h]

theorem contains_llist_lremAll_self (st : St) (k v : String) :
    ((st.lremAll k v).llist k).contains v = false := by
  unfold St.llist St.lremAll
  simp only [alook_amod_self]
  rcases alook st.lists k with _ | l
  · simp
  · simp [List.mem_filter]

theorem contains_llist_lremAll_le (st : St) {k k' v v' : String}
    (h : ((st.lremAll k v).llist k').contains v' = true) :
    (st.llist k').contains v' = true := by
  by_cases h2 : k' = k
  · unfold St.llist St.lremAll at h
    unfold St.llist
    rw [h2] at h ⊢
    simp only [alook_amod_self] at h
    rcases h3 : alook st.lists k with _ | l
    · simp [h3] at h
    · simp only [h3, Option.map_some', Option.getD_some] at h
      simp only [h3, Option.getD_some]
      rw [List.elem_iff] at h ⊢
      exact (List.mem_filter.mp h).1
  · unfold St.llist St.lremAll at h
    simpa only [alook_amod_ne _ _ h2] using h

theorem contains_llist_del_le (st : St) {k k' v : String}
    (h : ((st.del k).llist k').contains v = true) : (st.llist k').contains v = true := by
  unfold St.llist at h ⊢
  rw [lists_del] at h
  by_cases h2 : k' = k
  · subst h2; simp [alook_adel_self] at h
  · rwa [alook_adel_ne _ h2] at h

theorem zmember_zrem_self (st : St) (k m : String) :
    (st.zrem k m).zmember k m = false := by
  unfold St.zmember St.zentries St.zrem
  simp only [alook_amod_self]
  rcases alook st.zsets k with _ | l
  · simp
  · simp only [Option.map_some', Option.getD_some]
    rw [List.any_eq_false]
    intro x hx
    have := (List.mem_filter.mp hx).2
    simpa using this

theorem zmember_zrem_le (st : St) {k k' m m' : String}
    (h : (st.zrem k m).zmember k' m' = true) : st.zmember k' m' = true := by
  by_cases h2 : k' = k
  · unfold St.zmember St.zentries St.zrem at h
    unfold St.zmember St.zentries
    rw [h2] at h ⊢
    simp only [alook_amod_self] at h
    rcases h3 : alook st.zsets k with _ | l
    · simp [h3] at h
    · simp only [h3, Option.map_some', Option.getD_some] at h ⊢
      obtain ⟨x, hx, hbe⟩ := List.any_eq_true.mp h
      exact List.any_eq_true.mpr ⟨x, (List.mem_filter.mp hx).1, hbe⟩
  · unfold St.zmember St.zentries St.zrem at h
    simpa only [alook_amod_ne _ _ h2] using h

theorem zmember_del_le (st : St) {k k' m : String}
    (h : (st.del k).zmember k' m = true) : st.zmember k' m = true := by
  unfold St.zmember St.zentries at h ⊢
  rw [zsets_del] at h
  by_cases h2 : k' = k
  · subst h2; simp [alook_adel_self] at h
  · rwa [alook_adel_ne _ h2] at h

theorem hfind_del_self (st : St) (k : String) : (st.del k).hfind k = none := by
  unfold St.hfind
  rw [hashes_del]
  exact alook_adel_self _ _

theorem hgetall_del_self (st : St) (k : String) : (st.del k).hgetall k = [] := by
  unfold St.hgetall
  rw [hfind_del_self]
  rfl

/-! ## The primitive delete steps only remove -/

theorem runPrims_append (a b : List PrimOp) (st : St) :
    runPrims (a ++ b) st = runPrims b (runPrims a st) := by
  unfold runPrims
  exact List.foldl_append _ _ _ _

theorem primop_sismember_false (op : PrimOp) (st : St) {k v : String}
    (h : st.sismember k v = false) : (op.apply st).sismember k v = false := by
  cases op with
  | lrem k2 v2 =>
    unfold PrimOp.apply
    rwa [sismember_eq_of_sets (by rfl)]
  | srem k2 v2 =>
    unfold PrimOp.apply
    by_cases h2 : (st.srem k2 v2).sismember k v = true
    · rw [sismember_srem_le st h2] at h; cases h
    · simpa using h2
  | zrem k2 m2 =>
    unfold PrimOp.apply
    rwa [sismember_eq_of_sets (by rfl)]
  | del k2 =>
    unfold PrimOp.apply
    exact sismember_del_false st h

theorem runPrims_sismember_false (ops : List PrimOp) (st : St) {k v : String}
    (h : st.sismember k v = false) : (runPrims ops st).sismember k v = false := by
  induction ops generalizing st with
  | nil => exact h
  | cons op t ih => exact ih (op.apply st) (primop_sismember_false op st h)

theorem primop_contains_llist_false (op : PrimOp) (st : St) {k v : String}
    (h : (st.llist k).contains v = false) :
    ((op.apply st).llist k).contains v = false := by
  cases op with
  | lrem k2 v2 =>
    unfold PrimOp.apply
    by_cases h2 : ((st.lremAll k2 v2).llist k).contains v = true
    · rw [contains_llist_lremAll_le st h2] at h; cases h
    · simpa using h2
  | srem k2 v2 =>
    unfold PrimOp.apply
    rwa [llist_eq_of_lists (by rfl)]
  | zrem k2 m2 =>
    unfold PrimOp.apply
    rwa [llist_eq_of_lists (by rfl)]
  | del k2 =>
    unfold PrimOp.apply
    by_cases h2 : ((st.del k2).llist k).contains v = true
    · rw [contains_llist_del_le st h2] at h; cases h
    · simpa using h2

theorem runPrims_contains_llist_false (ops : List PrimOp) (st : St) {k v : String}
    (h : (st.llist k).contains v = false) :
    ((runPrims ops st).llist k).contains v = false := by
  induction ops generalizing st with
  | nil => exact h
  | cons op t ih => exact ih (op.apply st) (primop_contains_llist_false op st h)

theorem primop_zmember_false (op : PrimOp) (st : St) {k m : String}
    (h : st.zmember k m = false) : ((op.apply st).zmember k m) = false := by
  cases op with
  | lrem k2 v2 =>
    unfold PrimOp.apply St.zmember
    rwa [zentries_eq_of_zsets (by rfl)]
  | srem k2 v2 =>
    unfold PrimOp.apply St.zmember
    rwa [zentries_eq_of_zsets (by rfl)]
  | zrem k2 m2 =>
    unfold PrimOp.apply
    by_cases h2 : (st.zrem k2 m2).zmember k m = true
    · rw [zmember_zrem_le st h2] at h; cases h
    · simpa using h2
  | del k2 =>
    unfold PrimOp.apply
    by_cases h2 : (st.del k2).zmember k m = true
    · rw [zmember_del_le st h2] at h; cases h
    · simpa using h2

theorem runPrims_zmember_false (ops : List PrimOp) (st : St) {k m : String}
    (h : st.zmember k m = false) : ((runPrims ops st).zmember k m) = false := by
  induction ops generalizing st with
  | nil => exact h
  | cons op t ih => exact ih (op.apply st) (primop_zmember_false op st h)

theorem primop_hfind_none (op : PrimOp) (st : St) {k : String}
    (h : st.hfind k = none) : (op.apply st).hfind k = none := by
  cases op with
  | lrem k2 v2 => unfold PrimOp.apply St.hfind; rwa [hashes_lremAll]
  | srem k2 v2 => unfold PrimOp.apply St.hfind; rwa [hashes_srem]
  | zrem k2 m2 => unfold PrimOp.apply St.hfind; rwa [hashes_zrem]
  | del k2 =>
    unfold PrimOp.apply St.hfind
    rw [hashes_del]
    exact alook_adel_none _ h

theorem runPrims_hfind_none (ops : List PrimOp) (st : St) {k : String}
    (h : st.hfind k = none) : (runPrims ops st).hfind k = none := by
  induction ops generalizing st with
  | nil => exact h
  | cons op t ih => exact ih (op.apply st) (primop_hfind_none op st h)

theorem primop_keyAbsent (op : PrimOp) (st : St) {k : String}
    (h : keyAbsent st k) : keyAbsent (op.apply st) k := by
  obtain ⟨h1, h2, h3, h4⟩ := h
  cases op with
  | lrem k2 v2 =>
    exact ⟨h1, alook_amod_none _ _ h2, h3, h4⟩
  | srem k2 v2 =>
    exact ⟨h1, h2, alook_amod_none _ _ h3, h4⟩
  | zrem k2 m2 =>
    exact ⟨h1, h2, h3, alook_amod_none _ _ h4⟩
  | del k2 =>
    exact ⟨alook_adel_none _ h1, alook_adel_none _ h2, alook_adel_none _ h3,
      alook_adel_none _ h4⟩

theorem runPrims_keyAbsent (ops : List PrimOp) (st : St) {k : String}
    (h : keyAbsent st k) : keyAbsent (runPrims ops st) k := by
  induction ops generalizing st with
  | nil => exact h
  | cons op t ih => exact ih (op.apply st) (primop_keyAbsent op st h)

/-! ## Facts about the key-naming scheme -/

theorem strAppendCancel {s a b : String} (h : s ++ a = s ++ b) : a = b := by
  apply String.ext
  have h2 := congrArg String.data h
  rw [String.data_append, String.data_append] at h2
  exact List.append_cancel_left h2

theorem strSandwichCancel {s t a b : String} (h : s ++ a ++ t = s ++ b ++ t) : a = b := by
  apply String.ext
  have h2 := congrArg String.data h
  rw [String.data_append, String.data_append, String.data_append, String.data_append] at h2
  exact List.append_cancel_left (List.append_cancel_right h2)

/-- Two keys with distinct literal prefixes differ, whatever follows:
witnessed by the first `n` characters. -/
theorem strNeOfTake {p q : String} (x y : String) (n : Nat)
    (hp : n ≤ p.data.length) (hq : n ≤ q.data.length)
    (h : p.data.take n ≠ q.data.take n) : p ++ x ≠ q ++ y := by
  intro e
  have e2 := congrArg String.data e
  rw [String.data_append, String.data_append] at e2
  have e3 := congrArg (List.take n) e2
  rw [List.take_append_of_le_length hp, List.take_append_of_le_length hq] at e3
  exact h e3

theorem strNeExtend (a t : String) (h : t.data ≠ []) : a ≠ a ++ t := by
  intro e
  have e2 := congrArg (fun z => z.data.length) e
  simp only [String.data_append, List.length_append] at e2
  have : t.data.length = 0 := by omega
  exact h (List.length_eq_zero.mp this)

theorem colonFree_ne_append {a b c : String} (ha : colonFree a = true)
    (hc : ':' ∈ c.data) : a ≠ b ++ c := by
  intro e
  have h2 : ':' ∉ a.data := by
    have := of_decide_eq_true ha
    exact this
  apply h2
  rw [e, String.data_append]
  exact List.mem_append_right _ hc

theorem sismember_sadd_ne_key (st : St) {k k' : String} (v v' : String) (h : k' ≠ k) :
    (st.sadd k v).sismember k' v' = st.sismember k' v' := by
  unfold St.sismember
  rw [smembers_sadd_ne st v h]

theorem sismember_srem_ne_key (st : St) {k k' : String} (v v' : String) (h : k' ≠ k) :
    (st.srem k v).sismember k' v' = st.sismember k' v' := by
  unfold St.sismember
  rw [smembers_srem_ne st v h]

theorem statusKeyInj {a b : String} (h : a ≠ b) :
    ("order:status:" ++ a : String) ≠ "order:status:" ++ b :=
  fun e => h (strAppendCancel e)

theorem sentimentKeyInj {a b : String} (h : a ≠ b) :
    ("sentiment:" ++ a ++ ":posts" : String) ≠ "sentiment:" ++ b ++ ":posts" :=
  fun e => h (strSandwichCancel e)

/-- C1. For an order whose record currently holds a (truthy) status `old`,
and any `new ≠ old`, `update_order_status` leaves the order out of the old
status partition, inside the new one, sets the record field to `new`, and
is literally the composition (1) `SREM` old partition, (2) `HSET` field,
(3) `SADD` new partition, in that order.  Likewise for
`update_post_sentiment`, whose new value is lower-cased before being used
for both the field and the partition key. -/
theorem claim1_change_category :
    (∀ (st : St) (oid old new : String),
      st.hgetS ("order:" ++ oid) "status" = some old → old ≠ "" → old ≠ new →
      (update_order_status oid new st).sismember ("order:status:" ++ old) oid = false ∧
      (update_order_status oid new st).sismember ("order:status:" ++ new) oid = true ∧
      (update_order_status oid new st).hgetS ("order:" ++ oid) "status" = some new ∧
      update_order_status oid new st =
        ((st.srem ("order:status:" ++ old) oid).hset1 ("order:" ++ oid) "status"
          (.s new)).sadd ("order:status:" ++ new) oid) ∧
    (∀ (st : St) (pid old new : String),
      st.hgetS ("post:" ++ pid) "sentiment" = some old → old ≠ "" → old ≠ lowerStr new →
      (update_post_sentiment pid new st).sismember
        ("sentiment:" ++ old ++ ":posts") pid = false ∧
      (update_post_sentiment pid new st).sismember
        ("sentiment:" ++ lowerStr new ++ ":posts") pid = true ∧
      (update_post_sentiment pid new st).hgetS ("post:" ++ pid) "sentiment" =
        some (lowerStr new) ∧
      update_post_sentiment pid new st =
        ((st.srem ("sentiment:" ++ old ++ ":posts") pid).hset1 ("post:" ++ pid)
          "sentiment" (.s (lowerStr new))).sadd
          ("sentiment:" ++ lowerStr new ++ ":posts") pid) := by
  constructor
  · intro st oid old new hread hne hchange
    have heq : update_order_status oid new st =
        ((st.srem ("order:status:" ++ old) oid).hset1 ("order:" ++ oid) "status"
          (.s new)).sadd ("order:status:" ++ new) oid := by
      unfold update_order_status
      rw [hread]
      simp [hne]
    refine ⟨?_, ?_, ?_, heq⟩
    · rw [heq, sismember_sadd_ne_key _ _ _ (statusKeyInj hchange),
        sismember_eq_of_sets (sets_hset1 _ _ _ _)]
      exact sismember_srem_self _ _ _
    · rw [heq]
      exact sismember_sadd_self _ _ _
    · rw [heq, hgetS_eq_of_hashes (hashes_sadd _ _ _)]
      unfold St.hgetS
      rw [hget_hset1_self]
      rfl
  · intro st pid old new hread hne hchange
    have heq : update_post_sentiment pid new st =
        ((st.srem ("sentiment:" ++ old ++ ":posts") pid).hset1 ("post:" ++ pid)
          "sentiment" (.s (lowerStr new))).sadd
          ("sentiment:" ++ lowerStr new ++ ":posts") pid := by
      unfold update_post_sentiment
      rw [hread]
      simp [hne]
    refine ⟨?_, ?_, ?_, heq⟩
    · rw [heq, sismember_sadd_ne_key _ _ _ (sentimentKeyInj hchange),
        sismember_eq_of_sets (sets_hset1 _ _ _ _)]
      exact sismember_srem_self _ _ _
    · rw [heq]
      exact sismember_sadd_self _ _ _
    · rw [heq, hgetS_eq_of_hashes (hashes_sadd _ _ _)]
      unfold St.hgetS
      rw [hget_hset1_self]
      rfl

/-- Witness for C1 at a concrete store: an order with status `created`
moved to `shipped`, and a post with sentiment `neutral` moved to `Joy`. -/
theorem claim1_change_category_witness :
    ((create_order "o1" "c1" "created" St.empty).hgetS "order:o1" "status" =
      some "created" ∧
     (update_order_status "o1" "shipped" (create_order "o1" "c1" "created"
       St.empty)).sismember "order:status:created" "o1" = false) ∧
    ((create_post "p1" "u1" "hello" "twitter" "usa" "neutral" "t0"
       St.empty).hgetS "post:p1" "sentiment" = some "neutral" ∧
     (update_post_sentiment "p1" "Joy" (create_post "p1" "u1" "hello" "twitter"
       "usa" "neutral" "t0" St.empty)).sismember "sentiment:neutral:posts" "p1" = false) := by
  have h1 := (claim1_change_category.1 (create_order "o1" "c1" "created" St.empty)
    "o1" "created" "shipped" (by decide) (by decide) (by decide)).1
  have h2 := (claim1_change_category.2 (create_post "p1" "u1" "hello" "twitter"
    "usa" "neutral" "t0" St.empty) "p1" "neutral" "Joy" (by decide) (by decide)
    (by decide)).1
  exact ⟨⟨by decide, by simpa using h1⟩, ⟨by decide, by simpa using h2⟩⟩

/-! ## Sorted-set query properties -/

theorem zrangebyscoreP_bounds (st : St) (k : String) (lo hi : Rat) :
    ∀ e ∈ st.zrangebyscoreP k lo hi, lo ≤ e.2 ∧ e.2 ≤ hi := by
  intro e he
  unfold St.zrangebyscoreP at he
  have h2 := (List.perm_insertionSort zleA _).subset he
  have h3 := (List.mem_filter.mp h2).2
  rw [Bool.and_eq_true] at h3
  exact ⟨of_decide_eq_true h3.1, of_decide_eq_true h3.2⟩

theorem zleA_scores {a b : String × Rat} (h : zleA a b) : a.2 ≤ b.2 := by
  rcases h with h | ⟨h, _⟩
  · exact le_of_lt h
  · exact le_of_eq h

theorem zleD_scores {a b : String × Rat} (h : zleD a b) : b.2 ≤ a.2 := by
  rcases h with h | ⟨h, _⟩
  · exact le_of_lt h
  · exact le_of_eq h.symm

theorem zrangebyscoreP_sorted (st : St) (k : String) (lo hi : Rat) :
    List.Sorted (fun a b => a.2 ≤ b.2) (st.zrangebyscoreP k lo hi) := by
  unfold St.zrangebyscoreP
  exact (List.sorted_insertionSort zleA _).imp (fun h => zleA_scores h)

/-- C6. Score-range reads: `get_readings_in_range(mote, a, b, limit)` is the
member projection of the `ZRANGEBYSCORE` result truncated to `limit`; every
returned entry has `a <= score <= b` (both bounds inclusive), the result is
in ascending score order, and at most `limit` entries are returned.
`sensors_in_temperature_range(a, b)` (no limit argument) satisfies the same
bound and ordering properties. -/
theorem claim6_score_range (st : St) (mid : String) (lo hi : Rat) (limit : Nat) :
    (∀ e ∈ (st.zrangebyscoreP ("sensor:" ++ mid ++ ":readings") lo hi).take limit,
      lo ≤ e.2 ∧ e.2 ≤ hi) ∧
    List.Sorted (fun a b => a.2 ≤ b.2)
      ((st.zrangebyscoreP ("sensor:" ++ mid ++ ":readings") lo hi).take limit) ∧
    get_readings_in_range mid lo hi limit st =
      ((st.zrangebyscoreP ("sensor:" ++ mid ++ ":readings") lo hi).take limit).map
        Prod.fst ∧
    (get_readings_in_range mid lo hi limit st).length ≤ limit ∧
    (∀ e ∈ sensors_in_temperature_range lo hi st, lo ≤ e.2 ∧ e.2 ≤ hi) ∧
    List.Sorted (fun a b => a.2 ≤ b.2) (sensors_in_temperature_range lo hi st) := by
  refine ⟨?_, ?_, rfl, ?_, ?_, ?_⟩
  · intro e he
    exact zrangebyscoreP_bounds st _ lo hi e ((List.take_sublist _ _).subset he)
  · exact (zrangebyscoreP_sorted st _ lo hi).sublist (List.take_sublist _ _)
  · unfold get_readings_in_range
    rw [List.length_map]
    exact (List.length_take_le _ _)
  · intro e he
    exact zrangebyscoreP_bounds st _ lo hi e he
  · exact zrangebyscoreP_sorted st _ lo hi

theorem zrevrangeP_take (st : St) (k : String) (n : Nat) (h : 1 ≤ n) :
    st.zrevrangeP k 0 ((n : Int) - 1) =
      (List.insertionSort zleD (st.zentries k)).take n := by
  unfold St.zrevrangeP sliceII normIdx
  have h0 : ¬ ((0 : Int) < 0) := by omega
  have h1 : ¬ ((n : Int) - 1 < 0) := by omega
  simp only [if_neg h0, if_neg h1, if_pos (by omega : (0 : Int) ≤ (n : Int) - 1)]
  have h2 : ((n : Int) - 1).toNat + 1 = n := by omega
  rw [h2]
  simp

/-- The full descending order underlying `ZREVRANGE`: sorted by descending
score, and a permutation of the stored entries. -/
theorem zrevrange_split (st : St) (k : String) (n : Nat) (h : 1 ≤ n) :
    ∃ rest, (st.zentries k).Perm (st.zrevrangeP k 0 ((n : Int) - 1) ++ rest) ∧
      (∀ a ∈ st.zrevrangeP k 0 ((n : Int) - 1), ∀ b ∈ rest, b.2 ≤ a.2) := by
  rw [zrevrangeP_take st k n h]
  refine ⟨(List.insertionSort zleD (st.zentries k)).drop n, ?_, ?_⟩
  · rw [List.take_append_drop]
    exact (List.perm_insertionSort zleD _).symm
  · have hs := List.sorted_insertionSort zleD (st.zentries k)
    have hsplit := List.take_append_drop n (List.insertionSort zleD (st.zentries k))
    rw [← hsplit] at hs
    have h3 := (List.pairwise_append.mp hs).2.2
    intro a ha b hb
    exact zleD_scores (h3 a ha b hb)

/-- C7. Top-K reads: for `k ≥ 1`, `ZREVRANGE c 0 k-1` returns
`min k card` entries (so exactly `k` when the collection has at least `k`),
in descending score order; the stored entries split (up to permutation) into
the result and a remainder every element of which scores no higher than any
returned entry — i.e. the result is the k highest-scoring entries, ties
resolved by the fixed member order, and as a pure function of the store the
read is repeatable.  Concretely, after adding scores 5, 10, 1 for A, B, C,
the top-2 query returns [(B,10), (A,5)]. -/
theorem claim7_top_k :
    (∀ (st : St) (k : Nat), 1 ≤ k →
      (top_selling_products (k : Int) st).length =
        min k (st.zentries "product:sales").length ∧
      List.Sorted (fun a b => b.2 ≤ a.2) (top_selling_products (k : Int) st) ∧
      ∃ rest, (st.zentries "product:sales").Perm
          (top_selling_products (k : Int) st ++ rest) ∧
        ∀ a ∈ top_selling_products (k : Int) st, ∀ b ∈ rest, b.2 ≤ a.2) ∧
    (∀ (st : St) (k : Nat), 1 ≤ k →
      (top_hottest_sensors (k : Int) st).length =
        min k (st.zentries "sensor:avg:temperature").length ∧
      List.Sorted (fun a b => b.2 ≤ a.2) (top_hottest_sensors (k : Int) st) ∧
      ∃ rest, (st.zentries "sensor:avg:temperature").Perm
          (top_hottest_sensors (k : Int) st ++ rest) ∧
        ∀ a ∈ top_hottest_sensors (k : Int) st, ∀ b ∈ rest, b.2 ≤ a.2) ∧
    top_selling_products 2
      (((St.empty.zadd "product:sales" "A" 5).zadd "product:sales" "B" 10).zadd
        "product:sales" "C" 1) = [("B", 10), ("A", 5)] := by
  refine ⟨?_, ?_, by decide⟩
  · intro st k hk
    have ht : top_selling_products (k : Int) st =
        (List.insertionSort zleD (st.zentries "product:sales")).take k := by
      unfold top_selling_products
      exact zrevrangeP_take st _ k hk
    refine ⟨?_, ?_, ?_⟩
    · rw [ht, List.length_take, (List.perm_insertionSort zleD _).length_eq]
    · rw [ht]
      exact ((List.sorted_insertionSort zleD _).imp
        (fun h => zleD_scores h)).sublist (List.take_sublist _ _)
    · unfold top_selling_products
      exact zrevrange_split st _ k hk
  · intro st k hk
    have ht : top_hottest_sensors (k : Int) st =
        (List.insertionSort zleD (st.zentries "sensor:avg:temperature")).take k := by
      unfold top_hottest_sensors
      exact zrevrangeP_take st _ k hk
    refine ⟨?_, ?_, ?_⟩
    · rw [ht, List.length_take, (List.perm_insertionSort zleD _).length_eq]
    · rw [ht]
      exact ((List.sorted_insertionSort zleD _).imp
        (fun h => zleD_scores h)).sublist (List.take_sublist _ _)
    · unfold top_hottest_sensors
      exact zrevrange_split st _ k hk

/-- Witness for C7 on a concrete store with three scored products. -/
theorem claim7_top_k_witness :
    (1 ≤ 2 ∧
      (top_selling_products (2 : Int)
        (((St.empty.zadd "product:sales" "A" 5).zadd "product:sales" "B" 10).zadd
          "product:sales" "C" 1)).length =
        min 2 ((((St.empty.zadd "product:sales" "A" 5).zadd "product:sales" "B"
          10).zadd "product:sales" "C" 1).zentries "product:sales").length) ∧
    (1 ≤ 1 ∧
      (top_hottest_sensors (1 : Int)
        (St.empty.zadd "sensor:avg:temperature" "s1" 20)).length =
        min 1 ((St.empty.zadd "sensor:avg:temperature" "s1"
          20).zentries "sensor:avg:temperature").length) :=
  ⟨⟨by decide, (claim7_top_k.1
      (((St.empty.zadd "product:sales" "A" 5).zadd "product:sales" "B" 10).zadd
        "product:sales" "C" 1) 2 (by decide)).1⟩,
   ⟨by decide, (claim7_top_k.2.1
      (St.empty.zadd "sensor:avg:temperature" "s1" 20) 1 (by decide)).1⟩⟩

/-! ## Reads unchanged by commands on other component types -/

@[simp] theorem llist_hsetM (st : St) (k : String) (ps : List (String × HVal))
    (k' : String) : (st.hsetM k ps).llist k' = st.llist k' := rfl

@[simp] theorem llist_hset1 (st : St) (k f : String) (v : HVal) (k' : String) :
    (st.hset1 k f v).llist k' = st.llist k' := rfl

@[simp] theorem llist_hincrby (st : St) (k f : String) (d : Int) (k' : String) :
    (st.hincrby k f d).llist k' = st.llist k' :=
  llist_eq_of_lists (lists_hincrby st k f d) k'

@[simp] theorem llist_sadd (st : St) (k v k' : String) :
    (st.sadd k v).llist k' = st.llist k' := rfl

@[simp] theorem llist_srem (st : St) (k v k' : String) :
    (st.srem k v).llist k' = st.llist k' := rfl

@[simp] theorem llist_zadd (st : St) (k m : String) (sc : Rat) (k' : String) :
    (st.zadd k m sc).llist k' = st.llist k' := rfl

@[simp] theorem llist_zincrby (st : St) (k : String) (d : Rat) (m k' : String) :
    (st.zincrby k d m).llist k' = st.llist k' := rfl

@[simp] theorem llist_zrem (st : St) (k m k' : String) :
    (st.zrem k m).llist k' = st.llist k' := rfl

@[simp] theorem smembers_hsetM (st : St) (k : String) (ps : List (String × HVal))
    (k' : String) : (st.hsetM k ps).smembers k' = st.smembers k' := rfl

@[simp] theorem smembers_hset1 (st : St) (k f : String) (v : HVal) (k' : String) :
    (st.hset1 k f v).smembers k' = st.smembers k' := rfl

@[simp] theorem smembers_hincrby (st : St) (k f : String) (d : Int) (k' : String) :
    (st.hincrby k f d).smembers k' = st.smembers k' :=
  smembers_eq_of_sets (sets_hincrby st k f d) k'

@[simp] theorem smembers_lpush (st : St) (k v k' : String) :
    (st.lpush k v).smembers k' = st.smembers k' := rfl

@[simp] theorem smembers_lremAll (st : St) (k v k' : String) :
    (st.lremAll k v).smembers k' = st.smembers k' := rfl

@[simp] theorem smembers_zadd (st : St) (k m : String) (sc : Rat) (k' : String) :
    (st.zadd k m sc).smembers k' = st.smembers k' := rfl

@[simp] theorem smembers_zincrby (st : St) (k : String) (d : Rat) (m k' : String) :
    (st.zincrby k d m).smembers k' = st.smembers k' := rfl

@[simp] theorem smembers_zrem (st : St) (k m k' : String) :
    (st.zrem k m).smembers k' = st.smembers k' := rfl

@[simp] theorem sismember_hsetM (st : St) (k : String) (ps : List (String × HVal))
    (k' v' : String) : (st.hsetM k ps).sismember k' v' = st.sismember k' v' := rfl

@[simp] theorem sismember_hset1 (st : St) (k f : String) (v : HVal) (k' v' : String) :
    (st.hset1 k f v).sismember k' v' = st.sismember k' v' := rfl

@[simp] theorem sismember_hincrby (st : St) (k f : String) (d : Int) (k' v' : String) :
    (st.hincrby k f d).sismember k' v' = st.sismember k' v' :=
  sismember_eq_of_sets (sets_hincrby st k f d) k' v'

@[simp] theorem sismember_lpush (st : St) (k v k' v' : String) :
    (st.lpush k v).sismember k' v' = st.sismember k' v' := rfl

@[simp] theorem sismember_lremAll (st : St) (k v k' v' : String) :
    (st.lremAll k v).sismember k' v' = st.sismember k' v' := rfl

@[simp] theorem sismember_zadd (st : St) (k m : String) (sc : Rat) (k' v' : String) :
    (st.zadd k m sc).sismember k' v' = st.sismember k' v' := rfl

@[simp] theorem sismember_zincrby (st : St) (k : String) (d : Rat) (m k' v' : String) :
    (st.zincrby k d m).sismember k' v' = st.sismember k' v' := rfl

@[simp] theorem sismember_zrem (st : St) (k m k' v' : String) :
    (st.zrem k m).sismember k' v' = st.sismember k' v' := rfl

@[simp] theorem zentries_hsetM (st : St) (k : String) (ps : List (String × HVal))
    (k' : String) : (st.hsetM k ps).zentries k' = st.zentries k' := rfl

@[simp] theorem zentries_hset1 (st : St) (k f : String) (v : HVal) (k' : String) :
    (st.hset1 k f v).zentries k' = st.zentries k' := rfl

@[simp] theorem zentries_hincrby (st : St) (k f : String) (d : Int) (k' : String) :
    (st.hincrby k f d).zentries k' = st.zentries k' :=
  zentries_eq_of_zsets (zsets_hincrby st k f d) k'

@[simp] theorem zentries_lpush (st : St) (k v k' : String) :
    (st.lpush k v).zentries k' = st.zentries k' := rfl

@[simp] theorem zentries_lremAll (st : St) (k v k' : String) :
    (st.lremAll k v).zentries k' = st.zentries k' := rfl

@[simp] theorem zentries_sadd (st : St) (k v k' : String) :
    (st.sadd k v).zentries k' = st.zentries k' := rfl

@[simp] theorem zentries_srem (st : St) (k v k' : String) :
    (st.srem k v).zentries k' = st.zentries k' := rfl

@[simp] theorem zscore_hsetM (st : St) (k : String) (ps : List (String × HVal))
    (k' m : String) : (st.hsetM k ps).zscore k' m = st.zscore k' m := rfl

@[simp] theorem zscore_hset1 (st : St) (k f : String) (v : HVal) (k' m : String) :
    (st.hset1 k f v).zscore k' m = st.zscore k' m := rfl

@[simp] theorem zscore_hincrby (st : St) (k f : String) (d : Int) (k' m : String) :
    (st.hincrby k f d).zscore k' m = st.zscore k' m := by
  unfold St.zscore
  rw [zentries_hincrby]

@[simp] theorem zscore_lpush (st : St) (k v k' m : String) :
    (st.lpush k v).zscore k' m = st.zscore k' m := rfl

@[simp] theorem zscore_lremAll (st : St) (k v k' m : String) :
    (st.lremAll k v).zscore k' m = st.zscore k' m := rfl

@[simp] theorem zscore_sadd (st : St) (k v k' m : String) :
    (st.sadd k v).zscore k' m = st.zscore k' m := rfl

@[simp] theorem zscore_srem (st : St) (k v k' m : String) :
    (st.srem k v).zscore k' m = st.zscore k' m := rfl

@[simp] theorem hgetall_lpush (st : St) (k v k' : String) :
    (st.lpush k v).hgetall k' = st.hgetall k' := rfl

@[simp] theorem hgetall_lremAll (st : St) (k v k' : String) :
    (st.lremAll k v).hgetall k' = st.hgetall k' := rfl

@[simp] theorem hgetall_sadd (st : St) (k v k' : String) :
    (st.sadd k v).hgetall k' = st.hgetall k' := rfl

@[simp] theorem hgetall_srem (st : St) (k v k' : String) :
    (st.srem k v).hgetall k' = st.hgetall k' := rfl

@[simp] theorem hgetall_zadd (st : St) (k m : String) (sc : Rat) (k' : String) :
    (st.zadd k m sc).hgetall k' = st.hgetall k' := rfl

@[simp] theorem hgetall_zincrby (st : St) (k : String) (d : Rat) (m k' : String) :
    (st.zincrby k d m).hgetall k' = st.hgetall k' := rfl

@[simp] theorem hgetall_zrem (st : St) (k m k' : String) :
    (st.zrem k m).hgetall k' = st.hgetall k' := rfl

@[simp] theorem hget_lpush (st : St) (k v k' f : String) :
    (st.lpush k v).hget k' f = st.hget k' f := rfl

@[simp] theorem hget_lremAll (st : St) (k v k' f : String) :
    (st.lremAll k v).hget k' f = st.hget k' f := rfl

@[simp] theorem hget_sadd (st : St) (k v k' f : String) :
    (st.sadd k v).hget k' f = st.hget k' f := rfl

@[simp] theorem hget_srem (st : St) (k v k' f : String) :
    (st.srem k v).hget k' f = st.hget k' f := rfl

@[simp] theorem hget_zadd (st : St) (k m : String) (sc : Rat) (k' f : String) :
    (st.zadd k m sc).hget k' f = st.hget k' f := rfl

@[simp] theorem hget_zincrby (st : St) (k : String) (d : Rat) (m k' f : String) :
    (st.zincrby k d m).hget k' f = st.hget k' f := rfl

@[simp] theorem hget_zrem (st : St) (k m k' f : String) :
    (st.zrem k m).hget k' f = st.hget k' f := rfl

/-- C8. `create_order` pushes the order id onto the FRONT of the customer's
order list (most-recent-first), so a subsequent `get_customer_orders` read
returns it at position 0, followed by the truncated previous list; the
`import_orders` loop body links each imported order the same way. -/
theorem claim8_link_front (st : St) (oid cid status : String) (limit : Int)
    (hl : 1 ≤ limit) :
    (create_order oid cid status st).llist ("customer:" ++ cid ++ ":orders") =
      oid :: st.llist ("customer:" ++ cid ++ ":orders") ∧
    get_customer_orders cid limit (create_order oid cid status st) =
      oid :: (st.llist ("customer:" ++ cid ++ ":orders")).take ((limit - 1).toNat) ∧
    (get_customer_orders cid limit (create_order oid cid status st)).head? =
      some oid ∧
    ∀ row : OrderRow,
      (importOrderRow st row).llist ("customer:" ++ row.customer_id ++ ":orders") =
        row.order_id :: st.llist ("customer:" ++ row.customer_id ++ ":orders") := by
  have h1 : (create_order oid cid status st).llist ("customer:" ++ cid ++ ":orders") =
      oid :: st.llist ("customer:" ++ cid ++ ":orders") := by
    unfold create_order
    simp only [llist_sadd]
    rw [llist_lpush_self]
    simp only [llist_hsetM]
  have h2 : get_customer_orders cid limit (create_order oid cid status st) =
      oid :: (st.llist ("customer:" ++ cid ++ ":orders")).take ((limit - 1).toNat) := by
    unfold get_customer_orders St.lrange
    rw [h1]
    unfold sliceII normIdx
    have h0 : ¬ ((0 : Int) < 0) := by omega
    have hb : ¬ (limit - 1 < 0) := by omega
    simp only [if_neg h0, if_neg hb, if_pos (by omega : (0 : Int) ≤ limit - 1)]
    rw [show Int.toNat 0 = 0 from rfl, List.drop_zero, List.take_succ_cons]
  refine ⟨h1, h2, ?_, ?_⟩
  · rw [h2]; rfl
  · intro row
    unfold importOrderRow
    simp only [llist_sadd]
    rw [llist_lpush_self]
    simp only [llist_hsetM]

/-- Witness for C8 with the default limit 10 on a store that already has an
older order for the same customer. -/
theorem claim8_link_front_witness :
    (1 : Int) ≤ 10 ∧
    get_customer_orders "c1" 10
      (create_order "o2" "c1" "created" (create_order "o1" "c1" "created"
        St.empty)) =
      "o2" :: ((create_order "o1" "c1" "created" St.empty).llist
        "customer:c1:orders").take ((10 - 1 : Int).toNat) :=
  ⟨by decide, (claim8_link_front (create_order "o1" "c1" "created" St.empty)
    "o2" "c1" "created" 10 (by decide)).2.1⟩

/-! ## Idempotence of the set-based indexes under re-import -/

theorem stateKey_ne_customerAll (x : String) :
    ("state:" ++ x ++ ":customers" : String) ≠ "customer:all" := by
  intro e
  rw [String.append_assoc] at e
  have h2 : ("customer:all" : String) = "customer:" ++ "all" := by decide
  rw [h2] at e
  exact strNeOfTake (x ++ ":customers") "all" 1 (by decide) (by decide) (by decide) e

theorem statusKey_ne_orderAll (x : String) :
    ("order:status:" ++ x : String) ≠ "order:all" := by
  intro e
  have h2 : ("order:all" : String) = "order:all" ++ "" := by decide
  rw [h2] at e
  exact strNeOfTake x "" 7 (by decide) (by decide) (by decide) e

theorem smembers_sadd_mem (st : St) {k v : String} (h : st.sismember k v = true) :
    (st.sadd k v).smembers k = st.smembers k := by
  unfold St.sismember St.smembers at h
  unfold St.smembers St.sadd
  simp only [alook_aupd_self]
  have h2 : v ∈ (alook st.sets k).getD [] := List.elem_iff.mp h
  simp [h2]

theorem importCustomerRow_mono (st : St) (row : CustomerRow) {k v : String}
    (h : st.sismember k v = true) :
    (importCustomerRow st row).sismember k v = true := by
  unfold importCustomerRow
  exact sismember_sadd_of _ (sismember_sadd_of _ (by simpa using h))

theorem importCustomers_mono (rows : List CustomerRow) (st : St) {k v : String}
    (h : st.sismember k v = true) :
    (importCustomers rows st).sismember k v = true := by
  induction rows generalizing st with
  | nil => exact h
  | cons r t ih => exact ih (importCustomerRow st r) (importCustomerRow_mono st r h)

theorem importCustomers_has (rows : List CustomerRow) (st : St) :
    ∀ r ∈ rows, (importCustomers rows st).sismember "customer:all" r.customer_id = true := by
  induction rows generalizing st with
  | nil => simp
  | cons r t ih =>
    intro r2 hr2
    rcases List.mem_cons.mp hr2 with rfl | hmem
    · refine importCustomers_mono t (importCustomerRow st r2) ?_
      unfold importCustomerRow
      exact sismember_sadd_self _ _ _
    · exact ih (importCustomerRow st r) r2 hmem

theorem importCustomerRow_allset_fix (st : St) (r : CustomerRow)
    (h : st.sismember "customer:all" r.customer_id = true) :
    (importCustomerRow st r).smembers "customer:all" = st.smembers "customer:all" := by
  unfold importCustomerRow
  rw [smembers_sadd_mem]
  · rw [smembers_sadd_ne _ _ (Ne.symm (stateKey_ne_customerAll _)), smembers_hsetM]
  · rw [sismember_sadd_ne_key _ _ _ (Ne.symm (stateKey_ne_customerAll _))]
    simpa using h

theorem importCustomers_allset_fix (rows : List CustomerRow) (st : St)
    (h : ∀ r ∈ rows, st.sismember "customer:all" r.customer_id = true) :
    (importCustomers rows st).smembers "customer:all" = st.smembers "customer:all" := by
  induction rows generalizing st with
  | nil => rfl
  | cons r t ih =>
    have step := importCustomerRow_allset_fix st r (h r (List.mem_cons_self r t))
    have htail : ∀ r2 ∈ t,
        (importCustomerRow st r).sismember "customer:all" r2.customer_id = true :=
      fun r2 hr2 => importCustomerRow_mono st r (h r2 (List.mem_cons_of_mem r hr2))
    calc (importCustomers (r :: t) st).smembers "customer:all"
        = (importCustomers t (importCustomerRow st r)).smembers "customer:all" := rfl
      _ = (importCustomerRow st r).smembers "customer:all" := ih _ htail
      _ = st.smembers "customer:all" := step

theorem importOrderRow_mono (st : St) (row : OrderRow) {k v : String}
    (h : st.sismember k v = true) :
    (importOrderRow st row).sismember k v = true := by
  unfold importOrderRow
  exact sismember_sadd_of _ (sismember_sadd_of _ (by simpa using h))

theorem importOrders_mono (rows : List OrderRow) (st : St) {k v : String}
    (h : st.sismember k v = true) :
    (importOrders rows st).sismember k v = true := by
  induction rows generalizing st with
  | nil => exact h
  | cons r t ih => exact ih (importOrderRow st r) (importOrderRow_mono st r h)

theorem importOrders_has (rows : List OrderRow) (st : St) :
    ∀ r ∈ rows, (importOrders rows st).sismember "order:all" r.order_id = true := by
  induction rows generalizing st with
  | nil => simp
  | cons r t ih =>
    intro r2 hr2
    rcases List.mem_cons.mp hr2 with rfl | hmem
    · refine importOrders_mono t (importOrderRow st r2) ?_
      unfold importOrderRow
      exact sismember_sadd_self _ _ _
    · exact ih (importOrderRow st r) r2 hmem

theorem importOrderRow_allset_fix (st : St) (r : OrderRow)
    (h : st.sismember "order:all" r.order_id = true) :
    (importOrderRow st r).smembers "order:all" = st.smembers "order:all" := by
  unfold importOrderRow
  rw [smembers_sadd_mem]
  · rw [smembers_sadd_ne _ _ (Ne.symm (statusKey_ne_orderAll _)), smembers_lpush, smembers_hsetM]
  · rw [sismember_sadd_ne_key _ _ _ (Ne.symm (statusKey_ne_orderAll _))]
    simpa using h

theorem importOrders_allset_fix (rows : List OrderRow) (st : St)
    (h : ∀ r ∈ rows, st.sismember "order:all" r.order_id = true) :
    (importOrders rows st).smembers "order:all" = st.smembers "order:all" := by
  induction rows generalizing st with
  | nil => rfl
  | cons r t ih =>
    have step := importOrderRow_allset_fix st r (h r (List.mem_cons_self r t))
    have htail : ∀ r2 ∈ t,
        (importOrderRow st r).sismember "order:all" r2.order_id = true :=
      fun r2 hr2 => importOrderRow_mono st r (h r2 (List.mem_cons_of_mem r hr2))
    calc (importOrders (r :: t) st).smembers "order:all"
        = (importOrders t (importOrderRow st r)).smembers "order:all" := rfl
      _ = (importOrderRow st r).smembers "order:all" := ih _ htail
      _ = st.smembers "order:all" := step

/-- C4. Re-importing the identical batch is invisible to the all-entities
Partition Index cardinalities: the `customer:all` (resp. `order:all`) set
after importing a batch twice equals — as a set, hence in cardinality —
the set after importing it once, because every per-row index write into
these sets is an idempotent `SADD`. -/
theorem claim4_reimport_idempotent (custRows : List CustomerRow)
    (orderRows : List OrderRow) (st : St) :
    (importCustomers custRows (importCustomers custRows st)).scard "customer:all" =
      (importCustomers custRows st).scard "customer:all" ∧
    (importOrders orderRows (importOrders orderRows st)).scard "order:all" =
      (importOrders orderRows st).scard "order:all" := by
  constructor
  · unfold St.scard
    rw [importCustomers_allset_fix custRows _
      (fun r hr => importCustomers_has custRows st r hr)]
  · unfold St.scard
    rw [importOrders_allset_fix orderRows _
      (fun r hr => importOrders_has orderRows st r hr)]

/-! ## Deletes of absent entities are no-ops -/

@[simp] theorem primop_apply_lrem (k v : String) (st : St) :
    (PrimOp.lrem k v).apply st = st.lremAll k v := rfl

@[simp] theorem primop_apply_srem (k v : String) (st : St) :
    (PrimOp.srem k v).apply st = st.srem k v := rfl

@[simp] theorem primop_apply_zrem (k m : String) (st : St) :
    (PrimOp.zrem k m).apply st = st.zrem k m := rfl

@[simp] theorem primop_apply_del (k : String) (st : St) :
    (PrimOp.del k).apply st = st.del k := rfl

theorem srem_of_not_member (st : St) {k v : String}
    (h : st.sismember k v = false) : st.srem k v = st := by
  unfold St.srem
  have hfix : amod st.sets k (fun l => l.filter (fun x => x != v)) = st.sets := by
    apply amod_of_fix
    intro l hl
    apply List.filter_eq_self.mpr
    intro a ha
    unfold St.sismember St.smembers at h
    rw [hl] at h
    simp only [Option.getD_some] at h
    rw [bne_iff_ne]
    intro e
    subst e
    have hc : l.contains a = true := List.elem_iff.mpr ha
    rw [hc] at h
    exact Bool.noConfusion h
  rw [hfix]

theorem zrem_of_not_member (st : St) {k m : String}
    (h : st.zmember k m = false) : st.zrem k m = st := by
  unfold St.zrem
  have hfix : amod st.zsets k (fun l => l.filter (fun e => e.1 != m)) = st.zsets := by
    apply amod_of_fix
    intro l hl
    apply List.filter_eq_self.mpr
    intro a ha
    unfold St.zmember St.zentries at h
    rw [hl] at h
    simp only [Option.getD_some] at h
    rw [bne_iff_ne]
    intro e
    have := List.any_eq_false.mp h a ha
    simp [e] at this
  rw [hfix]

theorem del_of_absent (st : St) {k : String} (h : keyAbsent st k) : st.del k = st := by
  unfold St.del
  rw [adel_of_none h.1, adel_of_none h.2.1, adel_of_none h.2.2.1, adel_of_none h.2.2.2]

theorem delete_order_absent (st : St) (oid : String)
    (h1 : keyAbsent st ("order:" ++ oid))
    (h2 : keyAbsent st ("order:" ++ oid ++ ":items"))
    (h3 : keyAbsent st ("order:" ++ oid ++ ":payments"))
    (h4 : keyAbsent st ("order:" ++ oid ++ ":review"))
    (h5 : st.sismember "order:all" oid = false)
    (h6 : st.zmember "review:scores" oid = false) :
    delete_order oid st = st := by
  have hget : get_order oid st = [] := by
    unfold get_order St.hgetall St.hfind
    rw [h1.1]
    rfl
  have hsteps : deleteOrderSteps st oid =
      [.srem "order:all" oid, .zrem "review:scores" oid,
       .del ("order:" ++ oid), .del ("order:" ++ oid ++ ":items"),
       .del ("order:" ++ oid ++ ":payments"), .del ("order:" ++ oid ++ ":review")] := by
    unfold deleteOrderSteps
    rw [hget]
    rfl
  unfold delete_order
  rw [hsteps]
  unfold runPrims
  simp only [List.foldl_cons, List.foldl_nil, primop_apply_srem, primop_apply_zrem,
    primop_apply_del]
  rw [srem_of_not_member st h5, zrem_of_not_member st h6, del_of_absent st h1,
    del_of_absent _ h2, del_of_absent _ h3, del_of_absent _ h4]

theorem delete_post_absent (st : St) (pid : String) (h : get_post pid st = []) :
    delete_post pid st = st := by
  unfold delete_post
  rw [h]
  rfl

/-- C9. Deleting an id that has no Record and no index entries raises no
error and leaves the store exactly unchanged, for `delete_order` (which has
no existence guard: all its removals are no-ops on absent keys/members) and
for `delete_post` (which returns early on an empty post hash); hence under
those hypotheses deleting twice equals deleting once. -/
theorem claim9_delete_missing :
    (∀ (st : St) (oid : String),
      keyAbsent st ("order:" ++ oid) →
      keyAbsent st ("order:" ++ oid ++ ":items") →
      keyAbsent st ("order:" ++ oid ++ ":payments") →
      keyAbsent st ("order:" ++ oid ++ ":review") →
      st.sismember "order:all" oid = false →
      st.zmember "review:scores" oid = false →
      delete_order oid st = st ∧
      delete_order oid (delete_order oid st) = delete_order oid st) ∧
    (∀ (st : St) (pid : String), get_post pid st = [] →
      delete_post pid st = st ∧
      delete_post pid (delete_post pid st) = delete_post pid st) := by
  constructor
  · intro st oid h1 h2 h3 h4 h5 h6
    have heq := delete_order_absent st oid h1 h2 h3 h4 h5 h6
    refine ⟨heq, ?_⟩
    rw [heq]
    exact heq
  · intro st pid h
    have heq := delete_post_absent st pid h
    refine ⟨heq, ?_⟩
    rw [heq]
    exact heq

/-- Witness for C9 on a store holding one unrelated order. -/
theorem claim9_delete_missing_witness :
    (keyAbsent (create_order "o1" "c1" "created" St.empty) "order:o2" ∧
      delete_order "o2" (create_order "o1" "c1" "created" St.empty) =
        create_order "o1" "c1" "created" St.empty) ∧
    (get_post "p2" (create_order "o1" "c1" "created" St.empty) = [] ∧
      delete_post "p2" (create_order "o1" "c1" "created" St.empty) =
        create_order "o1" "c1" "created" St.empty) := by
  have h1 := (claim9_delete_missing.1 (create_order "o1" "c1" "created" St.empty)
    "o2" (by decide) (by decide) (by decide) (by decide) (by decide) (by decide)).1
  have h2 := (claim9_delete_missing.2 (create_order "o1" "c1" "created" St.empty)
    "p2" (by decide)).1
  exact ⟨⟨by decide, by simpa using h1⟩, ⟨by decide, h2⟩⟩

/-! ## Batch-import error handling -/

/-- C3 fails on the code: an order-item row whose `price` cell is not a
number makes `float(row["price"])` raise — there is no try/except in
`import_order_items`, so the batch aborts; a reading line with fewer than
8 cells is skipped by `import_readings` WITHOUT incrementing the `skipped`
counter; and `import_reviews` skips an unparsable score without counting
it anywhere. -/
theorem claim3_counterexample :
    importOrderItems []
      [[("order_id", Tok.raw "o1"), ("product_id", Tok.raw "p1"),
        ("seller_id", Tok.raw "s1"), ("price", Tok.raw "abc"),
        ("freight_value", Tok.f (5 : Rat))]] St.empty =
      Except.error "ValueError: price" ∧
    (importReadings none [[Tok.raw "x"]] St.empty).2.1 = 0 ∧
    importReviews [[("order_id", Tok.raw "o1"), ("review_score", Tok.raw "bad")]]
      St.empty = Except.ok (0, St.empty) :=
  ⟨rfl, rfl, rfl⟩

theorem limitHit_none (c : Nat) : limitHit none c = false := rfl

theorem readingsLoop_counts (lines : List (List Tok)) (acc : RAcc) :
    (readingsLoop none lines acc).count =
      acc.count + (lines.filter lineGood).length ∧
    (readingsLoop none lines acc).skipped =
      acc.skipped + (lines.filter lineCountedSkip).length := by
  induction lines generalizing acc with
  | nil => simp [readingsLoop]
  | cons line rest ih =>
    unfold readingsLoop
    rw [limitHit_none]
    simp only [Bool.false_eq_true, if_false]
    by_cases hlen : line.length < 8
    · have hg : lineGood line = false := by
        unfold lineGood
        simp [Nat.not_le.mpr hlen]
      have hc : lineCountedSkip line = false := by
        unfold lineCountedSkip
        simp [Nat.not_le.mpr hlen]
      rw [if_pos hlen]
      refine ⟨?_, ?_⟩
      · rw [(ih acc).1, List.filter_cons, hg]
        simp
      · rw [(ih acc).2, List.filter_cons, hc]
        simp
    · rw [if_neg hlen]
      have hlen2 : decide (line.length ≥ 8) = true := by
        simp [Nat.le_of_not_lt hlen]
      rcases hp : parseReadingLine line with _ | rd
      · have hg : lineGood line = false := by
          unfold lineGood
          rw [hp]
          simp
        have hc : lineCountedSkip line = true := by
          unfold lineCountedSkip
          rw [hp, hlen2]
          rfl
        simp only [hp]
        refine ⟨?_, ?_⟩
        · rw [(ih _).1, List.filter_cons, hg]
          simp
        · rw [(ih _).2, List.filter_cons, hc]
          simp only [List.length_cons, if_pos]
          omega
      · by_cases hd : domainOk rd
        · have hg : lineGood line = true := by
            unfold lineGood
            rw [hp, hlen2]
            simp [hd]
          have hc : lineCountedSkip line = false := by
            unfold lineCountedSkip
            rw [hp, hlen2]
            simp [hd]
          simp only [hp, hd, Bool.not_true, Bool.false_eq_true, if_false]
          refine ⟨?_, ?_⟩
          · rw [(ih _).1, List.filter_cons, hg]
            simp only [List.length_cons, if_pos]
            omega
          · rw [(ih _).2, List.filter_cons, hc]
            simp
        · have hd2 : domainOk rd = false := by simpa using hd
          have hg : lineGood line = false := by
            unfold lineGood
            rw [hp, hlen2]
            simp [hd2]
          have hc : lineCountedSkip line = true := by
            unfold lineCountedSkip
            rw [hp, hlen2]
            simp [hd2]
          simp only [hp, hd2, Bool.not_false, if_true]
          refine ⟨?_, ?_⟩
          · rw [(ih _).1, List.filter_cons, hg]
            simp
          · rw [(ih _).2, List.filter_cons, hc]
            simp only [List.length_cons, if_pos]
            omega

theorem reviewsLoop_ok (rows : List CsvRow)
    (h : ∀ row ∈ rows, (alook row "order_id").isSome = true) :
    ∀ (count : Nat) (dist : List (Int × Nat)) (st : St), ∃ c d st2,
      reviewsLoop rows count dist st = Except.ok (c, d, st2) := by
  induction rows with
  | nil => exact fun count dist st => ⟨count, dist, st, rfl⟩
  | cons row rest ih =>
    intro count dist st
    have h1 := h row (List.mem_cons_self row rest)
    have h2 : ∀ r ∈ rest, (alook r "order_id").isSome = true :=
      fun r hr => h r (List.mem_cons_of_mem row hr)
    rcases ho : alook row "order_id" with _ | t
    · rw [ho] at h1; cases h1
    · unfold reviewsLoop rowStr
      simp only [ho]
      rcases hs : (alook row "review_score").bind Tok.asInt with _ | score
      · simpa using ih h2 count dist st
      · simpa using ih h2 (count + 1) _ _

theorem orderItemsLoop_ok (cats : List (String × String)) (rows : List CsvRow)
    (h : ∀ row ∈ rows, (alook row "order_id").isSome = true ∧
      (alook row "product_id").isSome = true ∧
      (alook row "seller_id").isSome = true ∧
      ((alook row "price").bind Tok.asFloat).isSome = true ∧
      ((alook row "freight_value").bind Tok.asFloat).isSome = true) :
    ∀ (count : Nat) (agg : ItemAgg) (st : St), ∃ c a st2,
      orderItemsLoop cats rows count agg st = Except.ok (c, a, st2) := by
  induction rows with
  | nil => exact fun count agg st => ⟨count, agg, st, rfl⟩
  | cons row rest ih =>
    intro count agg st
    obtain ⟨h1, h2, h3, h4, h5⟩ := h row (List.mem_cons_self row rest)
    have hrest := fun r hr => h r (List.mem_cons_of_mem row hr)
    rcases ho : alook row "order_id" with _ | t1
    · rw [ho] at h1; cases h1
    rcases hp : alook row "product_id" with _ | t2
    · rw [hp] at h2; cases h2
    rcases hsl : alook row "seller_id" with _ | t3
    · rw [hsl] at h3; cases h3
    rcases hpr2 : alook row "price" with _ | tp
    · rw [hpr2] at h4; cases h4
    rcases hfr2 : alook row "freight_value" with _ | tf
    · rw [hfr2] at h5; cases h5
    rw [hpr2] at h4
    rw [hfr2] at h5
    simp only [Option.some_bind] at h4 h5
    rcases hq1 : tp.asFloat with _ | q1
    · rw [hq1] at h4; cases h4
    rcases hq2 : tf.asFloat with _ | q2
    · rw [hq2] at h5; cases h5
    unfold orderItemsLoop rowStr rowFloat
    simp only [ho, hp, hsl, hpr2, hfr2, hq1, hq2]
    simpa using ih hrest (count + 1) _ _

/-- C3 amended. `import_readings` never aborts (it is a total function of
its input lines) and classifies every line: well-formed lines are imported
and counted in `count`; lines with at least 8 cells failing numeric/date
parsing or the range filters are skipped and counted in `skipped`; lines
with fewer than 8 cells are skipped without being counted.
`import_reviews` never aborts provided every row has an `order_id` column
(an unparsable or missing score only skips that row, uncounted), and
`import_order_items` completes only under the stronger condition that all
of its required columns are present and numeric — a malformed numeric cell
aborts it, as the counterexample shows. -/
theorem claim3_amended :
    (∀ (lines : List (List Tok)) (st : St),
      (importReadings none lines st).1 = (lines.filter lineGood).length ∧
      (importReadings none lines st).2.1 = (lines.filter lineCountedSkip).length) ∧
    (∀ (rows : List CsvRow) (st : St),
      (∀ row ∈ rows, (alook row "order_id").isSome = true) →
      ∃ c st2, importReviews rows st = Except.ok (c, st2)) ∧
    (∀ (cats : List (String × String)) (rows : List CsvRow) (st : St),
      (∀ row ∈ rows, (alook row "order_id").isSome = true ∧
        (alook row "product_id").isSome = true ∧
        (alook row "seller_id").isSome = true ∧
        ((alook row "price").bind Tok.asFloat).isSome = true ∧
        ((alook row "freight_value").bind Tok.asFloat).isSome = true) →
      ∃ c st2, importOrderItems cats rows st = Except.ok (c, st2)) := by
  refine ⟨?_, ?_, ?_⟩
  · intro lines st
    have h := readingsLoop_counts lines ⟨0, 0, [], [], [], [], st⟩
    constructor
    · show (readingsLoop none lines ⟨0, 0, [], [], [], [], st⟩).count = _
      rw [h.1]
      simp
    · show (readingsLoop none lines ⟨0, 0, [], [], [], [], st⟩).skipped = _
      rw [h.2]
      simp
  · intro rows st h
    obtain ⟨c, d, st2, hrun⟩ := reviewsLoop_ok rows h 0 [] st
    refine ⟨c, d.foldl
      (fun t p => t.zadd "review:score:distribution" (toString p.1) (p.2 : Rat)) st2, ?_⟩
    unfold importReviews
    rw [hrun]
  · intro cats rows st h
    obtain ⟨c, a, st2, hrun⟩ := orderItemsLoop_ok cats rows h 0 ⟨[], [], []⟩ st
    refine ⟨c, a.category_revenue.foldl (fun t p => t.zadd "category:revenue" p.1 p.2)
      (a.product_revenue.foldl (fun t p => t.zadd "product:revenue" p.1 p.2)
        (a.product_sales.foldl (fun t p => t.zadd "product:sales" p.1 (p.2 : Rat)) st2)), ?_⟩
    unfold importOrderItems
    rw [hrun]

/-- Witness for the hypothesised parts of the amended C3, on singleton
well-formed batches. -/
theorem claim3_amended_witness :
    (∃ c st2, importReviews
      [[("order_id", Tok.raw "o1"), ("review_score", Tok.i 5)]] St.empty =
        Except.ok (c, st2)) ∧
    (∃ c st2, importOrderItems []
      [[("order_id", Tok.raw "o1"), ("product_id", Tok.raw "p1"),
        ("seller_id", Tok.raw "s1"), ("price", Tok.f 10),
        ("freight_value", Tok.i 2)]] St.empty = Except.ok (c, st2)) :=
  ⟨claim3_amended.2.1 _ St.empty (by decide),
   claim3_amended.2.2 [] _ St.empty (by decide)⟩

/-! ## Ordering of index removals versus record deletion -/

theorem hgetall_ne_of_hgetS {st : St} {k f v : String} (h : st.hgetS k f = some v) :
    st.hgetall k ≠ [] := by
  intro e
  unfold St.hgetS St.hget at h
  rw [e] at h
  simp [alook] at h

/-- The four negative facts are preserved by any further primitive step. -/
theorem runPrims_preserves_clear (ops : List PrimOp) (s : St)
    {k1 v1 k2 v2 k3 m3 k4 v4 : String}
    (h1 : s.sismember k1 v1 = false) (h2 : s.sismember k2 v2 = false)
    (h3 : s.zmember k3 m3 = false) (h4 : (s.llist k4).contains v4 = false) :
    (runPrims ops s).sismember k1 v1 = false ∧
    (runPrims ops s).sismember k2 v2 = false ∧
    (runPrims ops s).zmember k3 m3 = false ∧
    ((runPrims ops s).llist k4).contains v4 = false :=
  ⟨runPrims_sismember_false ops s h1, runPrims_sismember_false ops s h2,
   runPrims_zmember_false ops s h3, runPrims_contains_llist_false ops s h4⟩

/-- C5. Deletion removes the entity from every index derivable from the
Record's current fields strictly before deleting the Record key: the step
list of `delete_order` is exactly the four index removals followed by the
`DEL` of the Record and then of the owned sub-keys; consequently at every
intermediate point at which the Record already reads empty, the status
partition, `order:all`, `review:scores` and the customer's Relationship
list no longer resolve to the order.  Likewise for `delete_sensor`. -/
theorem claim5_delete_ordering :
    (∀ (st : St) (oid cid s0 : String),
      st.hgetS ("order:" ++ oid) "customer_id" = some cid → cid ≠ "" →
      st.hgetS ("order:" ++ oid) "status" = some s0 → s0 ≠ "" →
      deleteOrderSteps st oid =
        [.lrem ("customer:" ++ cid ++ ":orders") oid,
         .srem ("order:status:" ++ s0) oid,
         .srem "order:all" oid, .zrem "review:scores" oid] ++
        .del ("order:" ++ oid) ::
        [.del ("order:" ++ oid ++ ":items"), .del ("order:" ++ oid ++ ":payments"),
         .del ("order:" ++ oid ++ ":review")] ∧
      (∀ i : Nat,
        get_order oid (runPrims ((deleteOrderSteps st oid).take i) st) = [] →
        (runPrims ((deleteOrderSteps st oid).take i) st).sismember
          ("order:status:" ++ s0) oid = false ∧
        (runPrims ((deleteOrderSteps st oid).take i) st).sismember
          "order:all" oid = false ∧
        (runPrims ((deleteOrderSteps st oid).take i) st).zmember
          "review:scores" oid = false ∧
        ((runPrims ((deleteOrderSteps st oid).take i) st).llist
          ("customer:" ++ cid ++ ":orders")).contains oid = false)) ∧
    (∀ (st : St) (mid : String), st.hgetall ("sensor:" ++ mid) ≠ [] →
      deleteSensorSteps mid =
        [.srem "sensor:all" mid, .zrem "sensor:avg:temperature" mid] ++
        .del ("sensor:" ++ mid) ::
        [.del ("sensor:" ++ mid ++ ":readings"), .del ("sensor:" ++ mid ++ ":latest"),
         .del ("sensor:" ++ mid ++ ":connectivity")] ∧
      (∀ i : Nat,
        (runPrims ((deleteSensorSteps mid).take i) st).hgetall ("sensor:" ++ mid) = [] →
        (runPrims ((deleteSensorSteps mid).take i) st).sismember
          "sensor:all" mid = false ∧
        (runPrims ((deleteSensorSteps mid).take i) st).zmember
          "sensor:avg:temperature" mid = false)) := by
  constructor
  · intro st oid cid s0 hc hc2 hs hs2
    have hne : get_order oid st ≠ [] := hgetall_ne_of_hgetS hs
    have hsteps : deleteOrderSteps st oid =
        [.lrem ("customer:" ++ cid ++ ":orders") oid,
         .srem ("order:status:" ++ s0) oid,
         .srem "order:all" oid, .zrem "review:scores" oid,
         .del ("order:" ++ oid), .del ("order:" ++ oid ++ ":items"),
         .del ("order:" ++ oid ++ ":payments"), .del ("order:" ++ oid ++ ":review")] := by
      unfold deleteOrderSteps
      have e1 : (alook (get_order oid st) "customer_id").map HVal.render = some cid := hc
      have e2 : (alook (get_order oid st) "status").map HVal.render = some s0 := hs
      simp only [e1, e2, truthy, Option.getD_some]
      rw [if_pos (by simpa using hc2), if_pos (by simpa using hs2)]
      rfl
    refine ⟨by rw [hsteps]; rfl, ?_⟩
    intro i
    rw [hsteps]
    have hclear : (runPrims ((
        [.lrem ("customer:" ++ cid ++ ":orders") oid,
         .srem ("order:status:" ++ s0) oid,
         .srem "order:all" oid, .zrem "review:scores" oid,
         .del ("order:" ++ oid), .del ("order:" ++ oid ++ ":items"),
         .del ("order:" ++ oid ++ ":payments"),
         .del ("order:" ++ oid ++ ":review")] : List PrimOp).take 5) st) =
        ((((st.lremAll ("customer:" ++ cid ++ ":orders") oid).srem
          ("order:status:" ++ s0) oid).srem "order:all" oid).zrem
          "review:scores" oid).del ("order:" ++ oid) := rfl
    have base : ∀ j : Nat, let sj := runPrims ((
        [.lrem ("customer:" ++ cid ++ ":orders") oid,
         .srem ("order:status:" ++ s0) oid,
         .srem "order:all" oid, .zrem "review:scores" oid,
         .del ("order:" ++ oid), .del ("order:" ++ oid ++ ":items"),
         .del ("order:" ++ oid ++ ":payments"),
         .del ("order:" ++ oid ++ ":review")] : List PrimOp).take (5 + j)) st
      sj.sismember ("order:status:" ++ s0) oid = false ∧
      sj.sismember "order:all" oid = false ∧
      sj.zmember "review:scores" oid = false ∧
      (sj.llist ("customer:" ++ cid ++ ":orders")).contains oid = false := by
      intro j
      rw [List.take_add, runPrims_append]
      refine runPrims_preserves_clear _ _ ?_ ?_ ?_ ?_
      · rw [hclear]
        apply sismember_del_false
        rw [sismember_zrem, sismember_srem_ne_key _ _ _ (statusKey_ne_orderAll s0)]
        exact sismember_srem_self _ _ _
      · rw [hclear]
        apply sismember_del_false
        rw [sismember_zrem]
        exact sismember_srem_self _ _ _
      · rw [hclear]
        have : ((((st.lremAll ("customer:" ++ cid ++ ":orders") oid).srem
            ("order:status:" ++ s0) oid).srem "order:all" oid).zrem
            "review:scores" oid).zmember "review:scores" oid = false :=
          zmember_zrem_self _ _ _
        by_cases hz : (((((st.lremAll ("customer:" ++ cid ++ ":orders") oid).srem
            ("order:status:" ++ s0) oid).srem "order:all" oid).zrem
            "review:scores" oid).del ("order:" ++ oid)).zmember
            "review:scores" oid = true
        · rw [zmember_del_le _ hz] at this; exact Bool.noConfusion this
        · simpa using hz
      · rw [hclear]
        have h0 : (((((st.lremAll ("customer:" ++ cid ++ ":orders") oid).srem
            ("order:status:" ++ s0) oid).srem "order:all" oid).zrem
            "review:scores" oid)).llist ("customer:" ++ cid ++ ":orders") =
            (st.lremAll ("customer:" ++ cid ++ ":orders") oid).llist
              ("customer:" ++ cid ++ ":orders") := rfl
        by_cases hl : ((((((st.lremAll ("customer:" ++ cid ++ ":orders") oid).srem
            ("order:status:" ++ s0) oid).srem "order:all" oid).zrem
            "review:scores" oid).del ("order:" ++ oid)).llist
            ("customer:" ++ cid ++ ":orders")).contains oid = true
        · have := contains_llist_del_le _ hl
          rw [h0] at this
          rw [contains_llist_lremAll_self] at this
          exact Bool.noConfusion this
        · simpa using hl
    rcases i with _ | _ | _ | _ | _ | j
    · intro h
      exact absurd h hne
    · intro h
      refine absurd ?_ hne
      simpa [runPrims, List.take_succ_cons, List.take_zero, get_order] using h
    · intro h
      refine absurd ?_ hne
      simpa [runPrims, List.take_succ_cons, List.take_zero, get_order] using h
    · intro h
      refine absurd ?_ hne
      simpa [runPrims, List.take_succ_cons, List.take_zero, get_order] using h
    · intro h
      refine absurd ?_ hne
      simpa [runPrims, List.take_succ_cons, List.take_zero, get_order] using h
    · intro _
      have := base j
      rw [show j + 5 = 5 + j from by omega]
      exact this
  · intro st mid hne
    refine ⟨rfl, ?_⟩
    intro i
    have hclear : (runPrims ((deleteSensorSteps mid).take 3) st) =
        ((st.srem "sensor:all" mid).zrem "sensor:avg:temperature" mid).del
          ("sensor:" ++ mid) := rfl
    have base : ∀ j : Nat,
        (runPrims ((deleteSensorSteps mid).take (3 + j)) st).sismember
          "sensor:all" mid = false ∧
        (runPrims ((deleteSensorSteps mid).take (3 + j)) st).zmember
          "sensor:avg:temperature" mid = false := by
      intro j
      rw [List.take_add, runPrims_append]
      constructor
      · apply runPrims_sismember_false
        rw [hclear]
        apply sismember_del_false
        rw [sismember_zrem]
        exact sismember_srem_self _ _ _
      · apply runPrims_zmember_false
        rw [hclear]
        by_cases hz : (((st.srem "sensor:all" mid).zrem "sensor:avg:temperature"
            mid).del ("sensor:" ++ mid)).zmember "sensor:avg:temperature" mid = true
        · have := zmember_del_le _ hz
          rw [show ((st.srem "sensor:all" mid).zrem "sensor:avg:temperature"
              mid).zmember "sensor:avg:temperature" mid = false from
            zmember_zrem_self _ _ _] at this
          exact Bool.noConfusion this
        · simpa using hz
    rcases i with _ | _ | _ | j
    · intro h
      exact absurd h hne
    · intro h
      refine absurd ?_ hne
      simpa [runPrims, List.take_succ_cons, List.take_zero, deleteSensorSteps] using h
    · intro h
      refine absurd ?_ hne
      simpa [runPrims, List.take_succ_cons, List.take_zero, deleteSensorSteps] using h
    · intro _
      have := base j
      rw [show j + 3 = 3 + j from by omega]
      exact this

/-- Witness for C5 on concrete stores holding one order / one sensor. -/
theorem claim5_delete_ordering_witness :
    (deleteOrderSteps (create_order "o1" "c1" "created" St.empty) "o1" =
      [.lrem ("customer:" ++ "c1" ++ ":orders") "o1",
       .srem ("order:status:" ++ "created") "o1",
       .srem "order:all" "o1", .zrem "review:scores" "o1"] ++
      .del ("order:" ++ "o1") ::
      [.del ("order:" ++ "o1" ++ ":items"), .del ("order:" ++ "o1" ++ ":payments"),
       .del ("order:" ++ "o1" ++ ":review")]) ∧
    ((runPrims ((deleteSensorSteps "5").take 3)
        (St.empty.hsetM ("sensor:" ++ "5") [("status", HVal.s "active")])).sismember
      "sensor:all" "5" = false) :=
  ⟨(claim5_delete_ordering.1 (create_order "o1" "c1" "created" St.empty) "o1" "c1"
      "created" (by decide) (by decide) (by decide) (by decide)).1,
   ((claim5_delete_ordering.2
      (St.empty.hsetM ("sensor:" ++ "5") [("status", HVal.s "active")]) "5"
      (by decide)).2 3 (by decide)).1⟩

/-! ## create_post / delete_post round trip -/

/-- C10 fails on the code: `create_post` increments `hashtag:trending` once
per OCCURRENCE of a hashtag in the text (`re.findall` keeps duplicates),
while `delete_post` decrements once per DISTINCT hashtag (it reads the
deduplicated `post:(id):hashtags` set); a post whose text repeats a hashtag
leaves a net increment behind.  Fresh store, text `#a #a`: before,
`hashtag:trending` has no entry for `a`; after create-then-delete its
score is 1. -/
theorem claim10_counterexample :
    St.empty.zscore "hashtag:trending" "a" = none ∧
    (delete_post "p1"
      (create_post "p1" "u1" "#a #a" "twitter" "usa" "neutral" "t0"
        St.empty)).zscore "hashtag:trending" "a" = some 1 := by
  constructor
  · rfl
  · norm_num [delete_post, create_post, extract_hashtags, hashtagScan, lowerStr,
      isWordChar, get_post, get_post_hashtags, truthy, strTake, St.hsetM, St.hset1,
      St.hincrby, St.hget, St.hgetall, St.hfind, St.sadd, St.srem, St.smembers,
      St.sismember, St.lpush, St.lremAll, St.zincrby, St.zrem, St.zadd, St.zscore,
      St.zentries, St.del, zUpsert, aupd, amod, adel, alook, hashSet, HVal.render,
      St.empty, show 'a'.toLower = 'a' from by decide]

theorem alook_zUpsert_self (l : List (String × Rat)) (m : String) (sc : Rat) :
    alook (zUpsert l m sc) m = some sc := by
  unfold zUpsert
  rw [alook_aupd_self]

theorem alook_zUpsert_ne (l : List (String × Rat)) {m m' : String} (sc : Rat)
    (h : m' ≠ m) : alook (zUpsert l m sc) m' = alook l m' := by
  unfold zUpsert
  exact alook_aupd_ne _ _ _ h

theorem zscore_zincrby_self (st : St) (k : String) (d : Rat) (m : String) :
    (st.zincrby k d m).zscore k m = some ((st.zscore k m).getD 0 + d) := by
  unfold St.zscore St.zentries St.zincrby
  simp only [alook_aupd_self, Option.getD_some, alook_zUpsert_self]

theorem zscore_zincrby_ne_member (st : St) (k : String) (d : Rat) {m m' : String}
    (h : m' ≠ m) : (st.zincrby k d m).zscore k m' = st.zscore k m' := by
  unfold St.zscore St.zentries St.zincrby
  simp only [alook_aupd_self, Option.getD_some, alook_zUpsert_ne _ _ h]

theorem zscore_zincrby_ne_key (st : St) {k k' : String} (d : Rat) (m m' : String)
    (h : k' ≠ k) : (st.zincrby k d m).zscore k' m' = st.zscore k' m' := by
  unfold St.zscore St.zentries St.zincrby
  simp only [alook_aupd_ne _ _ _ h]

theorem zscore_zrem_ne_key (st : St) {k k' : String} (m m' : String) (h : k' ≠ k) :
    (st.zrem k m).zscore k' m' = st.zscore k' m' := by
  unfold St.zscore St.zentries St.zrem
  simp only [alook_amod_ne _ _ h]

theorem zscore_del_ne_key (st : St) {k k' : String} (m : String) (h : k' ≠ k) :
    (st.del k).zscore k' m = st.zscore k' m := by
  unfold St.zscore St.zentries
  rw [zsets_del, alook_adel_ne _ h]

theorem sismember_del_ne_key (st : St) {k k' : String} (v : String) (h : k' ≠ k) :
    (st.del k).sismember k' v = st.sismember k' v := by
  unfold St.sismember St.smembers
  rw [sets_del, alook_adel_ne _ h]

theorem smembers_del_ne_key (st : St) {k k' : String} (h : k' ≠ k) :
    (st.del k).smembers k' = st.smembers k' := by
  unfold St.smembers
  rw [sets_del, alook_adel_ne _ h]

theorem hget_del_ne_key (st : St) {k k' : String} (f : String) (h : k' ≠ k) :
    (st.del k).hget k' f = st.hget k' f := by
  unfold St.hget St.hgetall St.hfind
  rw [hashes_del, alook_adel_ne _ h]

theorem hget_hincrby_ne_key (st : St) {k k' : String} (f : String) (d : Int)
    (f' : String) (h : k' ≠ k) : (st.hincrby k f d).hget k' f' = st.hget k' f' := by
  unfold St.hincrby
  split
  · exact hget_hset1_ne_key st _ _ _ h
  · exact hget_hset1_ne_key st _ _ _ h
  · rfl

theorem hincrby_read_i (st : St) (k f : String) (d n : Int)
    (h : st.hget k f = some (.i n)) :
    (st.hincrby k f d).hget k f = some (.i (n + d)) := by
  unfold St.hincrby
  rw [h]
  exact hget_hset1_self st k f _

theorem smembers_sadd_eval (st : St) (k v : String) :
    (st.sadd k v).smembers k =
      if (st.smembers k).contains v then st.smembers k else st.smembers k ++ [v] := by
  unfold St.smembers St.sadd
  simp only [alook_aupd_self, Option.getD_some]

/-! Key disequalities used by the post round-trip -/

theorem famNe {p q : String} (x t y u : String) (n : Nat)
    (hp : n ≤ p.data.length) (hq : n ≤ q.data.length)
    (h : p.data.take n ≠ q.data.take n) : p ++ x ++ t ≠ q ++ y ++ u := by
  rw [String.append_assoc, String.append_assoc]
  exact strNeOfTake _ _ n hp hq h

theorem famNeL {p : String} (x t : String) (L : String) (q y : String) (n : Nat)
    (hL : L = q ++ y) (hp : n ≤ p.data.length) (hq : n ≤ q.data.length)
    (h : p.data.take n ≠ q.data.take n) : p ++ x ++ t ≠ L := by
  rw [hL, String.append_assoc]
  exact strNeOfTake _ _ n hp hq h

theorem postAll_ne_hashtagsKey (pid : String) :
    ("post:all" : String) ≠ "post:" ++ pid ++ ":hashtags" := by
  intro e
  rw [show ("post:all" : String) = "post:" ++ "all" from by decide,
    String.append_assoc] at e
  have e2 := strAppendCancel e
  have e3 := congrArg (fun z => z.data.length) e2
  simp [String.data_append] at e3

/-! Properties of the hashtag loop of create_post -/

theorem cFold_hashes (tags : List String) (s : St) (hk pid : String) :
    (tags.foldl (fun t tag => ((t.sadd hk tag).sadd
      ("hashtag:" ++ tag ++ ":posts") pid).zincrby "hashtag:trending" 1 tag) s).hashes =
      s.hashes := by
  induction tags generalizing s with
  | nil => rfl
  | cons a t ih => exact (ih _).trans rfl

theorem cFold_lists (tags : List String) (s : St) (hk pid : String) :
    (tags.foldl (fun t tag => ((t.sadd hk tag).sadd
      ("hashtag:" ++ tag ++ ":posts") pid).zincrby "hashtag:trending" 1 tag) s).lists =
      s.lists := by
  induction tags generalizing s with
  | nil => rfl
  | cons a t ih => exact (ih _).trans rfl

theorem cFold_smembers_ne (tags : List String) (s : St) (hk pid k : String)
    (h1 : k ≠ hk) (h2 : ∀ tag ∈ tags, k ≠ "hashtag:" ++ tag ++ ":posts") :
    (tags.foldl (fun t tag => ((t.sadd hk tag).sadd
      ("hashtag:" ++ tag ++ ":posts") pid).zincrby "hashtag:trending" 1 tag) s).smembers
      k = s.smembers k := by
  induction tags generalizing s with
  | nil => rfl
  | cons a t ih =>
    rw [List.foldl_cons,
      ih _ (fun tag ht => h2 tag (List.mem_cons_of_mem a ht))]
    show (((s.sadd hk a).sadd ("hashtag:" ++ a ++ ":posts") pid).zincrby
      "hashtag:trending" 1 a).smembers k = s.smembers k
    rw [smembers_zincrby,
      smembers_sadd_ne _ _ (h2 a (List.mem_cons_self a t)),
      smembers_sadd_ne _ _ h1]

theorem cFold_zscore_notin (tags : List String) (s : St) (hk pid x : String)
    (hx : x ∉ tags) :
    (tags.foldl (fun t tag => ((t.sadd hk tag).sadd
      ("hashtag:" ++ tag ++ ":posts") pid).zincrby "hashtag:trending" 1 tag) s).zscore
      "hashtag:trending" x = s.zscore "hashtag:trending" x := by
  induction tags generalizing s with
  | nil => rfl
  | cons a t ih =>
    have hne : x ≠ a := fun e => hx (by rw [e]; exact List.mem_cons_self a t)
    rw [List.foldl_cons, ih _ (fun h => hx (List.mem_cons_of_mem a h))]
    show (((s.sadd hk a).sadd ("hashtag:" ++ a ++ ":posts") pid).zincrby
      "hashtag:trending" 1 a).zscore "hashtag:trending" x = s.zscore "hashtag:trending" x
    rw [zscore_zincrby_ne_member _ _ _ hne, zscore_sadd, zscore_sadd]

theorem cFold_zscore_in (tags : List String) (s : St) (hk pid x : String)
    (hnd : tags.Nodup) (hx : x ∈ tags) :
    (tags.foldl (fun t tag => ((t.sadd hk tag).sadd
      ("hashtag:" ++ tag ++ ":posts") pid).zincrby "hashtag:trending" 1 tag) s).zscore
      "hashtag:trending" x = some ((s.zscore "hashtag:trending" x).getD 0 + 1) := by
  induction tags generalizing s with
  | nil => cases hx
  | cons a t ih =>
    rw [List.foldl_cons]
    rcases List.mem_cons.mp hx with rfl | hmem
    · rw [cFold_zscore_notin t _ hk pid x (List.nodup_cons.mp hnd).1]
      have hstep : (((s.sadd hk x).sadd ("hashtag:" ++ x ++ ":posts") pid).zincrby
          "hashtag:trending" 1 x).zscore "hashtag:trending" x =
          some ((s.zscore "hashtag:trending" x).getD 0 + 1) := by
        rw [zscore_zincrby_self, zscore_sadd, zscore_sadd]
      exact hstep
    · have hne : x ≠ a := by
        intro e
        exact (List.nodup_cons.mp hnd).1 (e ▸ hmem)
      rw [ih _ (List.nodup_cons.mp hnd).2 hmem]
      have hstep : (((s.sadd hk a).sadd ("hashtag:" ++ a ++ ":posts") pid).zincrby
          "hashtag:trending" 1 a).zscore "hashtag:trending" x =
          s.zscore "hashtag:trending" x := by
        rw [zscore_zincrby_ne_member _ _ _ hne, zscore_sadd, zscore_sadd]
      rw [hstep]

theorem cFold_sism_true_mono (tags : List String) (s : St) (hk pid k v : String)
    (h : s.sismember k v = true) :
    (tags.foldl (fun t tag => ((t.sadd hk tag).sadd
      ("hashtag:" ++ tag ++ ":posts") pid).zincrby "hashtag:trending" 1 tag) s).sismember
      k v = true := by
  induction tags generalizing s with
  | nil => exact h
  | cons a t ih =>
    rw [List.foldl_cons]
    refine ih _ ?_
    show (((s.sadd hk a).sadd ("hashtag:" ++ a ++ ":posts") pid).zincrby
      "hashtag:trending" 1 a).sismember k v = true
    rw [sismember_zincrby]
    exact sismember_sadd_of _ (sismember_sadd_of _ h)

theorem cFold_sism_hashtag_in (tags : List String) (s : St) (hk pid x : String)
    (hx : x ∈ tags) :
    (tags.foldl (fun t tag => ((t.sadd hk tag).sadd
      ("hashtag:" ++ tag ++ ":posts") pid).zincrby "hashtag:trending" 1 tag) s).sismember
      ("hashtag:" ++ x ++ ":posts") pid = true := by
  induction tags generalizing s with
  | nil => cases hx
  | cons a t ih =>
    rw [List.foldl_cons]
    rcases List.mem_cons.mp hx with rfl | hmem
    · refine cFold_sism_true_mono t _ hk pid _ pid ?_
      show (((s.sadd hk x).sadd ("hashtag:" ++ x ++ ":posts") pid).zincrby
        "hashtag:trending" 1 x).sismember ("hashtag:" ++ x ++ ":posts") pid = true
      rw [sismember_zincrby]
      exact sismember_sadd_self _ _ _
    · exact ih _ hmem

theorem cFold_sism_ne (tags : List String) (s : St) (hk pid k v : String)
    (h1 : k ≠ hk) (h2 : ∀ tag ∈ tags, k ≠ "hashtag:" ++ tag ++ ":posts") :
    (tags.foldl (fun t tag => ((t.sadd hk tag).sadd
      ("hashtag:" ++ tag ++ ":posts") pid).zincrby "hashtag:trending" 1 tag) s).sismember
      k v = s.sismember k v := by
  unfold St.sismember
  rw [cFold_smembers_ne tags s hk pid k h1 h2]

theorem cFold_smembers_hk (tags : List String) (pre : List String) (s : St)
    (hk pid : String) (hnd : tags.Nodup) (hpre : s.smembers hk = pre)
    (hdisj : ∀ t ∈ tags, t ∉ pre)
    (hneq : ∀ t ∈ tags, hk ≠ "hashtag:" ++ t ++ ":posts") :
    (tags.foldl (fun t tag => ((t.sadd hk tag).sadd
      ("hashtag:" ++ tag ++ ":posts") pid).zincrby "hashtag:trending" 1 tag) s).smembers
      hk = pre ++ tags := by
  induction tags generalizing s pre with
  | nil => simpa using hpre
  | cons a t ih =>
    rw [List.foldl_cons]
    have hstep : (((s.sadd hk a).sadd ("hashtag:" ++ a ++ ":posts") pid).zincrby
        "hashtag:trending" 1 a).smembers hk = pre ++ [a] := by
      rw [smembers_zincrby, smembers_sadd_ne _ _ (hneq a (List.mem_cons_self a t)),
        smembers_sadd_eval, hpre]
      have : pre.contains a = false := by
        by_cases hc : pre.contains a = true
        · exact absurd (List.elem_iff.mp hc) (hdisj a (List.mem_cons_self a t))
        · simpa using hc
      rw [this]
      simp
    have := ih (pre ++ [a]) _ (List.nodup_cons.mp hnd).2 hstep
      (fun x hx => by
        intro hmem
        rcases List.mem_append.mp hmem with hl | hr
        · exact hdisj x (List.mem_cons_of_mem a hx) hl
        · have : x = a := by simpa using hr
          exact (List.nodup_cons.mp hnd).1 (this ▸ hx))
      (fun x hx => hneq x (List.mem_cons_of_mem a hx))
    rw [this, List.append_assoc]
    rfl

/-! Properties of the hashtag loop of delete_post -/

theorem dFold_hget (tags : List String) (s : St) (pid k f : String) :
    (tags.foldl (fun t tag => (t.srem ("hashtag:" ++ tag ++ ":posts") pid).zincrby
      "hashtag:trending" (-1) tag) s).hget k f = s.hget k f := by
  induction tags generalizing s with
  | nil => rfl
  | cons a t ih => exact (ih _).trans rfl

theorem dFold_smembers_ne (tags : List String) (s : St) (pid k : String)
    (h : ∀ tag ∈ tags, k ≠ "hashtag:" ++ tag ++ ":posts") :
    (tags.foldl (fun t tag => (t.srem ("hashtag:" ++ tag ++ ":posts") pid).zincrby
      "hashtag:trending" (-1) tag) s).smembers k = s.smembers k := by
  induction tags generalizing s with
  | nil => rfl
  | cons a t ih =>
    rw [List.foldl_cons, ih _ (fun tag ht => h tag (List.mem_cons_of_mem a ht))]
    show ((s.srem ("hashtag:" ++ a ++ ":posts") pid).zincrby
      "hashtag:trending" (-1) a).smembers k = s.smembers k
    rw [smembers_zincrby, smembers_srem_ne _ _ (h a (List.mem_cons_self a t))]

theorem dFold_sism_ne (tags : List String) (s : St) (pid k v : String)
    (h : ∀ tag ∈ tags, k ≠ "hashtag:" ++ tag ++ ":posts") :
    (tags.foldl (fun t tag => (t.srem ("hashtag:" ++ tag ++ ":posts") pid).zincrby
      "hashtag:trending" (-1) tag) s).sismember k v = s.sismember k v := by
  unfold St.sismember
  rw [dFold_smembers_ne tags s pid k h]

theorem dFold_sism_false_mono (tags : List String) (s : St) (pid k v : String)
    (h : s.sismember k v = false) :
    (tags.foldl (fun t tag => (t.srem ("hashtag:" ++ tag ++ ":posts") pid).zincrby
      "hashtag:trending" (-1) tag) s).sismember k v = false := by
  induction tags generalizing s with
  | nil => exact h
  | cons a t ih =>
    rw [List.foldl_cons]
    refine ih _ ?_
    show ((s.srem ("hashtag:" ++ a ++ ":posts") pid).zincrby
      "hashtag:trending" (-1) a).sismember k v = false
    rw [sismember_zincrby]
    by_cases h2 : (s.srem ("hashtag:" ++ a ++ ":posts") pid).sismember k v = true
    · rw [sismember_srem_le s h2] at h
      exact Bool.noConfusion h
    · simpa using h2

theorem dFold_sism_in (tags : List String) (s : St) (pid x : String)
    (hx : x ∈ tags) :
    (tags.foldl (fun t tag => (t.srem ("hashtag:" ++ tag ++ ":posts") pid).zincrby
      "hashtag:trending" (-1) tag) s).sismember ("hashtag:" ++ x ++ ":posts") pid =
      false := by
  induction tags generalizing s with
  | nil => cases hx
  | cons a t ih =>
    rw [List.foldl_cons]
    rcases List.mem_cons.mp hx with rfl | hmem
    · refine dFold_sism_false_mono t _ pid _ pid ?_
      show ((s.srem ("hashtag:" ++ x ++ ":posts") pid).zincrby
        "hashtag:trending" (-1) x).sismember ("hashtag:" ++ x ++ ":posts") pid = false
      rw [sismember_zincrby]
      exact sismember_srem_self _ _ _
    · exact ih _ hmem

theorem dFold_zscore_notin (tags : List String) (s : St) (pid x : String)
    (hx : x ∉ tags) :
    (tags.foldl (fun t tag => (t.srem ("hashtag:" ++ tag ++ ":posts") pid).zincrby
      "hashtag:trending" (-1) tag) s).zscore "hashtag:trending" x =
      s.zscore "hashtag:trending" x := by
  induction tags generalizing s with
  | nil => rfl
  | cons a t ih =>
    have hne : x ≠ a := fun e => hx (by rw [e]; exact List.mem_cons_self a t)
    rw [List.foldl_cons, ih _ (fun h => hx (List.mem_cons_of_mem a h))]
    show ((s.srem ("hashtag:" ++ a ++ ":posts") pid).zincrby
      "hashtag:trending" (-1) a).zscore "hashtag:trending" x =
      s.zscore "hashtag:trending" x
    rw [zscore_zincrby_ne_member _ _ _ hne, zscore_srem]

theorem dFold_zscore_in (tags : List String) (s : St) (pid x : String)
    (hnd : tags.Nodup) (hx : x ∈ tags) :
    (tags.foldl (fun t tag => (t.srem ("hashtag:" ++ tag ++ ":posts") pid).zincrby
      "hashtag:trending" (-1) tag) s).zscore "hashtag:trending" x =
      some ((s.zscore "hashtag:trending" x).getD 0 + (-1)) := by
  induction tags generalizing s with
  | nil => cases hx
  | cons a t ih =>
    rw [List.foldl_cons]
    rcases List.mem_cons.mp hx with rfl | hmem
    · rw [dFold_zscore_notin t _ pid x (List.nodup_cons.mp hnd).1]
      have hstep : ((s.srem ("hashtag:" ++ x ++ ":posts") pid).zincrby
          "hashtag:trending" (-1) x).zscore "hashtag:trending" x =
          some ((s.zscore "hashtag:trending" x).getD 0 + (-1)) := by
        rw [zscore_zincrby_self, zscore_srem]
      exact hstep
    · have hne : x ≠ a := by
        intro e
        exact (List.nodup_cons.mp hnd).1 (e ▸ hmem)
      rw [ih _ (List.nodup_cons.mp hnd).2 hmem]
      have hstep : ((s.srem ("hashtag:" ++ a ++ ":posts") pid).zincrby
          "hashtag:trending" (-1) a).zscore "hashtag:trending" x =
          s.zscore "hashtag:trending" x := by
        rw [zscore_zincrby_ne_member _ _ _ hne, zscore_srem]
      rw [hstep]

theorem cFold_zscore_ne_key (tags : List String) (s : St) (hk pid k m : String)
    (h : k ≠ "hashtag:trending") :
    (tags.foldl (fun t tag => ((t.sadd hk tag).sadd
      ("hashtag:" ++ tag ++ ":posts") pid).zincrby "hashtag:trending" 1 tag) s).zscore
      k m = s.zscore k m := by
  induction tags generalizing s with
  | nil => rfl
  | cons a t ih =>
    rw [List.foldl_cons, ih]
    show (((s.sadd hk a).sadd ("hashtag:" ++ a ++ ":posts") pid).zincrby
      "hashtag:trending" 1 a).zscore k m = s.zscore k m
    rw [zscore_zincrby_ne_key _ _ _ _ h, zscore_sadd, zscore_sadd]

theorem alook_hashSet_self (h : Hash) (f : String) (v : HVal) :
    alook (hashSet h f v) f = some v := by
  unfold hashSet
  rw [alook_aupd_self]

theorem alook_hashSet_ne (h : Hash) {f f' : String} (v : HVal) (hne : f' ≠ f) :
    alook (hashSet h f v) f' = alook h f' := by
  unfold hashSet
  exact alook_aupd_ne _ _ _ hne

theorem hget_hsetM_self (st : St) (k : String) (ps : List (String × HVal))
    (f : String) : (st.hsetM k ps).hget k f =
      alook (ps.foldl (fun h p => hashSet h p.1 p.2) (st.hgetall k)) f := by
  unfold St.hget St.hgetall St.hfind St.hsetM
  simp only [alook_aupd_self, Option.getD_some]

theorem hget_hsetM_ne_key (st : St) {k k' : String} (ps : List (String × HVal))
    (f : String) (h : k' ≠ k) : (st.hsetM k ps).hget k' f = st.hget k' f := by
  unfold St.hget St.hgetall St.hfind St.hsetM
  simp only [alook_aupd_ne _ _ _ h]

theorem sism_false_srem (st : St) {k v k' v' : String}
    (h : st.sismember k' v' = false) : (st.srem k v).sismember k' v' = false := by
  by_cases h2 : (st.srem k v).sismember k' v' = true
  · rw [sismember_srem_le st h2] at h
    exact Bool.noConfusion h
  · simpa using h2

theorem create_post_eq (st : St) (pid uid text platform country sentiment now : String) :
    create_post pid uid text platform country sentiment now st =
    ((((((List.foldl (fun t tag => ((t.sadd ("post:" ++ pid ++ ":hashtags") tag).sadd
        ("hashtag:" ++ tag ++ ":posts") pid).zincrby "hashtag:trending" 1 tag)
        (st.hsetM ("post:" ++ pid)
          [("text", HVal.s (strTake text 500)), ("timestamp", HVal.s now),
           ("platform", HVal.s (lowerStr platform)),
           ("country", HVal.s (lowerStr country)),
           ("likes", HVal.i 0), ("retweets", HVal.i 0),
           ("sentiment", HVal.s (lowerStr sentiment)),
           ("user_id", HVal.s uid), ("engagement", HVal.i 0)])
        (extract_hashtags text)).lpush
        ("social:user:" ++ uid ++ ":posts") pid).hincrby
        ("social:user:" ++ uid) "post_count" 1).sadd
        ("platform:" ++ lowerStr platform ++ ":posts") pid).sadd
        ("country:" ++ lowerStr country ++ ":posts") pid).sadd
        ("sentiment:" ++ lowerStr sentiment ++ ":posts") pid).sadd "post:all" pid := rfl

theorem postKey_ne_userKey (pid uid : String) :
    ("post:" ++ pid : String) ≠ "social:user:" ++ uid :=
  strNeOfTake _ _ 1 (by decide) (by decide) (by decide)

theorem create_post_reads (st : St)
    (pid uid text platform country sentiment now : String) :
    (create_post pid uid text platform country sentiment now st).hget
      ("post:" ++ pid) "user_id" = some (.s uid) ∧
    (create_post pid uid text platform country sentiment now st).hget
      ("post:" ++ pid) "platform" = some (.s (lowerStr platform)) ∧
    (create_post pid uid text platform country sentiment now st).hget
      ("post:" ++ pid) "country" = some (.s (lowerStr country)) ∧
    (create_post pid uid text platform country sentiment now st).hget
      ("post:" ++ pid) "sentiment" = some (.s (lowerStr sentiment)) := by
  rw [create_post_eq]
  refine ⟨?_, ?_, ?_, ?_⟩
  · simp only [hget_sadd]
    rw [hget_hincrby_ne_key _ _ _ _ (postKey_ne_userKey pid uid)]
    simp only [hget_lpush]
    rw [hget_eq_of_hashes (cFold_hashes _ _ _ _), hget_hsetM_self]
    simp only [List.foldl_cons, List.foldl_nil]
    rw [alook_hashSet_ne _ _ (by decide), alook_hashSet_self]
  · simp only [hget_sadd]
    rw [hget_hincrby_ne_key _ _ _ _ (postKey_ne_userKey pid uid)]
    simp only [hget_lpush]
    rw [hget_eq_of_hashes (cFold_hashes _ _ _ _), hget_hsetM_self]
    simp only [List.foldl_cons, List.foldl_nil]
    rw [alook_hashSet_ne _ _ (by decide), alook_hashSet_ne _ _ (by decide),
      alook_hashSet_ne _ _ (by decide), alook_hashSet_ne _ _ (by decide),
      alook_hashSet_ne _ _ (by decide), alook_hashSet_ne _ _ (by decide),
      alook_hashSet_self]
  · simp only [hget_sadd]
    rw [hget_hincrby_ne_key _ _ _ _ (postKey_ne_userKey pid uid)]
    simp only [hget_lpush]
    rw [hget_eq_of_hashes (cFold_hashes _ _ _ _), hget_hsetM_self]
    simp only [List.foldl_cons, List.foldl_nil]
    rw [alook_hashSet_ne _ _ (by decide), alook_hashSet_ne _ _ (by decide),
      alook_hashSet_ne _ _ (by decide), alook_hashSet_ne _ _ (by decide),
      alook_hashSet_ne _ _ (by decide), alook_hashSet_self]
  · simp only [hget_sadd]
    rw [hget_hincrby_ne_key _ _ _ _ (postKey_ne_userKey pid uid)]
    simp only [hget_lpush]
    rw [hget_eq_of_hashes (cFold_hashes _ _ _ _), hget_hsetM_self]
    simp only [List.foldl_cons, List.foldl_nil]
    rw [alook_hashSet_ne _ _ (by decide), alook_hashSet_ne _ _ (by decide),
      alook_hashSet_self]

theorem hashtagsKey_ne_platKey (pid x : String) :
    ("post:" ++ pid ++ ":hashtags" : String) ≠ "platform:" ++ x ++ ":posts" :=
  famNe _ _ _ _ 2 (by decide) (by decide) (by decide)

theorem hashtagsKey_ne_ctyKey (pid x : String) :
    ("post:" ++ pid ++ ":hashtags" : String) ≠ "country:" ++ x ++ ":posts" :=
  famNe _ _ _ _ 1 (by decide) (by decide) (by decide)

theorem hashtagsKey_ne_sentKey (pid x : String) :
    ("post:" ++ pid ++ ":hashtags" : String) ≠ "sentiment:" ++ x ++ ":posts" :=
  famNe _ _ _ _ 1 (by decide) (by decide) (by decide)

theorem hashtagsKey_ne_tagKey (pid x : String) :
    ("post:" ++ pid ++ ":hashtags" : String) ≠ "hashtag:" ++ x ++ ":posts" :=
  famNe _ _ _ _ 1 (by decide) (by decide) (by decide)

theorem create_post_tagset (st : St)
    (pid uid text platform country sentiment now : String)
    (hnd : (extract_hashtags text).Nodup)
    (hHT : st.smembers ("post:" ++ pid ++ ":hashtags") = []) :
    (create_post pid uid text platform country sentiment now st).smembers
      ("post:" ++ pid ++ ":hashtags") = extract_hashtags text := by
  rw [create_post_eq]
  rw [smembers_sadd_ne _ _ (Ne.symm (postAll_ne_hashtagsKey pid)),
    smembers_sadd_ne _ _ (hashtagsKey_ne_sentKey pid _),
    smembers_sadd_ne _ _ (hashtagsKey_ne_ctyKey pid _),
    smembers_sadd_ne _ _ (hashtagsKey_ne_platKey pid _)]
  simp only [smembers_hincrby, smembers_lpush]
  rw [cFold_smembers_hk (extract_hashtags text) [] _ _ pid hnd
    (by simpa using hHT) (by simp) (fun t _ => hashtagsKey_ne_tagKey pid t)]
  simp

theorem delete_post_create_eq (st : St)
    (pid uid text platform country sentiment now : String)
    (hnd : (extract_hashtags text).Nodup)
    (hHT : st.smembers ("post:" ++ pid ++ ":hashtags") = [])
    (huid : uid ≠ "") (hplat : lowerStr platform ≠ "")
    (hcty : lowerStr country ≠ "") (hsent : lowerStr sentiment ≠ "") :
    delete_post pid (create_post pid uid text platform country sentiment now st) =
    ((((List.foldl (fun t tag => (t.srem ("hashtag:" ++ tag ++ ":posts") pid).zincrby
        "hashtag:trending" (-1) tag)
        ((((((create_post pid uid text platform country sentiment now st).lremAll
            ("social:user:" ++ uid ++ ":posts") pid).hincrby
            ("social:user:" ++ uid) "post_count" (-1)).srem
            ("platform:" ++ lowerStr platform ++ ":posts") pid).srem
            ("country:" ++ lowerStr country ++ ":posts") pid).srem
            ("sentiment:" ++ lowerStr sentiment ++ ":posts") pid)
        (extract_hashtags text)).zrem "post:trending" pid).srem
        "post:all" pid).del ("post:" ++ pid)).del ("post:" ++ pid ++ ":hashtags") := by
  obtain ⟨hru, hrp, hrc, hrs⟩ :=
    create_post_reads st pid uid text platform country sentiment now
  have hmu : (alook (get_post pid
      (create_post pid uid text platform country sentiment now st)) "user_id").map
      HVal.render = some uid := by
    show ((create_post pid uid text platform country sentiment now st).hget
      ("post:" ++ pid) "user_id").map HVal.render = some uid
    rw [hru]
    rfl
  have hmp : (alook (get_post pid
      (create_post pid uid text platform country sentiment now st)) "platform").map
      HVal.render = some (lowerStr platform) := by
    show ((create_post pid uid text platform country sentiment now st).hget
      ("post:" ++ pid) "platform").map HVal.render = some (lowerStr platform)
    rw [hrp]
    rfl
  have hmc : (alook (get_post pid
      (create_post pid uid text platform country sentiment now st)) "country").map
      HVal.render = some (lowerStr country) := by
    show ((create_post pid uid text platform country sentiment now st).hget
      ("post:" ++ pid) "country").map HVal.render = some (lowerStr country)
    rw [hrc]
    rfl
  have hms : (alook (get_post pid
      (create_post pid uid text platform country sentiment now st)) "sentiment").map
      HVal.render = some (lowerStr sentiment) := by
    show ((create_post pid uid text platform country sentiment now st).hget
      ("post:" ++ pid) "sentiment").map HVal.render = some (lowerStr sentiment)
    rw [hrs]
    rfl
  have hempty : (get_post pid
      (create_post pid uid text platform country sentiment now st)).isEmpty = false := by
    rcases he : get_post pid (create_post pid uid text platform country sentiment now st)
      with _ | ⟨p, t⟩
    · exfalso
      have : (create_post pid uid text platform country sentiment now st).hget
          ("post:" ++ pid) "user_id" = none := by
        show alook (get_post pid
          (create_post pid uid text platform country sentiment now st)) "user_id" = none
        rw [he]
        rfl
      rw [this] at hru
      exact Option.noConfusion hru
    · rfl
  have hbu : (uid != "") = true := by simpa using huid
  have hbp : (lowerStr platform != "") = true := by simpa using hplat
  have hbc : (lowerStr country != "") = true := by simpa using hcty
  have hbs : (lowerStr sentiment != "") = true := by simpa using hsent
  have htags : get_post_hashtags pid
      ((((((create_post pid uid text platform country sentiment now st).lremAll
        ("social:user:" ++ uid ++ ":posts") pid).hincrby
        ("social:user:" ++ uid) "post_count" (-1)).srem
        ("platform:" ++ lowerStr platform ++ ":posts") pid).srem
        ("country:" ++ lowerStr country ++ ":posts") pid).srem
        ("sentiment:" ++ lowerStr sentiment ++ ":posts") pid) = extract_hashtags text := by
    unfold get_post_hashtags
    rw [smembers_srem_ne _ _ (hashtagsKey_ne_sentKey pid _),
      smembers_srem_ne _ _ (hashtagsKey_ne_ctyKey pid _),
      smembers_srem_ne _ _ (hashtagsKey_ne_platKey pid _)]
    simp only [smembers_hincrby, smembers_lremAll]
    exact create_post_tagset st pid uid text platform country sentiment now hnd hHT
  simp only [delete_post, hempty, Bool.false_eq_true, if_false, hmu, hmp, hmc, hms,
    truthy, hbu, hbp, hbc, hbs, if_true, Option.getD_some]
  rw [htags]

theorem trendKey_ne_hashtagsKey (pid : String) :
    ("hashtag:trending" : String) ≠ "post:" ++ pid ++ ":hashtags" := by
  rw [show ("hashtag:trending" : String) = "hashtag:" ++ "trending" from by decide,
    String.append_assoc]
  exact strNeOfTake _ _ 1 (by decide) (by decide) (by decide)

theorem trendKey_ne_postKey (pid : String) :
    ("hashtag:trending" : String) ≠ "post:" ++ pid := by
  rw [show ("hashtag:trending" : String) = "hashtag:" ++ "trending" from by decide]
  exact strNeOfTake _ _ 1 (by decide) (by decide) (by decide)

theorem userKey_ne_hashtagsKey (uid pid : String) :
    ("social:user:" ++ uid : String) ≠ "post:" ++ pid ++ ":hashtags" := by
  rw [String.append_assoc]
  exact strNeOfTake _ _ 1 (by decide) (by decide) (by decide)

theorem userKey_ne_postKey (uid pid : String) :
    ("social:user:" ++ uid : String) ≠ "post:" ++ pid :=
  strNeOfTake _ _ 1 (by decide) (by decide) (by decide)

theorem platKey_ne_postKey (x pid : String) :
    ("platform:" ++ x ++ ":posts" : String) ≠ "post:" ++ pid := by
  rw [String.append_assoc]
  exact strNeOfTake _ _ 2 (by decide) (by decide) (by decide)

theorem platKey_ne_postAll (x : String) :
    ("platform:" ++ x ++ ":posts" : String) ≠ "post:all" :=
  famNeL _ _ _ "post:" "all" 2 (by decide) (by decide) (by decide) (by decide)

theorem platKey_ne_tagKey (x t : String) :
    ("platform:" ++ x ++ ":posts" : String) ≠ "hashtag:" ++ t ++ ":posts" :=
  famNe _ _ _ _ 1 (by decide) (by decide) (by decide)

theorem platKey_ne_sentKey (x y : String) :
    ("platform:" ++ x ++ ":posts" : String) ≠ "sentiment:" ++ y ++ ":posts" :=
  famNe _ _ _ _ 1 (by decide) (by decide) (by decide)

theorem platKey_ne_ctyKey (x y : String) :
    ("platform:" ++ x ++ ":posts" : String) ≠ "country:" ++ y ++ ":posts" :=
  famNe _ _ _ _ 1 (by decide) (by decide) (by decide)

theorem ctyKey_ne_postKey (x pid : String) :
    ("country:" ++ x ++ ":posts" : String) ≠ "post:" ++ pid := by
  rw [String.append_assoc]
  exact strNeOfTake _ _ 1 (by decide) (by decide) (by decide)

theorem ctyKey_ne_postAll (x : String) :
    ("country:" ++ x ++ ":posts" : String) ≠ "post:all" :=
  famNeL _ _ _ "post:" "all" 1 (by decide) (by decide) (by decide) (by decide)

theorem ctyKey_ne_tagKey (x t : String) :
    ("country:" ++ x ++ ":posts" : String) ≠ "hashtag:" ++ t ++ ":posts" :=
  famNe _ _ _ _ 1 (by decide) (by decide) (by decide)

theorem ctyKey_ne_sentKey (x y : String) :
    ("country:" ++ x ++ ":posts" : String) ≠ "sentiment:" ++ y ++ ":posts" :=
  famNe _ _ _ _ 1 (by decide) (by decide) (by decide)

theorem sentKey_ne_postKey (x pid : String) :
    ("sentiment:" ++ x ++ ":posts" : String) ≠ "post:" ++ pid := by
  rw [String.append_assoc]
  exact strNeOfTake _ _ 1 (by decide) (by decide) (by decide)

theorem sentKey_ne_postAll (x : String) :
    ("sentiment:" ++ x ++ ":posts" : String) ≠ "post:all" :=
  famNeL _ _ _ "post:" "all" 1 (by decide) (by decide) (by decide) (by decide)

theorem sentKey_ne_tagKey (x t : String) :
    ("sentiment:" ++ x ++ ":posts" : String) ≠ "hashtag:" ++ t ++ ":posts" :=
  famNe _ _ _ _ 1 (by decide) (by decide) (by decide)

theorem tagKey_ne_postKey (x pid : String) :
    ("hashtag:" ++ x ++ ":posts" : String) ≠ "post:" ++ pid := by
  rw [String.append_assoc]
  exact strNeOfTake _ _ 1 (by decide) (by decide) (by decide)

theorem tagKey_ne_postAll (x : String) :
    ("hashtag:" ++ x ++ ":posts" : String) ≠ "post:all" :=
  famNeL _ _ _ "post:" "all" 1 (by decide) (by decide) (by decide) (by decide)

/-- C10 amended.  For a fresh post id, a text whose hashtags are pairwise
distinct, nonempty user/platform/country/sentiment values, hashtags that
already have trending entries, and a user whose `post_count` field is an
integer counter, `create_post` immediately followed by `delete_post`
restores every observable the claim lists: all `hashtag:trending` scores,
the user's `post_count`, and the post's platform/country/sentiment/hashtag
and `post:all` memberships. -/
theorem claim10_create_delete_roundtrip (st : St)
    (pid uid text platform country sentiment now : String) (n : Int)
    (hnd : (extract_hashtags text).Nodup)
    (hHT : st.smembers ("post:" ++ pid ++ ":hashtags") = [])
    (htr : ∀ t ∈ extract_hashtags text,
      (st.zscore "hashtag:trending" t).isSome = true)
    (hpc : st.hget ("social:user:" ++ uid) "post_count" = some (.i n))
    (huid : uid ≠ "") (hplat : lowerStr platform ≠ "")
    (hcty : lowerStr country ≠ "") (hsent : lowerStr sentiment ≠ "")
    (hfP : st.sismember ("platform:" ++ lowerStr platform ++ ":posts") pid = false)
    (hfC : st.sismember ("country:" ++ lowerStr country ++ ":posts") pid = false)
    (hfS : st.sismember ("sentiment:" ++ lowerStr sentiment ++ ":posts") pid = false)
    (hfT : ∀ t ∈ extract_hashtags text,
      st.sismember ("hashtag:" ++ t ++ ":posts") pid = false)
    (hfA : st.sismember "post:all" pid = false) :
    (∀ t, (delete_post pid (create_post pid uid text platform country sentiment
      now st)).zscore "hashtag:trending" t = st.zscore "hashtag:trending" t) ∧
    (delete_post pid (create_post pid uid text platform country sentiment
      now st)).hget ("social:user:" ++ uid) "post_count" = some (.i n) ∧
    (∀ x, (delete_post pid (create_post pid uid text platform country sentiment
      now st)).sismember ("platform:" ++ x ++ ":posts") pid =
      st.sismember ("platform:" ++ x ++ ":posts") pid) ∧
    (∀ x, (delete_post pid (create_post pid uid text platform country sentiment
      now st)).sismember ("country:" ++ x ++ ":posts") pid =
      st.sismember ("country:" ++ x ++ ":posts") pid) ∧
    (∀ x, (delete_post pid (create_post pid uid text platform country sentiment
      now st)).sismember ("sentiment:" ++ x ++ ":posts") pid =
      st.sismember ("sentiment:" ++ x ++ ":posts") pid) ∧
    (∀ x, (delete_post pid (create_post pid uid text platform country sentiment
      now st)).sismember ("hashtag:" ++ x ++ ":posts") pid =
      st.sismember ("hashtag:" ++ x ++ ":posts") pid) ∧
    (delete_post pid (create_post pid uid text platform country sentiment
      now st)).sismember "post:all" pid = st.sismember "post:all" pid := by
  rw [delete_post_create_eq st pid uid text platform country sentiment now hnd hHT
    huid hplat hcty hsent]
  refine ⟨?_, ?_, ?_, ?_, ?_, ?_, ?_⟩
  · intro t
    rw [zscore_del_ne_key _ _ (trendKey_ne_hashtagsKey pid),
      zscore_del_ne_key _ _ (trendKey_ne_postKey pid), zscore_srem,
      zscore_zrem_ne_key _ _ _ (by decide : ("hashtag:trending" : String) ≠ "post:trending")]
    by_cases ht : t ∈ extract_hashtags text
    · rw [dFold_zscore_in _ _ _ _ hnd ht]
      simp only [zscore_srem, zscore_hincrby, zscore_lremAll]
      rw [create_post_eq]
      simp only [zscore_sadd, zscore_hincrby, zscore_lpush]
      rw [cFold_zscore_in _ _ _ _ _ hnd ht]
      simp only [zscore_hsetM]
      obtain ⟨q, hq⟩ := Option.isSome_iff_exists.mp (htr t ht)
      rw [hq]
      simp only [Option.getD_some]
      rw [show q + 1 + -1 = q from by ring]
    · rw [dFold_zscore_notin _ _ _ _ ht]
      simp only [zscore_srem, zscore_hincrby, zscore_lremAll]
      rw [create_post_eq]
      simp only [zscore_sadd, zscore_hincrby, zscore_lpush]
      rw [cFold_zscore_notin _ _ _ _ _ ht]
      simp only [zscore_hsetM]
  · rw [hget_del_ne_key _ _ (userKey_ne_hashtagsKey uid pid),
      hget_del_ne_key _ _ (userKey_ne_postKey uid pid)]
    simp only [hget_srem, hget_zrem]
    rw [dFold_hget]
    simp only [hget_srem]
    have hbase : ((create_post pid uid text platform country sentiment now st).lremAll
        ("social:user:" ++ uid ++ ":posts") pid).hget ("social:user:" ++ uid)
        "post_count" = some (.i (n + 1)) := by
      simp only [hget_lremAll]
      rw [create_post_eq]
      simp only [hget_sadd]
      have hb2 : St.hget ((List.foldl (fun t tag => ((t.sadd ("post:" ++ pid ++ ":hashtags")
          tag).sadd ("hashtag:" ++ tag ++ ":posts") pid).zincrby "hashtag:trending" 1
          tag) (st.hsetM ("post:" ++ pid)
            [("text", HVal.s (strTake text 500)), ("timestamp", HVal.s now),
             ("platform", HVal.s (lowerStr platform)),
             ("country", HVal.s (lowerStr country)),
             ("likes", HVal.i 0), ("retweets", HVal.i 0),
             ("sentiment", HVal.s (lowerStr sentiment)),
             ("user_id", HVal.s uid), ("engagement", HVal.i 0)])
          (extract_hashtags text)).lpush ("social:user:" ++ uid ++ ":posts") pid)
          ("social:user:" ++ uid) "post_count" = some (.i n) := by
        simp only [hget_lpush]
        rw [hget_eq_of_hashes (cFold_hashes _ _ _ _),
          hget_hsetM_ne_key _ _ _ (Ne.symm (postKey_ne_userKey pid uid))]
        exact hpc
      rw [hincrby_read_i _ _ _ _ n hb2]
    rw [hincrby_read_i _ _ _ _ (n + 1) hbase,
      show n + 1 + -1 = n from by omega]
  · intro x
    by_cases hx : x = lowerStr platform
    · subst hx
      rw [hfP]
      refine sismember_del_false _ (sismember_del_false _ (sism_false_srem _ ?_))
      rw [sismember_zrem]
      refine dFold_sism_false_mono _ _ _ _ _ ?_
      exact sism_false_srem _ (sism_false_srem _ (sismember_srem_self _ _ _))
    · rw [sismember_del_ne_key _ _ (Ne.symm (hashtagsKey_ne_platKey pid x)),
        sismember_del_ne_key _ _ (platKey_ne_postKey x pid),
        sismember_srem_ne_key _ _ _ (platKey_ne_postAll x), sismember_zrem,
        dFold_sism_ne _ _ _ _ _ (fun t _ => platKey_ne_tagKey x t),
        sismember_srem_ne_key _ _ _ (platKey_ne_sentKey x _),
        sismember_srem_ne_key _ _ _ (platKey_ne_ctyKey x _),
        sismember_srem_ne_key _ _ _ (fun e => hx (strSandwichCancel e))]
      simp only [sismember_hincrby, sismember_lremAll]
      rw [create_post_eq]
      rw [sismember_sadd_ne_key _ _ _ (platKey_ne_postAll x),
        sismember_sadd_ne_key _ _ _ (platKey_ne_sentKey x _),
        sismember_sadd_ne_key _ _ _ (platKey_ne_ctyKey x _),
        sismember_sadd_ne_key _ _ _ (fun e => hx (strSandwichCancel e))]
      simp only [sismember_hincrby, sismember_lpush]
      rw [cFold_sism_ne _ _ _ _ _ _ (Ne.symm (hashtagsKey_ne_platKey pid x))
        (fun t _ => platKey_ne_tagKey x t)]
      simp only [sismember_hsetM]
  · intro x
    by_cases hx : x = lowerStr country
    · subst hx
      rw [hfC]
      refine sismember_del_false _ (sismember_del_false _ (sism_false_srem _ ?_))
      rw [sismember_zrem]
      refine dFold_sism_false_mono _ _ _ _ _ ?_
      exact sism_false_srem _ (sismember_srem_self _ _ _)
    · rw [sismember_del_ne_key _ _ (Ne.symm (hashtagsKey_ne_ctyKey pid x)),
        sismember_del_ne_key _ _ (ctyKey_ne_postKey x pid),
        sismember_srem_ne_key _ _ _ (ctyKey_ne_postAll x), sismember_zrem,
        dFold_sism_ne _ _ _ _ _ (fun t _ => ctyKey_ne_tagKey x t),
        sismember_srem_ne_key _ _ _ (ctyKey_ne_sentKey x _),
        sismember_srem_ne_key _ _ _ (fun e => hx (strSandwichCancel e)),
        sismember_srem_ne_key _ _ _ (Ne.symm (platKey_ne_ctyKey _ x))]
      simp only [sismember_hincrby, sismember_lremAll]
      rw [create_post_eq]
      rw [sismember_sadd_ne_key _ _ _ (ctyKey_ne_postAll x),
        sismember_sadd_ne_key _ _ _ (ctyKey_ne_sentKey x _),
        sismember_sadd_ne_key _ _ _ (fun e => hx (strSandwichCancel e)),
        sismember_sadd_ne_key _ _ _ (Ne.symm (platKey_ne_ctyKey _ x))]
      simp only [sismember_hincrby, sismember_lpush]
      rw [cFold_sism_ne _ _ _ _ _ _ (Ne.symm (hashtagsKey_ne_ctyKey pid x))
        (fun t _ => ctyKey_ne_tagKey x t)]
      simp only [sismember_hsetM]
  · intro x
    by_cases hx : x = lowerStr sentiment
    · subst hx
      rw [hfS]
      refine sismember_del_false _ (sismember_del_false _ (sism_false_srem _ ?_))
      rw [sismember_zrem]
      refine dFold_sism_false_mono _ _ _ _ _ ?_
      exact sismember_srem_self _ _ _
    · rw [sismember_del_ne_key _ _ (Ne.symm (hashtagsKey_ne_sentKey pid x)),
        sismember_del_ne_key _ _ (sentKey_ne_postKey x pid),
        sismember_srem_ne_key _ _ _ (sentKey_ne_postAll x), sismember_zrem,
        dFold_sism_ne _ _ _ _ _ (fun t _ => sentKey_ne_tagKey x t),
        sismember_srem_ne_key _ _ _ (fun e => hx (strSandwichCancel e)),
        sismember_srem_ne_key _ _ _ (Ne.symm (ctyKey_ne_sentKey _ x)),
        sismember_srem_ne_key _ _ _ (Ne.symm (platKey_ne_sentKey _ x))]
      simp only [sismember_hincrby, sismember_lremAll]
      rw [create_post_eq]
      rw [sismember_sadd_ne_key _ _ _ (sentKey_ne_postAll x),
        sismember_sadd_ne_key _ _ _ (fun e => hx (strSandwichCancel e)),
        sismember_sadd_ne_key _ _ _ (Ne.symm (ctyKey_ne_sentKey _ x)),
        sismember_sadd_ne_key _ _ _ (Ne.symm (platKey_ne_sentKey _ x))]
      simp only [sismember_hincrby, sismember_lpush]
      rw [cFold_sism_ne _ _ _ _ _ _ (Ne.symm (hashtagsKey_ne_sentKey pid x))
        (fun t _ => sentKey_ne_tagKey x t)]
      simp only [sismember_hsetM]
  · intro x
    by_cases hx : x ∈ extract_hashtags text
    · rw [hfT x hx]
      refine sismember_del_false _ (sismember_del_false _ (sism_false_srem _ ?_))
      rw [sismember_zrem]
      exact dFold_sism_in _ _ _ _ hx
    · rw [sismember_del_ne_key _ _ (Ne.symm (hashtagsKey_ne_tagKey pid x)),
        sismember_del_ne_key _ _ (tagKey_ne_postKey x pid),
        sismember_srem_ne_key _ _ _ (tagKey_ne_postAll x), sismember_zrem,
        dFold_sism_ne _ _ _ _ _ (fun t ht => fun e => hx (by
          rw [strSandwichCancel e]; exact ht)),
        sismember_srem_ne_key _ _ _ (Ne.symm (sentKey_ne_tagKey _ x)),
        sismember_srem_ne_key _ _ _ (Ne.symm (ctyKey_ne_tagKey _ x)),
        sismember_srem_ne_key _ _ _ (Ne.symm (platKey_ne_tagKey _ x))]
      simp only [sismember_hincrby, sismember_lremAll]
      rw [create_post_eq]
      rw [sismember_sadd_ne_key _ _ _ (tagKey_ne_postAll x),
        sismember_sadd_ne_key _ _ _ (Ne.symm (sentKey_ne_tagKey _ x)),
        sismember_sadd_ne_key _ _ _ (Ne.symm (ctyKey_ne_tagKey _ x)),
        sismember_sadd_ne_key _ _ _ (Ne.symm (platKey_ne_tagKey _ x))]
      simp only [sismember_hincrby, sismember_lpush]
      rw [cFold_sism_ne _ _ _ _ _ _ (Ne.symm (hashtagsKey_ne_tagKey pid x))
        (fun t ht => fun e => hx (by rw [strSandwichCancel e]; exact ht))]
      simp only [sismember_hsetM]
  · rw [hfA]
    refine sismember_del_false _ (sismember_del_false _ ?_)
    exact sismember_srem_self _ _ _

/-- Witness for the C10 round-trip: a concrete store with user `u1`
(`post_count` 0) and a pre-existing trending entry for `a`; creating and
deleting post `p1` with text `#a` restores the `post_count` field and the
trending score. -/
theorem claim10_create_delete_roundtrip_witness :
    (extract_hashtags "#a").Nodup ∧
    (delete_post "p1" (create_post "p1" "u1" "#a" "X" "DE" "Pos" "t0"
      (St.mk [("social:user:u1", [("post_count", HVal.i 0)])] [] []
        [("hashtag:trending", [("a", (1 : Rat))])]))).hget
      ("social:user:" ++ "u1") "post_count" = some (HVal.i 0) ∧
    (delete_post "p1" (create_post "p1" "u1" "#a" "X" "DE" "Pos" "t0"
      (St.mk [("social:user:u1", [("post_count", HVal.i 0)])] [] []
        [("hashtag:trending", [("a", (1 : Rat))])]))).zscore
      "hashtag:trending" "a" =
    (St.mk [("social:user:u1", [("post_count", HVal.i 0)])] [] []
        [("hashtag:trending", [("a", (1 : Rat))])] : St).zscore
      "hashtag:trending" "a" := by
  refine ⟨by decide, ?_, ?_⟩
  · exact (claim10_create_delete_roundtrip
      (St.mk [("social:user:u1", [("post_count", HVal.i 0)])] [] []
        [("hashtag:trending", [("a", (1 : Rat))])])
      "p1" "u1" "#a" "X" "DE" "Pos" "t0" 0
      (by decide) (by decide) (by decide) (by decide) (by decide) (by decide)
      (by decide) (by decide) (by decide) (by decide) (by decide) (by decide)
      (by decide)).2.1
  · exact (claim10_create_delete_roundtrip
      (St.mk [("social:user:u1", [("post_count", HVal.i 0)])] [] []
        [("hashtag:trending", [("a", (1 : Rat))])])
      "p1" "u1" "#a" "X" "DE" "Pos" "t0" 0
      (by decide) (by decide) (by decide) (by decide) (by decide) (by decide)
      (by decide) (by decide) (by decide) (by decide) (by decide) (by decide)
      (by decide)).1 "a"

/-! ## C2: delete versus the partitions the entity was ever added to -/

theorem hgetall_del_of_empty (st : St) {k : String} (k' : String)
    (h : st.hgetall k = []) : (st.del k').hgetall k = [] := by
  unfold St.hgetall St.hfind at *
  rw [hashes_del]
  by_cases e : k = k'
  · subst e
    rw [alook_adel_self]
    rfl
  · rw [alook_adel_ne _ e]
    exact h

theorem runPrims_sismember_le (ops : List PrimOp) (st : St) {k v : String}
    (h : (runPrims ops st).sismember k v = true) : st.sismember k v = true := by
  by_cases h2 : st.sismember k v = true
  · exact h2
  · rw [runPrims_sismember_false ops st (by simpa using h2)] at h
    exact Bool.noConfusion h

/-- The fixed tail of `deleteOrderSteps`, made explicit. -/
theorem delete_tail6_eq (s : St) (oid : String) :
    runPrims [PrimOp.srem "order:all" oid, PrimOp.zrem "review:scores" oid,
      PrimOp.del ("order:" ++ oid), PrimOp.del ("order:" ++ oid ++ ":items"),
      PrimOp.del ("order:" ++ oid ++ ":payments"),
      PrimOp.del ("order:" ++ oid ++ ":review")] s =
    (((((s.srem "order:all" oid).zrem "review:scores" oid).del
      ("order:" ++ oid)).del ("order:" ++ oid ++ ":items")).del
      ("order:" ++ oid ++ ":payments")).del ("order:" ++ oid ++ ":review") := rfl

theorem delete_tail6_all_clear (s : St) (oid : String) :
    (runPrims [PrimOp.srem "order:all" oid, PrimOp.zrem "review:scores" oid,
      PrimOp.del ("order:" ++ oid), PrimOp.del ("order:" ++ oid ++ ":items"),
      PrimOp.del ("order:" ++ oid ++ ":payments"),
      PrimOp.del ("order:" ++ oid ++ ":review")] s).sismember "order:all" oid =
      false := by
  rw [delete_tail6_eq]
  refine sismember_del_false _ (sismember_del_false _ (sismember_del_false _
    (sismember_del_false _ ?_)))
  rw [sismember_zrem]
  exact sismember_srem_self _ _ _

theorem delete_tail6_get_clear (s : St) (oid : String) :
    (runPrims [PrimOp.srem "order:all" oid, PrimOp.zrem "review:scores" oid,
      PrimOp.del ("order:" ++ oid), PrimOp.del ("order:" ++ oid ++ ":items"),
      PrimOp.del ("order:" ++ oid ++ ":payments"),
      PrimOp.del ("order:" ++ oid ++ ":review")] s).hgetall ("order:" ++ oid) =
      [] := by
  rw [delete_tail6_eq]
  refine hgetall_del_of_empty _ _ (hgetall_del_of_empty _ _
    (hgetall_del_of_empty _ _ ?_))
  exact hgetall_del_self _ _

/-- `delete_order` always clears `order:all` for the target id. -/
theorem delete_order_all_clear (st : St) (oid : String) :
    (delete_order oid st).sismember "order:all" oid = false := by
  unfold delete_order deleteOrderSteps
  rw [runPrims_append, runPrims_append]
  exact delete_tail6_all_clear _ oid

/-- `delete_order` always leaves the Record empty. -/
theorem delete_order_get_clear (st : St) (oid : String) :
    get_order oid (delete_order oid st) = [] := by
  unfold delete_order deleteOrderSteps get_order
  rw [runPrims_append, runPrims_append]
  exact delete_tail6_get_clear _ oid

/-- Under the status-partition invariant, `delete_order` clears every status
partition for the target id (the one for its current status by the explicit
`SREM`, all others because the id was never in them). -/
theorem delete_order_status_clear (st : St) (oid : String) (hinv : StatusInv st)
    (s : String) :
    (delete_order oid st).sismember ("order:status:" ++ s) oid = false := by
  by_cases hm : st.sismember ("order:status:" ++ s) oid = true
  · obtain ⟨hco, hcs, hsne, hgs⟩ := hinv oid s hm
    have hsteps : deleteOrderSteps st oid =
        (if truthy ((alook (get_order oid st) "customer_id").map HVal.render) then
          [PrimOp.lrem ("customer:" ++
            (((alook (get_order oid st) "customer_id").map HVal.render).getD "") ++
            ":orders") oid] else []) ++
        ([PrimOp.srem ("order:status:" ++ s) oid] ++
         [PrimOp.srem "order:all" oid, PrimOp.zrem "review:scores" oid,
          PrimOp.del ("order:" ++ oid), PrimOp.del ("order:" ++ oid ++ ":items"),
          PrimOp.del ("order:" ++ oid ++ ":payments"),
          PrimOp.del ("order:" ++ oid ++ ":review")]) := by
      unfold deleteOrderSteps
      have e2 : (alook (get_order oid st) "status").map HVal.render = some s := hgs
      simp only [e2, truthy, Option.getD_some]
      rw [if_pos (show (s != "") = true from by simpa using hsne)]
      rw [List.append_assoc]
    unfold delete_order
    rw [hsteps, runPrims_append, runPrims_append]
    refine runPrims_sismember_false _ _ ?_
    show ((runPrims _ st).srem ("order:status:" ++ s) oid).sismember
      ("order:status:" ++ s) oid = false
    exact sismember_srem_self _ _ _
  · unfold delete_order
    exact runPrims_sismember_false _ _ (by simpa using hm)

/-- C2 counterexample.  Creating the same order twice (first with status
`created`, then with status `shipped`) and then deleting it leaves the
Record empty, yet the order is still a member of `order:status:created` —
a partition it was added to — because `delete_order` only removes the id
from the partition of its current `status` field. -/
theorem claim2_counterexample :
    (runEC [ECOp.create "o1" "c1" "created"] St.empty).sismember
      ("order:status:" ++ "created") "o1" = true ∧
    get_order "o1" (runEC [ECOp.create "o1" "c1" "created",
      ECOp.create "o1" "c1" "shipped", ECOp.remove "o1"] St.empty) = [] ∧
    (runEC [ECOp.create "o1" "c1" "created", ECOp.create "o1" "c1" "shipped",
      ECOp.remove "o1"] St.empty).sismember
      ("order:status:" ++ "created") "o1" = true := by decide

theorem orderKey_ne_orderSub {o : String} (oid suf : String) (hc : colonFree o = true)
    (hs : ':' ∈ suf.data) : ("order:" ++ o : String) ≠ "order:" ++ oid ++ suf := by
  intro e
  have h2 := congrArg String.data e
  simp only [String.data_append] at h2
  rw [List.append_assoc] at h2
  have h3 : o.data = oid.data ++ suf.data := List.append_cancel_left h2
  have h4 : ':' ∈ o.data := by
    rw [h3]
    exact List.mem_append_right _ hs
  simp only [colonFree, decide_eq_true_eq] at hc
  exact hc h4

theorem create_order_hget_ne (st : St) (o c s : String) {k : String}
    (hk : k ≠ "order:" ++ o) (f : String) :
    (create_order o c s st).hget k f = st.hget k f := by
  unfold create_order
  simp only [hget_sadd, hget_lpush]
  rw [hget_hsetM_ne_key _ _ _ hk]

theorem create_order_status_field (st : St) (o c s : String) :
    (create_order o c s st).hgetS ("order:" ++ o) "status" = some s := by
  unfold create_order St.hgetS
  simp only [hget_sadd, hget_lpush]
  rw [hget_hsetM_self]
  show (alook (hashSet (hashSet (st.hgetall ("order:" ++ o)) "customer_id" (HVal.s c))
    "status" (HVal.s s)) "status").map HVal.render = some s
  unfold hashSet
  rw [alook_aupd_self]
  rfl

/-- The first phase of `update_order_status` (conditional removal from the
old status partition), characterised without reference to its branch. -/
theorem update_status_split (st : St) (o n : String) :
    ∃ s1 : St, update_order_status o n st =
        (s1.hset1 ("order:" ++ o) "status" (.s n)).sadd ("order:status:" ++ n) o ∧
      s1.hashes = st.hashes ∧
      (∀ k v, s1.sismember k v = true → st.sismember k v = true) ∧
      (∀ old, st.hgetS ("order:" ++ o) "status" = some old → old ≠ "" →
        s1.sismember ("order:status:" ++ old) o = false) := by
  rcases hmo : st.hgetS ("order:" ++ o) "status" with _ | old
  · refine ⟨st, ?_, rfl, fun k v h => h, ?_⟩
    · simp only [update_order_status, hmo]
    · intro old2 h _
      exact Option.noConfusion h
  · by_cases he : old = ""
    · refine ⟨st, ?_, rfl, fun k v h => h, ?_⟩
      · simp only [update_order_status, hmo]
        rw [if_pos he]
      · intro old2 h hne2
        injection h with h2
        subst h2
        exact absurd he hne2
    · refine ⟨st.srem ("order:status:" ++ old) o, ?_, rfl,
        fun k v h => sismember_srem_le st h, ?_⟩
      · simp only [update_order_status, hmo]
        rw [if_neg he]
      · intro old2 h _
        injection h with h2
        subst h2
        exact sismember_srem_self st _ o

theorem update_status_field (st : St) (o n : String) :
    (update_order_status o n st).hgetS ("order:" ++ o) "status" = some n := by
  obtain ⟨s1, heq, _, _, _⟩ := update_status_split st o n
  rw [heq]
  unfold St.hgetS
  simp only [hget_sadd]
  rw [hget_hset1_self]
  rfl

theorem update_status_hgetS_ne (st : St) (o n : String) {k : String}
    (hk : k ≠ "order:" ++ o) (f : String) :
    (update_order_status o n st).hgetS k f = st.hgetS k f := by
  obtain ⟨s1, heq, hh, _, _⟩ := update_status_split st o n
  rw [heq]
  unfold St.hgetS
  simp only [hget_sadd]
  rw [hget_hset1_ne_key _ _ _ _ hk]
  rw [hget_eq_of_hashes hh]

theorem statusInv_create (st : St) (o c s : String) (hinv : StatusInv st)
    (hco : colonFree o = true) (hcs : colonFree s = true) (hne : s ≠ "")
    (hfresh : st.hget ("order:" ++ o) "status" = none) :
    StatusInv (create_order o c s st) := by
  intro o' s' hm
  unfold create_order at hm
  rw [sismember_sadd_ne_key _ _ _ (statusKey_ne_orderAll s')] at hm
  by_cases hks : s' = s
  · subst hks
    rw [sismember_sadd_same_key, Bool.or_eq_true] at hm
    rcases hm with hm | hm
    · simp only [sismember_lpush, sismember_hsetM] at hm
      obtain ⟨h1, h2, h3, h4⟩ := hinv o' s' hm
      by_cases ho : o' = o
      · subst ho
        unfold St.hgetS at h4
        rw [hfresh] at h4
        exact Option.noConfusion h4
      · refine ⟨h1, h2, h3, ?_⟩
        unfold St.hgetS
        rw [create_order_hget_ne st o c s' (fun e => ho (strAppendCancel e)) "status"]
        exact h4
    · have ho : o' = o := by simpa using hm
      subst ho
      exact ⟨hco, hcs, hne, create_order_status_field st o' c s'⟩
  · rw [sismember_sadd_ne_key _ _ _ (statusKeyInj hks)] at hm
    simp only [sismember_lpush, sismember_hsetM] at hm
    obtain ⟨h1, h2, h3, h4⟩ := hinv o' s' hm
    by_cases ho : o' = o
    · subst ho
      unfold St.hgetS at h4
      rw [hfresh] at h4
      exact Option.noConfusion h4
    · refine ⟨h1, h2, h3, ?_⟩
      unfold St.hgetS
      rw [create_order_hget_ne st o c s (fun e => ho (strAppendCancel e)) "status"]
      exact h4

theorem statusInv_setStatus (st : St) (o n : String) (hinv : StatusInv st)
    (hco : colonFree o = true) (hcn : colonFree n = true) (hne : n ≠ "") :
    StatusInv (update_order_status o n st) := by
  obtain ⟨s1, heq, hh, hle, hrem⟩ := update_status_split st o n
  intro o' s' hm
  rw [heq] at hm
  by_cases hks : s' = n
  · subst hks
    rw [sismember_sadd_same_key, Bool.or_eq_true] at hm
    rcases hm with hm | hm
    · simp only [sismember_hset1] at hm
      have hmem := hle _ _ hm
      obtain ⟨h1, h2, h3, h4⟩ := hinv o' s' hmem
      by_cases ho : o' = o
      · subst ho
        exact ⟨h1, hcn, hne, update_status_field st o' s'⟩
      · refine ⟨h1, hcn, hne, ?_⟩
        rw [update_status_hgetS_ne st o s' (fun e => ho (strAppendCancel e)) "status"]
        exact h4
    · have ho : o' = o := by simpa using hm
      subst ho
      exact ⟨hco, hcn, hne, update_status_field st o' s'⟩
  · rw [sismember_sadd_ne_key _ _ _ (statusKeyInj hks)] at hm
    simp only [sismember_hset1] at hm
    have hmem := hle _ _ hm
    obtain ⟨h1, h2, h3, h4⟩ := hinv o' s' hmem
    by_cases ho : o' = o
    · subst ho
      rw [hrem s' h4 h3] at hm
      exact Bool.noConfusion hm
    · refine ⟨h1, h2, h3, ?_⟩
      rw [update_status_hgetS_ne st o n (fun e => ho (strAppendCancel e)) "status"]
      exact h4

theorem statusInv_review (st : St) (o : String) (sc : Rat) (cm : String)
    (hinv : StatusInv st) : StatusInv (add_review o sc cm st) := by
  intro o' s' hm
  have hmem : st.sismember ("order:status:" ++ s') o' = true := by
    unfold add_review at hm
    simpa only [sismember_zadd, sismember_hsetM] using hm
  obtain ⟨h1, h2, h3, h4⟩ := hinv o' s' hmem
  refine ⟨h1, h2, h3, ?_⟩
  unfold add_review St.hgetS
  simp only [hget_zadd]
  rw [hget_hsetM_ne_key _ _ _ (orderKey_ne_orderSub o ":review" h1 (by decide))]
  exact h4

theorem primop_hget_ne (op : PrimOp) (st : St) (k f : String)
    (h : ∀ k2, op = PrimOp.del k2 → k ≠ k2) :
    (op.apply st).hget k f = st.hget k f := by
  cases op with
  | lrem k2 v2 => rfl
  | srem k2 v2 => rfl
  | zrem k2 m2 => rfl
  | del k2 => exact hget_del_ne_key st f (h k2 rfl)

theorem runPrims_hget_ne (ops : List PrimOp) (st : St) (k f : String)
    (h : ∀ op ∈ ops, ∀ k2, op = PrimOp.del k2 → k ≠ k2) :
    (runPrims ops st).hget k f = st.hget k f := by
  induction ops generalizing st with
  | nil => rfl
  | cons op t ih =>
    rw [show runPrims (op :: t) st = runPrims t (op.apply st) from rfl]
    rw [ih (op.apply st) (fun op2 h2 => h op2 (List.mem_cons_of_mem op h2))]
    exact primop_hget_ne op st k f (h op (List.mem_cons_self op t))

/-- The only keys `delete_order` passes to `DEL`. -/
theorem deleteOrderSteps_dels (st : St) (o : String) (op : PrimOp)
    (hop : op ∈ deleteOrderSteps st o) (k2 : String) (he : op = PrimOp.del k2) :
    k2 = "order:" ++ o ∨ k2 = "order:" ++ o ++ ":items" ∨
    k2 = "order:" ++ o ++ ":payments" ∨ k2 = "order:" ++ o ++ ":review" := by
  unfold deleteOrderSteps at hop
  rw [List.mem_append, List.mem_append] at hop
  rcases hop with (h1 | h1) | h1
  · split at h1
    · rw [List.mem_singleton] at h1
      rw [h1] at he
      exact PrimOp.noConfusion he
    · cases h1
  · split at h1
    · rw [List.mem_singleton] at h1
      rw [h1] at he
      exact PrimOp.noConfusion he
    · cases h1
  · simp only [List.mem_cons, List.not_mem_nil, or_false] at h1
    rcases h1 with h1 | h1 | h1 | h1 | h1 | h1 <;> rw [h1] at he
    · exact PrimOp.noConfusion he
    · exact PrimOp.noConfusion he
    · injection he with h2
      exact Or.inl h2.symm
    · injection he with h2
      exact Or.inr (Or.inl h2.symm)
    · injection he with h2
      exact Or.inr (Or.inr (Or.inl h2.symm))
    · injection he with h2
      exact Or.inr (Or.inr (Or.inr h2.symm))

theorem delete_order_hget_ne (st : St) (o : String) {k : String}
    (h1 : k ≠ "order:" ++ o) (h2 : k ≠ "order:" ++ o ++ ":items")
    (h3 : k ≠ "order:" ++ o ++ ":payments") (h4 : k ≠ "order:" ++ o ++ ":review")
    (f : String) : (delete_order o st).hget k f = st.hget k f := by
  unfold delete_order
  refine runPrims_hget_ne _ _ _ _ ?_
  intro op hop k2 he
  rcases deleteOrderSteps_dels st o op hop k2 he with h | h | h | h <;> subst h
  · exact h1
  · exact h2
  · exact h3
  · exact h4

theorem statusInv_remove (st : St) (o : String) (hinv : StatusInv st) :
    StatusInv (delete_order o st) := by
  intro o' s' hm
  have hmem : st.sismember ("order:status:" ++ s') o' = true := by
    unfold delete_order at hm
    exact runPrims_sismember_le _ _ hm
  obtain ⟨h1, h2, h3, h4⟩ := hinv o' s' hmem
  by_cases ho : o' = o
  · subst ho
    rw [delete_order_status_clear st o' hinv s'] at hm
    exact Bool.noConfusion hm
  · refine ⟨h1, h2, h3, ?_⟩
    unfold St.hgetS
    rw [delete_order_hget_ne st o (fun e => ho (strAppendCancel e))
      (orderKey_ne_orderSub o ":items" h1 (by decide))
      (orderKey_ne_orderSub o ":payments" h1 (by decide))
      (orderKey_ne_orderSub o ":review" h1 (by decide)) "status"]
    exact h4

theorem statusInv_empty : StatusInv St.empty := by
  intro o s hm
  exact Bool.noConfusion hm

theorem statusInv_runEC (ops : List ECOp) (st : St) (hinv : StatusInv st)
    (hv : ValidFrom st ops) : StatusInv (runEC ops st) := by
  induction ops generalizing st with
  | nil => exact hinv
  | cons op t ih =>
    obtain ⟨hok, hv2⟩ := hv
    refine ih (op.apply st) ?_ hv2
    cases op with
    | create o c s =>
      obtain ⟨hx1, hx2, hx3, hx4⟩ := hok
      exact statusInv_create st o c s hinv hx1 hx2 hx3 hx4
    | setStatus o n =>
      obtain ⟨hx1, hx2, hx3⟩ := hok
      exact statusInv_setStatus st o n hinv hx1 hx2 hx3
    | review o sc cm => exact statusInv_review st o sc cm hinv
    | remove o => exact statusInv_remove st o hinv

theorem smembersHT_srem_plat (st : St) (pid x v : String) :
    (st.srem ("platform:" ++ x ++ ":posts") v).smembers ("post:" ++ pid ++ ":hashtags") =
      st.smembers ("post:" ++ pid ++ ":hashtags") :=
  smembers_srem_ne st v (hashtagsKey_ne_platKey pid x)

theorem smembersHT_srem_cty (st : St) (pid x v : String) :
    (st.srem ("country:" ++ x ++ ":posts") v).smembers ("post:" ++ pid ++ ":hashtags") =
      st.smembers ("post:" ++ pid ++ ":hashtags") :=
  smembers_srem_ne st v (hashtagsKey_ne_ctyKey pid x)

theorem smembersHT_srem_sent (st : St) (pid x v : String) :
    (st.srem ("sentiment:" ++ x ++ ":posts") v).smembers ("post:" ++ pid ++ ":hashtags") =
      st.smembers ("post:" ++ pid ++ ":hashtags") :=
  smembers_srem_ne st v (hashtagsKey_ne_sentKey pid x)

/-- `delete_post` never adds a set membership. -/
theorem delete_post_sism_false (st : St) (pid : String) {k v : String}
    (h : st.sismember k v = false) :
    (delete_post pid st).sismember k v = false := by
  simp only [delete_post, truthy]
  split
  · exact h
  · split <;> split <;> split <;> split
    all_goals refine sismember_del_false _ (sismember_del_false _ (sism_false_srem _ ?_))
    all_goals rw [sismember_zrem]
    all_goals refine dFold_sism_false_mono _ _ _ _ _ ?_
    all_goals repeat apply sism_false_srem
    all_goals first
      | exact h
      | (simp only [sismember_hincrby, sismember_lremAll]; exact h)

theorem delete_post_plat_clear (st : St) (pid x : String)
    (hrec : get_post pid st ≠ [])
    (hf : st.hgetS ("post:" ++ pid) "platform" = some x) (hx : x ≠ "") :
    (delete_post pid st).sismember ("platform:" ++ x ++ ":posts") pid = false := by
  have hempty : (get_post pid st).isEmpty = false := by
    rcases hgp : get_post pid st with _ | ⟨a, t⟩
    · exact absurd hgp hrec
    · rfl
  have hmp : (alook (get_post pid st) "platform").map HVal.render = some x := hf
  have hbx : (x != "") = true := by simpa using hx
  simp only [delete_post, hempty, Bool.false_eq_true, if_false, hmp, truthy, hbx,
    if_true, Option.getD_some]
  split <;> split <;> split
  all_goals refine sismember_del_false _ (sismember_del_false _ (sism_false_srem _ ?_))
  all_goals rw [sismember_zrem]
  all_goals refine dFold_sism_false_mono _ _ _ _ _ ?_
  all_goals repeat first
    | exact sismember_srem_self _ _ _
    | apply sism_false_srem

theorem delete_post_cty_clear (st : St) (pid x : String)
    (hrec : get_post pid st ≠ [])
    (hf : st.hgetS ("post:" ++ pid) "country" = some x) (hx : x ≠ "") :
    (delete_post pid st).sismember ("country:" ++ x ++ ":posts") pid = false := by
  have hempty : (get_post pid st).isEmpty = false := by
    rcases hgp : get_post pid st with _ | ⟨a, t⟩
    · exact absurd hgp hrec
    · rfl
  have hmc : (alook (get_post pid st) "country").map HVal.render = some x := hf
  have hbx : (x != "") = true := by simpa using hx
  simp only [delete_post, hempty, Bool.false_eq_true, if_false, hmc, truthy, hbx,
    if_true, Option.getD_some]
  split <;> split <;> split
  all_goals refine sismember_del_false _ (sismember_del_false _ (sism_false_srem _ ?_))
  all_goals rw [sismember_zrem]
  all_goals refine dFold_sism_false_mono _ _ _ _ _ ?_
  all_goals repeat first
    | exact sismember_srem_self _ _ _
    | apply sism_false_srem

theorem delete_post_sent_clear (st : St) (pid x : String)
    (hrec : get_post pid st ≠ [])
    (hf : st.hgetS ("post:" ++ pid) "sentiment" = some x) (hx : x ≠ "") :
    (delete_post pid st).sismember ("sentiment:" ++ x ++ ":posts") pid = false := by
  have hempty : (get_post pid st).isEmpty = false := by
    rcases hgp : get_post pid st with _ | ⟨a, t⟩
    · exact absurd hgp hrec
    · rfl
  have hms : (alook (get_post pid st) "sentiment").map HVal.render = some x := hf
  have hbx : (x != "") = true := by simpa using hx
  simp only [delete_post, hempty, Bool.false_eq_true, if_false, hms, truthy, hbx,
    if_true, Option.getD_some]
  split <;> split <;> split
  all_goals refine sismember_del_false _ (sismember_del_false _ (sism_false_srem _ ?_))
  all_goals rw [sismember_zrem]
  all_goals refine dFold_sism_false_mono _ _ _ _ _ ?_
  all_goals repeat first
    | exact sismember_srem_self _ _ _
    | apply sism_false_srem

theorem delete_post_tag_clear (st : St) (pid t : String)
    (hrec : get_post pid st ≠ []) (ht : t ∈ get_post_hashtags pid st) :
    (delete_post pid st).sismember ("hashtag:" ++ t ++ ":posts") pid = false := by
  have hempty : (get_post pid st).isEmpty = false := by
    rcases hgp : get_post pid st with _ | ⟨a, t2⟩
    · exact absurd hgp hrec
    · rfl
  simp only [delete_post, hempty, Bool.false_eq_true, if_false, truthy]
  split <;> split <;> split <;> split
  all_goals refine sismember_del_false _ (sismember_del_false _ (sism_false_srem _ ?_))
  all_goals rw [sismember_zrem]
  all_goals refine dFold_sism_in _ _ _ _ ?_
  all_goals simp only [get_post_hashtags, smembers_hincrby, smembers_lremAll,
    smembersHT_srem_plat, smembersHT_srem_cty, smembersHT_srem_sent]
  all_goals exact ht

theorem delete_post_all_clear (st : St) (pid : String)
    (hrec : get_post pid st ≠ []) :
    (delete_post pid st).sismember "post:all" pid = false := by
  have hempty : (get_post pid st).isEmpty = false := by
    rcases hgp : get_post pid st with _ | ⟨a, t⟩
    · exact absurd hgp hrec
    · rfl
  simp only [delete_post, hempty, Bool.false_eq_true, if_false]
  refine sismember_del_false _ (sismember_del_false _ ?_)
  exact sismember_srem_self _ _ _

theorem delete_post_get_clear (st : St) (pid : String) :
    get_post pid (delete_post pid st) = [] := by
  simp only [delete_post]
  split
  · rename_i h
    rcases hgp : get_post pid st with _ | ⟨a, t⟩
    · rfl
    · rw [hgp] at h
      exact Bool.noConfusion h
  · unfold get_post
    refine hgetall_del_of_empty _ _ ?_
    exact hgetall_del_self _ _

theorem mFold_sism_false_mono (gs : List String) (s : St) (mid k v : String)
    (h : s.sismember k v = false) :
    (gs.foldl (fun t g => t.srem ("genre:" ++ lowerStr g ++ ":movies") mid) s).sismember
      k v = false := by
  induction gs generalizing s with
  | nil => exact h
  | cons a t ih =>
    rw [List.foldl_cons]
    exact ih _ (sism_false_srem _ h)

theorem mFold_sism_in (gs : List String) (s : St) (mid g : String)
    (hg : ∃ h0 ∈ gs, lowerStr h0 = g) :
    (gs.foldl (fun t g2 => t.srem ("genre:" ++ lowerStr g2 ++ ":movies") mid) s).sismember
      ("genre:" ++ g ++ ":movies") mid = false := by
  induction gs generalizing s with
  | nil =>
    rcases hg with ⟨h0, hh, _⟩
    cases hh
  | cons a t ih =>
    rw [List.foldl_cons]
    rcases hg with ⟨h0, hh, he⟩
    rcases List.mem_cons.mp hh with h1 | h1
    · subst h1
      refine mFold_sism_false_mono t _ mid _ _ ?_
      rw [← he]
      exact sismember_srem_self _ _ _
    · exact ih _ ⟨h0, h1, he⟩

theorem delete_movie_sism_false (st : St) (mid : String) {k v : String}
    (h : st.sismember k v = false) :
    (delete_movie mid st).sismember k v = false := by
  simp only [delete_movie]
  refine sismember_del_false _ (sismember_del_false _ (sismember_del_false _
    (sismember_del_false _ (sismember_del_false _ (sismember_del_false _ ?_)))))
  rw [sismember_zrem, sismember_zrem]
  refine sism_false_srem _ ?_
  exact mFold_sism_false_mono _ _ _ _ _ h

theorem delete_movie_genre_clear (st : St) (mid g : String)
    (hg : ∃ h0 ∈ get_movie_genres mid st, lowerStr h0 = g) :
    (delete_movie mid st).sismember ("genre:" ++ g ++ ":movies") mid = false := by
  simp only [delete_movie]
  refine sismember_del_false _ (sismember_del_false _ (sismember_del_false _
    (sismember_del_false _ (sismember_del_false _ (sismember_del_false _ ?_)))))
  rw [sismember_zrem, sismember_zrem]
  refine sism_false_srem _ ?_
  exact mFold_sism_in _ _ _ _ hg

theorem delete_movie_all_clear (st : St) (mid : String) :
    (delete_movie mid st).sismember "movie:all" mid = false := by
  simp only [delete_movie]
  refine sismember_del_false _ (sismember_del_false _ (sismember_del_false _
    (sismember_del_false _ (sismember_del_false _ (sismember_del_false _ ?_)))))
  rw [sismember_zrem, sismember_zrem]
  exact sismember_srem_self _ _ _

theorem delete_movie_get_clear (st : St) (mid : String) :
    (delete_movie mid st).hgetall ("movie:" ++ mid) = [] := by
  simp only [delete_movie]
  refine hgetall_del_of_empty _ _ (hgetall_del_of_empty _ _ (hgetall_del_of_empty _ _
    (hgetall_del_of_empty _ _ (hgetall_del_of_empty _ _ ?_))))
  exact hgetall_del_self _ _

/-- C2 amended.  Provided every partition membership of the entity is
consistent with its Record's current categorical fields, delete removes the
entity from every partition and empties the Record.  For orders this holds
along any history of create/setStatus/review/remove operations obeying the
discipline of `okOp` (colon-free ids, nonempty colon-free statuses, create
only on ids with no status field) starting from a state satisfying the
status-partition invariant; the counterexample shows it fails without that
discipline (double create).  For posts it holds when the post hash still
exists and the platform/country/sentiment/hashtag memberships match the
hash's current fields; for movies when every genre membership comes from
the movie's stored genre set. -/
theorem claim2_delete_clears_partitions :
    (∀ (ops : List ECOp) (st : St) (oid : String),
      StatusInv st → ValidFrom st ops →
      (∀ s, (delete_order oid (runEC ops st)).sismember
        ("order:status:" ++ s) oid = false) ∧
      (delete_order oid (runEC ops st)).sismember "order:all" oid = false ∧
      get_order oid (delete_order oid (runEC ops st)) = []) ∧
    (∀ (st : St) (pid : String), get_post pid st ≠ [] →
      (∀ x, st.sismember ("platform:" ++ x ++ ":posts") pid = true →
        st.hgetS ("post:" ++ pid) "platform" = some x ∧ x ≠ "") →
      (∀ x, st.sismember ("country:" ++ x ++ ":posts") pid = true →
        st.hgetS ("post:" ++ pid) "country" = some x ∧ x ≠ "") →
      (∀ x, st.sismember ("sentiment:" ++ x ++ ":posts") pid = true →
        st.hgetS ("post:" ++ pid) "sentiment" = some x ∧ x ≠ "") →
      (∀ t, st.sismember ("hashtag:" ++ t ++ ":posts") pid = true →
        t ∈ get_post_hashtags pid st) →
      (∀ x, (delete_post pid st).sismember ("platform:" ++ x ++ ":posts") pid = false) ∧
      (∀ x, (delete_post pid st).sismember ("country:" ++ x ++ ":posts") pid = false) ∧
      (∀ x, (delete_post pid st).sismember ("sentiment:" ++ x ++ ":posts") pid = false) ∧
      (∀ t, (delete_post pid st).sismember ("hashtag:" ++ t ++ ":posts") pid = false) ∧
      (delete_post pid st).sismember "post:all" pid = false ∧
      get_post pid (delete_post pid st) = []) ∧
    (∀ (st : St) (mid : String),
      (∀ g, st.sismember ("genre:" ++ g ++ ":movies") mid = true →
        ∃ h0 ∈ get_movie_genres mid st, lowerStr h0 = g) →
      (∀ g, (delete_movie mid st).sismember ("genre:" ++ g ++ ":movies") mid = false) ∧
      (delete_movie mid st).sismember "movie:all" mid = false ∧
      (delete_movie mid st).hgetall ("movie:" ++ mid) = []) := by
  refine ⟨?_, ?_, ?_⟩
  · intro ops st oid hinv hv
    have hinv2 : StatusInv (runEC ops st) := statusInv_runEC ops st hinv hv
    exact ⟨fun s => delete_order_status_clear _ oid hinv2 s,
      delete_order_all_clear _ oid, delete_order_get_clear _ oid⟩
  · intro st pid hrec hP hC hS hT
    refine ⟨?_, ?_, ?_, ?_, delete_post_all_clear st pid hrec,
      delete_post_get_clear st pid⟩
    · intro x
      by_cases hm : st.sismember ("platform:" ++ x ++ ":posts") pid = true
      · obtain ⟨hf, hx⟩ := hP x hm
        exact delete_post_plat_clear st pid x hrec hf hx
      · exact delete_post_sism_false st pid (by simpa using hm)
    · intro x
      by_cases hm : st.sismember ("country:" ++ x ++ ":posts") pid = true
      · obtain ⟨hf, hx⟩ := hC x hm
        exact delete_post_cty_clear st pid x hrec hf hx
      · exact delete_post_sism_false st pid (by simpa using hm)
    · intro x
      by_cases hm : st.sismember ("sentiment:" ++ x ++ ":posts") pid = true
      · obtain ⟨hf, hx⟩ := hS x hm
        exact delete_post_sent_clear st pid x hrec hf hx
      · exact delete_post_sism_false st pid (by simpa using hm)
    · intro t
      by_cases hm : st.sismember ("hashtag:" ++ t ++ ":posts") pid = true
      · exact delete_post_tag_clear st pid t hrec (hT t hm)
      · exact delete_post_sism_false st pid (by simpa using hm)
  · intro st mid hG
    refine ⟨?_, delete_movie_all_clear st mid, delete_movie_get_clear st mid⟩
    intro g
    by_cases hm : st.sismember ("genre:" ++ g ++ ":movies") mid = true
    · exact delete_movie_genre_clear st mid g (hG g hm)
    · exact delete_movie_sism_false st mid (by simpa using hm)

/-- Witness for the amended C2 on concrete stores: a singly-created order,
a post whose record exists but which sits in no partition, and a movie with
a record and no genre memberships. -/
theorem claim2_delete_clears_partitions_witness :
    ((delete_order "o1" (runEC [ECOp.create "o1" "c1" "created"] St.empty)).sismember
      ("order:status:" ++ "created") "o1" = false ∧
     (delete_order "o1" (runEC [ECOp.create "o1" "c1" "created"] St.empty)).sismember
      "order:all" "o1" = false ∧
     get_order "o1" (delete_order "o1" (runEC [ECOp.create "o1" "c1" "created"]
       St.empty)) = []) ∧
    ((delete_post "p1" (St.mk [("post:p1", [("user_id", HVal.s "u1")])]
       [] [] [])).sismember ("platform:" ++ "x" ++ ":posts") "p1" = false ∧
     (delete_post "p1" (St.mk [("post:p1", [("user_id", HVal.s "u1")])]
       [] [] [])).sismember "post:all" "p1" = false ∧
     get_post "p1" (delete_post "p1" (St.mk [("post:p1", [("user_id", HVal.s "u1")])]
       [] [] [])) = []) ∧
    ((delete_movie "m1" (St.mk [("movie:m1", [("title", HVal.s "T")])]
       [] [] [])).sismember ("genre:" ++ "drama" ++ ":movies") "m1" = false ∧
     (delete_movie "m1" (St.mk [("movie:m1", [("title", HVal.s "T")])]
       [] [] [])).sismember "movie:all" "m1" = false ∧
     (delete_movie "m1" (St.mk [("movie:m1", [("title", HVal.s "T")])]
       [] [] [])).hgetall ("movie:" ++ "m1") = []) := by
  refine ⟨⟨?_, ?_, ?_⟩, ⟨?_, ?_, ?_⟩, ⟨?_, ?_, ?_⟩⟩
  · exact (claim2_delete_clears_partitions.1 [ECOp.create "o1" "c1" "created"]
      St.empty "o1" (fun o s h => Bool.noConfusion h)
      ⟨⟨by decide, by decide, by decide, rfl⟩, trivial⟩).1 "created"
  · exact (claim2_delete_clears_partitions.1 [ECOp.create "o1" "c1" "created"]
      St.empty "o1" (fun o s h => Bool.noConfusion h)
      ⟨⟨by decide, by decide, by decide, rfl⟩, trivial⟩).2.1
  · exact (claim2_delete_clears_partitions.1 [ECOp.create "o1" "c1" "created"]
      St.empty "o1" (fun o s h => Bool.noConfusion h)
      ⟨⟨by decide, by decide, by decide, rfl⟩, trivial⟩).2.2
  · exact (claim2_delete_clears_partitions.2.1
      (St.mk [("post:p1", [("user_id", HVal.s "u1")])] [] [] []) "p1" (by decide)
      (fun x h => Bool.noConfusion h) (fun x h => Bool.noConfusion h)
      (fun x h => Bool.noConfusion h) (fun t h => Bool.noConfusion h)).1 "x"
  · exact (claim2_delete_clears_partitions.2.1
      (St.mk [("post:p1", [("user_id", HVal.s "u1")])] [] [] []) "p1" (by decide)
      (fun x h => Bool.noConfusion h) (fun x h => Bool.noConfusion h)
      (fun x h => Bool.noConfusion h) (fun t h => Bool.noConfusion h)).2.2.2.2.1
  · exact (claim2_delete_clears_partitions.2.1
      (St.mk [("post:p1", [("user_id", HVal.s "u1")])] [] [] []) "p1" (by decide)
      (fun x h => Bool.noConfusion h) (fun x h => Bool.noConfusion h)
      (fun x h => Bool.noConfusion h) (fun t h => Bool.noConfusion h)).2.2.2.2.2
  · exact (claim2_delete_clears_partitions.2.2
      (St.mk [("movie:m1", [("title", HVal.s "T")])] [] [] []) "m1"
      (fun g h => Bool.noConfusion h)).1 "drama"
  · exact (claim2_delete_clears_partitions.2.2
      (St.mk [("movie:m1", [("title", HVal.s "T")])] [] [] []) "m1"
      (fun g h => Bool.noConfusion h)).2.1
  · exact (claim2_delete_clears_partitions.2.2
      (St.mk [("movie:m1", [("title", HVal.s "T")])] [] [] []) "m1"
      (fun g h => Bool.noConfusion h)).2.2
